import Mathlib

/-!
# Entity/component manager and system registry of `bhollier/ecs`

A shallow embedding of `entitycomponent.go`, of the system registry of `system.go` and of the
engine type of `ecs.go`.

Conventions of the embedding

* Go `int` identifiers (entity ids, store indices) are natural numbers: the manager never
  produces a negative one, and a negative one makes every indexing expression panic.
* A run-time panic (index out of range, nil dereference, slice bounds) is the result `none`.
* Go maps are association lists (`GoMap`); only `lookup`, `insert`, `erase` and emptiness are
  observed, so iteration order plays no role where the source ranges over a map of
  independent keys.
* `interface{}` payloads are an arbitrary type `δ` whose `default` stands for `nil`.
* Locks are not modelled: every operation runs to completion on its own.
* Callbacks are functions on an outside world `σ` that do not re-enter the manager. In an
  engine the outside world is the system manager, whose two callbacks `New` registers.
-/

namespace Ecs

/-! ## Go maps -/

/-- Go map with keys `κ` and values `ν`, kept as an association list. -/
structure GoMap (κ ν : Type) where
  entries : List (κ × ν)
deriving DecidableEq, Repr

namespace GoMap

variable {κ ν : Type} [DecidableEq κ]

/-- The map literal `make(map[K]V)`. -/
def empty : GoMap κ ν := ⟨[]⟩

/-- Lookup in an association list. -/
def lookupList : List (κ × ν) → κ → Option ν
  | [], _ => none
  | (k', v) :: rest, k => if k' = k then some v else lookupList rest k

/-- Replace the binding of `k`, or add one when there is none. -/
def insertList : List (κ × ν) → κ → ν → List (κ × ν)
  | [], k, v => [(k, v)]
  | (k', v') :: rest, k, v =>
    if k' = k then (k, v) :: rest else (k', v') :: insertList rest k v

/-- Remove every binding of `k`. -/
def eraseList : List (κ × ν) → κ → List (κ × ν)
  | [], _ => []
  | (k', v') :: rest, k => if k' = k then eraseList rest k else (k', v') :: eraseList rest k

/-- The expression `v, ok := m[k]`. -/
def lookup (m : GoMap κ ν) (k : κ) : Option ν := lookupList m.entries k

/-- The test `_, ok := m[k]`. -/
def contains (m : GoMap κ ν) (k : κ) : Bool := (m.lookup k).isSome

/-- The assignment `m[k] = v`. -/
def insert (m : GoMap κ ν) (k : κ) (v : ν) : GoMap κ ν := ⟨insertList m.entries k v⟩

/-- The statement `delete(m, k)`. -/
def erase (m : GoMap κ ν) (k : κ) : GoMap κ ν := ⟨eraseList m.entries k⟩

/-- The expression `len(m)`. -/
def size (m : GoMap κ ν) : Nat := m.entries.length

/-- The keys of the map, in the order a `range` loop of the model visits them. -/
def keys (m : GoMap κ ν) : List κ := m.entries.map Prod.fst

end GoMap

/-! ## Identifiers -/

/-- ComponentTypeID is a `reflect.Type`: an opaque comparable tag. The tag 0 is the nil
interface value (the result of `reflect.TypeOf(nil)`, which `NewComponentReflect(e, nil)` passes
on); every other tag is a type. -/
abbrev ComponentTypeID := Nat

/-- The nil `reflect.Type`: a valid map key, on which a method call panics. -/
def nilType : ComponentTypeID := 0

/-- EntityID is an identifier for an entity. -/
abbrev EntityID := Nat

/-- ComponentID is an identifier for a component. -/
structure ComponentID where
  ID : Nat
  ComponentTypeID : ComponentTypeID
deriving DecidableEq, Repr

/-- Component is a component's data and its ID. -/
structure Component (δ : Type) where
  id : ComponentID
  Data : δ
deriving DecidableEq, Repr

/-! ## Slices -/

/-- Capacity that `append` asks the allocator for when one element is appended to a full slice
of capacity `cap` (Go 1.18 and later: doubling below 256 elements, then a quarter more plus
192). -/
def goGrowCap (cap : Nat) : Nat :=
  if cap = 0 then 1 else if cap < 256 then 2 * cap else cap + (cap + 768) / 4

/-! ## Component stores -/

/-- The constant `componentBlockSize`. -/
def componentBlockSize : Nat := 64

/-- The record type `component`. -/
structure component (δ : Type) where
  entity : EntityID
  data : δ
  deleted : Bool
deriving DecidableEq, Repr

/-- The zero value `component{}`. -/
def component.zero {δ : Type} [Inhabited δ] : component δ := ⟨0, default, false⟩

/-- The array type `componentBlock`. -/
abbrev componentBlock (δ : Type) := Mathlib.Vector (component δ) componentBlockSize

/-- The zero value `componentBlock{}`. -/
def componentBlock.zero {δ : Type} [Inhabited δ] : componentBlock δ :=
  Mathlib.Vector.replicate componentBlockSize component.zero

/-- The slot of index `id` inside its block. -/
def slotOf (id : Nat) : Fin componentBlockSize :=
  ⟨id % componentBlockSize, Nat.mod_lt id (by decide)⟩

/-- Address of the `data` field of a record: the backing array it lives in (arrays are numbered
in allocation order) and the index of the record in that array. -/
structure dataPtr where
  array : Nat
  cell : Nat
deriving DecidableEq, Repr

/-- The type `componentPtr` (its mutex pointer left out). -/
structure componentPtr where
  id : Nat
  ptr : dataPtr
deriving DecidableEq, Repr

/-- The type `componentTypeManager`. `components` and `len` are the Go fields. The slice
`components` is a window on a backing array: `spare` holds the cells of that array beyond the
slice length (their content survives a truncation until `append` overwrites it) and `retired`
holds the backing arrays that earlier calls of `append` have abandoned, frozen as they were
when they were copied; the current backing array has number `retired.length`. -/
structure componentTypeManager (δ : Type) where
  components : List (componentBlock δ)
  len : Nat
  spare : List (componentBlock δ)
  retired : List (List (componentBlock δ))
deriving DecidableEq

namespace componentTypeManager

variable {δ : Type} [Inhabited δ]

/-- The constructor `newComponentTypeManager`: `make([]componentBlock, 1)` has length and
capacity one. -/
def newComponentTypeManager : componentTypeManager δ :=
  { components := [componentBlock.zero], len := 0, spare := [], retired := [] }

/-- The method `get`: `m.components[id/componentBlockSize][id%componentBlockSize]`. -/
def get (m : componentTypeManager δ) (id : Nat) : Option (component δ) :=
  (m.components[id / componentBlockSize]?).map (fun b => b.get (slotOf id))

/-- The method `getSafe`. -/
def getSafe (m : componentTypeManager δ) (id : Nat) : Option (component δ × Bool) :=
  if id ≥ m.len then some (component.zero, false)
  else (m.get id).map (fun c => (c, true))

/-- The method `getDataPtr`: address of the data cell of record `id` in the current backing
array. -/
def getDataPtr (m : componentTypeManager δ) (id : Nat) : Option dataPtr :=
  if id / componentBlockSize < m.components.length then some ⟨m.retired.length, id⟩ else none

/-- Reading through a pointer made by `getDataPtr`. -/
def deref (m : componentTypeManager δ) (p : dataPtr) : Option δ :=
  let arr := if p.array = m.retired.length then m.components ++ m.spare
    else m.retired.getD p.array []
  (arr[p.cell / componentBlockSize]?).map (fun b => (b.get (slotOf p.cell)).data)

/-- An assignment to (a field of) `m.components[id/componentBlockSize][id%componentBlockSize]`. -/
def modify (m : componentTypeManager δ) (id : Nat) (f : component δ → component δ) :
    Option (componentTypeManager δ) :=
  match m.components[id / componentBlockSize]? with
  | none => none
  | some b =>
    some { m with components :=
      m.components.set (id / componentBlockSize) (b.set (slotOf id) (f (b.get (slotOf id)))) }

/-- Capacity of the new backing array when `append` outgrows the slice `components` of
capacity `cap` by one block: what `goGrowCap` asks for, rounded up by the allocator. A block
is 2048 bytes (64 records of 32 bytes); up to 16 blocks the size asked for is a size class of
the allocator, above it the size is rounded up to a multiple of the 8192-byte page, that is of
four blocks. -/
def growCap (cap : Nat) : Nat :=
  if goGrowCap cap ≤ 16 then goGrowCap cap else (goGrowCap cap + 3) / 4 * 4

/-- The statement `m.components = append(m.components, componentBlock{})`. With spare capacity
the next cell of the backing array is overwritten; without, a new backing array is allocated
and the old one is abandoned. -/
def appendBlock (m : componentTypeManager δ) : componentTypeManager δ :=
  match m.spare with
  | [] =>
    { m with
      components := m.components ++ [componentBlock.zero]
      spare := List.replicate (growCap m.components.length - (m.components.length + 1))
        componentBlock.zero
      retired := m.retired ++ [m.components] }
  | _ :: rest => { m with components := m.components ++ [componentBlock.zero], spare := rest }

/-- The statement `m.components = m.components[:len(m.components)-1]`. -/
def truncateBlock (m : componentTypeManager δ) : Option (componentTypeManager δ) :=
  match m.components.getLast? with
  | none => none
  | some b => some { m with components := m.components.dropLast, spare := b :: m.spare }

/-- The method `new`. -/
def new (m : componentTypeManager δ) (eID : EntityID) (data : δ) :
    Option (componentTypeManager δ × Nat) :=
  let m1 := if m.components.length ≤ m.len / componentBlockSize then m.appendBlock else m
  let id := m1.len
  match m1.modify id (fun _ => { entity := eID, data := data, deleted := false }) with
  | none => none
  | some m2 => some ({ m2 with len := m2.len + 1 }, id)

/-- The loop of `delete`, entered with `end` equal to the first argument: it yields the store
and the value of `end` on exit. -/
def deleteScan : Nat → componentTypeManager δ → Option (componentTypeManager δ × Nat)
  | 0, m => some (m, 0)
  | e + 1, m =>
    match m.get (e + 1) with
    | none => none
    | some c =>
      if c.deleted then
        match (if (e + 1) % componentBlockSize = 0 then m.truncateBlock else some m) with
        | none => none
        | some m1 => deleteScan e m1
      else some (m, e + 1)

/-- The method `delete`. The test `id == m.len-1` on Go integers is `id + 1 = m.len`. -/
def delete (m : componentTypeManager δ) (id : Nat) : Option (componentTypeManager δ) :=
  match m.modify id (fun c => { c with deleted := true }) with
  | none => none
  | some m1 =>
    if id + 1 = m1.len then
      match deleteScan id m1 with
      | none => none
      | some (m2, e) => some { m2 with len := e }
    else some m1

/-- Shape invariant of a store: at least one block, and the length fits in the blocks. -/
def WF (m : componentTypeManager δ) : Prop :=
  0 < m.components.length ∧ m.len ≤ componentBlockSize * m.components.length

end componentTypeManager

/-! ## Runs of store operations -/

/-- The two state-changing methods of a store. -/
inductive StoreOp (δ : Type) where
  | new (eID : EntityID) (data : δ)
  | delete (id : Nat)

namespace componentTypeManager

variable {δ : Type} [Inhabited δ]

/-- One call on a store, `none` when the call panics. -/
def storeStep (m : componentTypeManager δ) : StoreOp δ → Option (componentTypeManager δ)
  | .new eID data => (m.new eID data).map (fun r => r.1)
  | .delete id => m.delete id

/-- A sequence of calls on a store. -/
def storeRun : List (StoreOp δ) → componentTypeManager δ → Option (componentTypeManager δ)
  | [], m => some m
  | op :: ops, m =>
    match storeStep m op with
    | none => none
    | some m1 => storeRun ops m1

/-- The stores that calls of `new` and `delete` make from a new store. -/
def StoreReachable (m : componentTypeManager δ) : Prop :=
  ∃ ops : List (StoreOp δ), storeRun ops newComponentTypeManager = some m

/-- One call of `new` for every pair of the list, in order: the store afterwards and the
indices the calls returned. -/
def newAll : List (EntityID × δ) → componentTypeManager δ →
    Option (componentTypeManager δ × List Nat)
  | [], m => some (m, [])
  | (eID, data) :: rest, m =>
    match m.new eID data with
    | none => none
    | some (m1, id) => (newAll rest m1).map (fun r => (r.1, id :: r.2))

end componentTypeManager

/-! ## Entities -/

/-- The record type `entity`: a map of component pointers indexed by component type. -/
structure entity where
  name : String
  components : GoMap ComponentTypeID componentPtr
  deleted : Bool
deriving DecidableEq, Repr

/-- The public view `Entity`. In Go its `components` field is the map of the table entry
itself; a view is only used before the next mutation of that map. -/
structure Entity where
  id : EntityID
  name : String
  components : GoMap ComponentTypeID componentPtr
deriving DecidableEq, Repr

/-- The method `Entity.Has`. -/
def Entity.Has (e : Entity) (t : ComponentTypeID) : Bool := e.components.contains t

/-- The type `ComponentCallback`, acting on an outside world `σ`. -/
abbrev ComponentCallback (σ : Type) := Entity → σ → σ

/-- Error value of `NewComponent`: two components of the same type in one entity. -/
structure DuplicateTypeError where
  cType : ComponentTypeID
  eID : EntityID
deriving DecidableEq, Repr

deriving instance DecidableEq for Except

/-! ## The entity/component manager -/

/-- The type `entityComponentManager` (its locks and the never used `componentTypes` map left
out). -/
structure entityComponentManager (δ σ : Type) where
  componentTypeManagers : GoMap ComponentTypeID (componentTypeManager δ)
  entities : List entity
  entitiesToBeKilled : GoMap EntityID Unit
  newComponentCallbacks : List (ComponentCallback σ)
  deleteComponentCallbacks : List (ComponentCallback σ)

namespace entityComponentManager

variable {δ σ : Type} [Inhabited δ]

/-- The constructor `newEntityComponentManager`. -/
def newEntityComponentManager : entityComponentManager δ σ :=
  { componentTypeManagers := GoMap.empty
    entities := []
    entitiesToBeKilled := GoMap.empty
    newComponentCallbacks := []
    deleteComponentCallbacks := [] }

/-- The helper `newEntity`: the view of a table entry. -/
def newEntity (id : EntityID) (e : entity) : Entity :=
  { id := id, name := e.name, components := e.components }

/-- Running a list of callbacks, in order, on one entity view. -/
def runCallbacks (cs : List (ComponentCallback σ)) (v : Entity) (w : σ) : σ :=
  cs.foldl (fun acc c => c v acc) w

/-- The method `NewEntity`. -/
def NewEntity (m : entityComponentManager δ σ) (name : String) :
    entityComponentManager δ σ × EntityID :=
  let id := m.entities.length
  ({ m with
      entities := m.entities ++ [{ name := name, components := GoMap.empty, deleted := false }]
      entitiesToBeKilled := m.entitiesToBeKilled.insert id () }, id)

/-- The method `NewComponent`. The result is `none` on a panic; otherwise the returned pair
`(ComponentID, error)`, the manager and the outside world after the callbacks. -/
def NewComponent (m : entityComponentManager δ σ) (eID : EntityID) (cType : ComponentTypeID)
    (data : δ) (w : σ) :
    Option (Except DuplicateTypeError ComponentID × entityComponentManager δ σ × σ) :=
  -- Check the type
  let (typeManager, m1) :=
    match m.componentTypeManagers.lookup cType with
    | some tm => (tm, m)
    | none =>
      (componentTypeManager.newComponentTypeManager,
        { m with componentTypeManagers :=
            m.componentTypeManagers.insert cType componentTypeManager.newComponentTypeManager })
  -- Check for duplicate types
  match m1.entities[eID]? with
  | none => none
  | some ent =>
    if ent.components.contains cType then
      -- The error message is built with `cType.String()`, which panics on the nil type
      if cType = nilType then none
      else some (Except.error { cType := cType, eID := eID }, m1, w)
    else
      -- Create the component
      match typeManager.new eID data with
      | none => none
      | some (tm1, id) =>
        -- Add the component to the entity
        match tm1.getDataPtr id with
        | none => none
        | some p =>
          let ent1 := { ent with components := ent.components.insert cType { id := id, ptr := p } }
          let m2 : entityComponentManager δ σ :=
            { m1 with
              componentTypeManagers := m1.componentTypeManagers.insert cType tm1
              entities := m1.entities.set eID ent1
              -- Make sure the entity won't be deleted
              entitiesToBeKilled := m1.entitiesToBeKilled.erase eID }
          -- Run the callbacks
          some (Except.ok { ID := id, ComponentTypeID := cType }, m2,
            runCallbacks m2.newComponentCallbacks (newEntity eID ent1) w)

/-- The method `NewComponentCallback`. -/
def NewComponentCallback (m : entityComponentManager δ σ) (c : ComponentCallback σ) :
    entityComponentManager δ σ :=
  { m with newComponentCallbacks := m.newComponentCallbacks ++ [c] }

/-- The method `DeleteComponentCallback`. -/
def DeleteComponentCallback (m : entityComponentManager δ σ) (c : ComponentCallback σ) :
    entityComponentManager δ σ :=
  { m with deleteComponentCallbacks := m.deleteComponentCallbacks ++ [c] }

/-- The method `GetEntity`. -/
def GetEntity (m : entityComponentManager δ σ) (id : EntityID) : Option Entity :=
  (m.entities[id]?).map (newEntity id)

/-- The method `Entity.Get`, reading through the stored pointer in the memory of manager `m`.
A type the entity lacks yields the zero `componentPtr`, whose nil pointers panic. -/
def EntityGet (m : entityComponentManager δ σ) (e : Entity) (t : ComponentTypeID) :
    Option (Component δ) :=
  match e.components.lookup t with
  | none => none
  | some c =>
    match m.componentTypeManagers.lookup t with
    | none => none
    | some tm =>
      (tm.deref c.ptr).map (fun d => { id := { ID := c.id, ComponentTypeID := t }, Data := d })

/-- The method `GetComponent`. A type without store yields a nil manager, which panics. -/
def GetComponent (m : entityComponentManager δ σ) (id : ComponentID) : Option δ :=
  match m.componentTypeManagers.lookup id.ComponentTypeID with
  | none => none
  | some tm => (tm.get id.ID).map (fun c => c.data)

/-- The method `UpdateComponent`. -/
def UpdateComponent (m : entityComponentManager δ σ) (id : ComponentID) (data : δ) :
    Option (entityComponentManager δ σ) :=
  match m.componentTypeManagers.lookup id.ComponentTypeID with
  | none => none
  | some tm =>
    match tm.modify id.ID (fun c => { c with data := data }) with
    | none => none
    | some tm1 =>
      some { m with componentTypeManagers := m.componentTypeManagers.insert id.ComponentTypeID tm1 }

/-- The loop of `DeleteEntity` over the components of the entity: each one is deleted in
its store. Distinct keys name distinct stores, so the order of the range is immaterial. -/
def deleteComponentsOf :
    GoMap ComponentTypeID (componentTypeManager δ) → List (ComponentTypeID × componentPtr) →
    Option (GoMap ComponentTypeID (componentTypeManager δ))
  | stores, [] => some stores
  | stores, (cType, c) :: rest =>
    match stores.lookup cType with
    | none => none
    | some tm =>
      match tm.delete c.id with
      | none => none
      | some tm1 => deleteComponentsOf (stores.insert cType tm1) rest

/-- The method `DeleteEntity`. -/
def DeleteEntity (m : entityComponentManager δ σ) (id : EntityID) :
    Option (entityComponentManager δ σ) :=
  if id ≥ m.entities.length then some m
  else
    match m.entities[id]? with
    | none => none
    | some ent =>
      -- Delete the entity's components
      match deleteComponentsOf m.componentTypeManagers ent.components.entries with
      | none => none
      | some stores =>
        some { m with
          componentTypeManagers := stores
          entities := m.entities.set id { ent with components := GoMap.empty }
          -- Set the entity has to be killed
          entitiesToBeKilled := m.entitiesToBeKilled.insert id () }

/-- The method `DeleteComponent`. -/
def DeleteComponent (m : entityComponentManager δ σ) (id : ComponentID) (w : σ) :
    Option (entityComponentManager δ σ × σ) :=
  match m.componentTypeManagers.lookup id.ComponentTypeID with
  | none => some (m, w)
  | some tm =>
    -- Get the component
    match tm.getSafe id.ID with
    | none => none
    | some (_, false) => some (m, w)
    | some (c, true) =>
      -- Delete the component
      match tm.delete id.ID with
      | none => none
      | some tm1 =>
        -- Delete the component from the entity
        match m.entities[c.entity]? with
        | none => none
        | some ent =>
          let ent1 := { ent with components := ent.components.erase id.ComponentTypeID }
          let m1 : entityComponentManager δ σ :=
            { m with
              componentTypeManagers := m.componentTypeManagers.insert id.ComponentTypeID tm1
              entities := m.entities.set c.entity ent1
              -- If the entity is now empty, kill it
              entitiesToBeKilled :=
                if ent1.components.size = 0 then m.entitiesToBeKilled.insert c.entity ()
                else m.entitiesToBeKilled }
          -- Run the callbacks
          some (m1, runCallbacks m1.deleteComponentCallbacks (newEntity c.entity ent1) w)

/-- First loop of `DeleteEmptyEntities`: every listed entity gets its `deleted` flag. -/
def markDeleted : List entity → List EntityID → Option (List entity)
  | es, [] => some es
  | es, id :: rest =>
    match es[id]? with
    | none => none
    | some ent => markDeleted (es.set id { ent with deleted := true }) rest

/-- Second loop of `DeleteEmptyEntities`, entered with `end` equal to the second argument: the
value of `end` on exit. -/
def reapScan (es : List entity) : Nat → Option Nat
  | 0 => some 0
  | e + 1 =>
    match es[e + 1]? with
    | none => none
    | some ent => if ent.deleted then reapScan es e else some (e + 1)

/-- The method `DeleteEmptyEntities`. -/
def DeleteEmptyEntities (m : entityComponentManager δ σ) : Option (entityComponentManager δ σ) :=
  match markDeleted m.entities m.entitiesToBeKilled.keys with
  | none => none
  | some es =>
    -- If this is the "last" entity
    let deletedLast := m.entitiesToBeKilled.keys.any (fun id => decide (id + 1 = es.length))
    if deletedLast then
      -- Find the last non deleted entity
      match reapScan es (es.length - 1) with
      | none => none
      | some e => some { m with entities := es.take e, entitiesToBeKilled := GoMap.empty }
    else some { m with entities := es, entitiesToBeKilled := GoMap.empty }

/-- The store `NewComponent` works on: the one of the type, or a new one. -/
def storeFor (m : entityComponentManager δ σ) (cType : ComponentTypeID) : componentTypeManager δ :=
  match m.componentTypeManagers.lookup cType with
  | some tm => tm
  | none => componentTypeManager.newComponentTypeManager

/-- Invariant of the manager: every store is well shaped, and every component type held by an
entity of the table has a store. -/
def Inv (m : entityComponentManager δ σ) : Prop :=
  (∀ t tm, m.componentTypeManagers.lookup t = some tm → tm.WF) ∧
  (∀ ent, ent ∈ m.entities → ∀ t, ent.components.contains t = true →
    m.componentTypeManagers.contains t = true)

end entityComponentManager

/-! ## Iteration with a visitor -/

/-- The loop shared by `ForEvents`, `ForEntities` and `ForSystems`:
`for _, x := range xs { ok, err := i(x); if !ok || err != nil { return ok, err } }`
followed by `return true, nil`. The visitor acts on an outside world `ω`; `none` is a panic of
the visitor; a Go `error` is an `Option ξ` with `none` for `nil`. The range expression is
evaluated once, so the loop runs over the list as it was when the loop started. -/
def forEach {α ω ξ : Type} (i : α → ω → Option ((Bool × Option ξ) × ω)) :
    List α → ω → Option ((Bool × Option ξ) × ω)
  | [], w => some ((true, none), w)
  | x :: rest, w =>
    match i x w with
    | none => none
    | some (r, w1) => if !r.1 || r.2.isSome then some (r, w1) else forEach i rest w1

/-! ## Queries -/

/-- The function `entityHasComponents`: whether the entity has all the given component types. -/
def entityHasComponents (e : entity) : List ComponentTypeID → Bool
  | [] => true
  | cType :: rest => if e.components.contains cType then entityHasComponents e rest else false

namespace entityComponentManager

variable {δ σ : Type}

/-- The loop of `GetEntityIDs` over the table, the first entity of the list having id `id`. -/
def getEntityIDsFrom (actsOn : List ComponentTypeID) : EntityID → List entity → List EntityID
  | _, [] => []
  | id, e :: rest =>
    if entityHasComponents e actsOn then id :: getEntityIDsFrom actsOn (id + 1) rest
    else getEntityIDsFrom actsOn (id + 1) rest

/-- The method `GetEntityIDs`. -/
def GetEntityIDs (m : entityComponentManager δ σ) (actsOn : List ComponentTypeID) :
    List EntityID :=
  getEntityIDsFrom actsOn 0 m.entities

/-- The views `m.newEntity(EntityID(id), entity)` that the loop of `ForEntities` makes, the
first entity of the list having id `id`. -/
def entityViews : EntityID → List entity → List Entity
  | _, [] => []
  | id, e :: rest => newEntity id e :: entityViews (id + 1) rest

/-- The method `ForEntities`, for a visitor that acts on an outside world. -/
def ForEntities {ω ξ : Type} (m : entityComponentManager δ σ)
    (i : Entity → ω → Option ((Bool × Option ξ) × ω)) (w : ω) :
    Option ((Bool × Option ξ) × ω) :=
  forEach i (entityViews 0 m.entities) w

end entityComponentManager

/-! ## Runs of public operations -/

/-- The state-changing calls of the `EntityComponentManager` interface. -/
inductive Op (δ σ : Type) where
  | NewEntity (name : String)
  | NewComponent (eID : EntityID) (cType : ComponentTypeID) (data : δ)
  | NewComponentCallback (c : ComponentCallback σ)
  | UpdateComponent (id : ComponentID) (data : δ)
  | DeleteEntity (id : EntityID)
  | DeleteComponent (id : ComponentID)
  | DeleteComponentCallback (c : ComponentCallback σ)
  | DeleteEmptyEntities

section Runs

variable {δ σ : Type} [Inhabited δ]

/-- One call: the manager and the outside world afterwards, `none` when the call panics. -/
def step (s : entityComponentManager δ σ × σ) : Op δ σ → Option (entityComponentManager δ σ × σ)
  | .NewEntity name => some ((s.1.NewEntity name).1, s.2)
  | .NewComponent eID cType data => (s.1.NewComponent eID cType data s.2).map (fun r => r.2)
  | .NewComponentCallback c => some (s.1.NewComponentCallback c, s.2)
  | .UpdateComponent id data => (s.1.UpdateComponent id data).map (fun m => (m, s.2))
  | .DeleteEntity id => (s.1.DeleteEntity id).map (fun m => (m, s.2))
  | .DeleteComponent id => s.1.DeleteComponent id s.2
  | .DeleteComponentCallback c => some (s.1.DeleteComponentCallback c, s.2)
  | .DeleteEmptyEntities => (s.1.DeleteEmptyEntities).map (fun m => (m, s.2))

/-- A sequence of calls, each one starting where the previous one ended. -/
def runOps : List (Op δ σ) → entityComponentManager δ σ × σ →
    Option (entityComponentManager δ σ × σ)
  | [], s => some s
  | op :: ops, s =>
    match step s op with
    | none => none
    | some s1 => runOps ops s1

/-- A manager state is reachable when a sequence of public calls, none of which panics, leads
to it from a new manager. -/
def Reachable (m : entityComponentManager δ σ) : Prop :=
  ∃ (ops : List (Op δ σ)) (w0 w : σ),
    runOps ops (entityComponentManager.newEntityComponentManager, w0) = some (m, w)

end Runs

/-! ## Events -/

/-- EventTypeID is a `reflect.Type`: an opaque comparable tag. -/
abbrev EventTypeID := Nat

/-- Event is an event's data and its ID. -/
structure Event (ε : Type) where
  EventTypeID : EventTypeID
  Data : ε
deriving DecidableEq, Repr

/-- The type `eventManager` (the never used `eventTypes` map left out). `eventQueue` is the Go
field, a slice. The slice is a window on a backing array: `spare` holds the cells of that array
right after the slice that hold an event written earlier (`ClearEvents` leaves the events in
their cells until `append` overwrites them), `free` counts the cells after those, to which
nothing was written yet, and `retired` holds the backing arrays that earlier calls of `append`
have abandoned, frozen as they were when they were copied; the current backing array has
number `retired.length`. -/
structure eventManager (ε : Type) where
  eventQueue : List (Event ε)
  spare : List (Event ε)
  free : Nat
  retired : List (List (Event ε))
deriving DecidableEq, Repr

/-- The constructor `newEventManager`: `make([]Event, 0)` has length and capacity zero. -/
def eventManager.newEventManager {ε : Type} : eventManager ε :=
  { eventQueue := [], spare := [], free := 0, retired := [] }

/-- The method `NewEvent`: the event is appended to the queue, whatever its type and data.
With spare capacity `append` writes the next cell of the backing array; without, it allocates
a new backing array and abandons the old one. The new capacity is the one `goGrowCap` asks
for: an event is 32 bytes, and for the capacities of a queue grown from `newEventManager`
(1, 2, 4, ... cells) the allocator adds nothing to it up to 512 cells. -/
def eventManager.NewEvent {ε : Type} (m : eventManager ε) (eType : EventTypeID) (data : ε) :
    eventManager ε :=
  match m.spare with
  | _ :: rest =>
    { m with
      eventQueue := m.eventQueue ++ [{ EventTypeID := eType, Data := data }], spare := rest }
  | [] =>
    if m.free > 0 then
      { m with
        eventQueue := m.eventQueue ++ [{ EventTypeID := eType, Data := data }]
        free := m.free - 1 }
    else
      { eventQueue := m.eventQueue ++ [{ EventTypeID := eType, Data := data }]
        spare := []
        free := goGrowCap m.eventQueue.length - (m.eventQueue.length + 1)
        retired := m.retired ++ [m.eventQueue] }

/-- The method `ForEvents`, for a visitor that acts on an outside world and leaves the event
manager alone. -/
def eventManager.ForEvents {ε ω ξ : Type} (m : eventManager ε)
    (i : Event ε → ω → Option ((Bool × Option ξ) × ω)) (w : ω) :
    Option ((Bool × Option ξ) × ω) :=
  forEach i m.eventQueue w

/-- The method `ClearEvents`: `m.eventQueue = m.eventQueue[:0]` keeps the backing array and
what its cells hold. -/
def eventManager.ClearEvents {ε : Type} (m : eventManager ε) : eventManager ε :=
  if m.eventQueue.length > 0 then
    { m with eventQueue := [], spare := m.eventQueue ++ m.spare }
  else m

/-- The event that the cell of index `i` of the backing array number `a` holds now, `none`
for a cell to which nothing was written. -/
def eventManager.cell {ε : Type} (m : eventManager ε) (a i : Nat) : Option (Event ε) :=
  if a = m.retired.length then (m.eventQueue ++ m.spare)[i]?
  else (m.retired.getD a [])[i]?

/-- The event manager after one `NewEvent` for every pair of type and payload of the list, in
order. -/
def eventManager.pushAll {ε : Type} (m : eventManager ε) (l : List (EventTypeID × ε)) :
    eventManager ε :=
  l.foldl (fun acc p => acc.NewEvent p.1 p.2) m

/-- The first cells of the backing array number `a` hold the events `q`, and no `append` will
overwrite them: either `a` is the current array and `q` is the start of the queue, or `a` is an
abandoned array that starts with `q`. -/
def eventManager.Keeps {ε : Type} (m : eventManager ε) (a : Nat) (q : List (Event ε)) :
    Prop :=
  (a = m.retired.length ∧ q <+: m.eventQueue) ∨
  (a < m.retired.length ∧ q <+: m.retired.getD a [])

/-! ## Systems -/

/-- SystemID is an identifier for a system. -/
abbrev SystemID := Nat

/-- The type `system`. Its function `f` is kept as a value of an arbitrary type `β`; what a
behaviour does is given from outside when systems are run. -/
structure system (β : Type) where
  f : β
  triggeredBy : EventTypeID
  actsOn : List ComponentTypeID
  entities : GoMap EntityID Unit
deriving DecidableEq, Repr

/-- The type `systemManager` (its engine pointer and wait group left out). -/
structure systemManager (β : Type) where
  systems : List (system β)
deriving DecidableEq, Repr

/-- The check both callbacks make on an entity view: the loop over `system.actsOn` that clears
`entityHasComponents` at the first type the entity lacks. -/
def Entity.hasComponents (entity : Entity) : List ComponentTypeID → Bool
  | [] => true
  | cType :: rest => if !entity.Has cType then false else Entity.hasComponents entity rest

namespace systemManager

variable {β : Type}

/-- The constructor `newSystemManager` (the registration of the callbacks is in `ECS.New`). -/
def newSystemManager : systemManager β := { systems := [] }

/-- The loop of `NewSystem` that fills the set of a new system. -/
def fillEntities (set : GoMap EntityID Unit) (entities : List EntityID) : GoMap EntityID Unit :=
  entities.foldl (fun acc eID => acc.insert eID ()) set

/-- The method `NewSystem`, given the result of `m.ecs.GetEntityIDs(actsOn)`. -/
def NewSystem (m : systemManager β) (entities : List EntityID) (s : β)
    (triggeredBy : EventTypeID) (actsOn : List ComponentTypeID) : systemManager β × SystemID :=
  -- Add the system
  let id := m.systems.length
  ({ systems := m.systems ++
      [{ f := s, triggeredBy := triggeredBy, actsOn := actsOn,
         -- Fill the set
         entities := fillEntities GoMap.empty entities }] }, id)

/-- The method `newComponentCallback`. -/
def newComponentCallback (entity : Entity) (m : systemManager β) : systemManager β :=
  { systems := m.systems.map (fun system =>
      -- Check if the entity has all the correct components
      if entity.hasComponents system.actsOn then
        -- Add the entity to the system
        { system with entities := system.entities.insert entity.id () }
      else system) }

/-- The method `deleteComponentCallback`. -/
def deleteComponentCallback (entity : Entity) (m : systemManager β) : systemManager β :=
  { systems := m.systems.map (fun system =>
      -- Skip if the entity isn't in the system
      if !system.entities.contains entity.id then system
      -- Check if the entity has all the correct components
      else if !entity.hasComponents system.actsOn then
        -- Delete the entity from the system
        { system with entities := system.entities.erase entity.id }
      else system) }

end systemManager

/-! ## Views of systems -/

/-- The builtin `copy(dst, src)`: the destination slice afterwards. The first
`min(len(dst), len(src))` cells receive the cells of the source, the other cells stay. -/
def goCopy {α : Type} (dst src : List α) : List α :=
  src.take dst.length ++ dst.drop src.length

/-- The type `System`: an id and (in Go, a pointer to) the system of the registry. -/
structure System (β : Type) where
  id : SystemID
  system : system β

namespace System

variable {β : Type}

/-- The method `ID`. -/
def ID (s : System β) : SystemID := s.id

/-- The method `Func`. -/
def Func (s : System β) : β := s.system.f

/-- The method `TriggeredBy`. -/
def TriggeredBy (s : System β) : EventTypeID := s.system.triggeredBy

/-- The method `ActsOn`: `var actsOn []ComponentTypeID; copy(actsOn, s.actsOn); return actsOn`.
The destination of the copy is the nil slice. -/
def ActsOn (s : System β) : List ComponentTypeID :=
  goCopy [] s.system.actsOn

/-- The method `Entities`, in the order of the model's map. -/
def Entities (s : System β) : List EntityID := s.system.entities.keys

end System

/-- The method `GetSystem`, `none` when the index is out of range (a panic). -/
def systemManager.GetSystem {β : Type} (m : systemManager β) (id : SystemID) :
    Option (System β) :=
  (m.systems[id]?).map (fun s => { id := id, system := s })

/-! ## The engine -/

/-- The type `ECS` (its `World` map, which no engine code reads, left out). The outside world
of the entity/component manager is the system manager: the only callbacks are its two. -/
structure ECS (δ ε β : Type) where
  EntityComponentManager : entityComponentManager δ (systemManager β)
  EventManager : eventManager ε
  SystemManager : systemManager β

namespace ECS

variable {δ ε β : Type} [Inhabited δ]

/-- The constructor `New`: `newSystemManager` registers the two callbacks of the system
manager with the entity/component manager. -/
def New : ECS δ ε β :=
  { EntityComponentManager :=
      (entityComponentManager.newEntityComponentManager.NewComponentCallback
        systemManager.newComponentCallback).DeleteComponentCallback
        systemManager.deleteComponentCallback
    EventManager := eventManager.newEventManager
    SystemManager := systemManager.newSystemManager }

/-- An engine whose callback lists are the ones `New` installs. -/
def Wired (ecs : ECS δ ε β) : Prop :=
  ecs.EntityComponentManager.newComponentCallbacks = [systemManager.newComponentCallback] ∧
  ecs.EntityComponentManager.deleteComponentCallbacks = [systemManager.deleteComponentCallback]

/-- The call `ecs.NewEntity`. -/
def NewEntity (ecs : ECS δ ε β) (name : String) : ECS δ ε β × EntityID :=
  ({ ecs with EntityComponentManager := (ecs.EntityComponentManager.NewEntity name).1 },
    (ecs.EntityComponentManager.NewEntity name).2)

/-- The call `ecs.NewComponent`: the callbacks act on the system manager. -/
def NewComponent (ecs : ECS δ ε β) (eID : EntityID) (cType : ComponentTypeID) (data : δ) :
    Option (Except DuplicateTypeError ComponentID × ECS δ ε β) :=
  (ecs.EntityComponentManager.NewComponent eID cType data ecs.SystemManager).map
    (fun r => (r.1, { ecs with EntityComponentManager := r.2.1, SystemManager := r.2.2 }))

/-- The call `ecs.UpdateComponent`. -/
def UpdateComponent (ecs : ECS δ ε β) (id : ComponentID) (data : δ) : Option (ECS δ ε β) :=
  (ecs.EntityComponentManager.UpdateComponent id data).map
    (fun m => { ecs with EntityComponentManager := m })

/-- The call `ecs.DeleteEntity`. -/
def DeleteEntity (ecs : ECS δ ε β) (id : EntityID) : Option (ECS δ ε β) :=
  (ecs.EntityComponentManager.DeleteEntity id).map
    (fun m => { ecs with EntityComponentManager := m })

/-- The call `ecs.DeleteComponent`: the callbacks act on the system manager. -/
def DeleteComponent (ecs : ECS δ ε β) (id : ComponentID) : Option (ECS δ ε β) :=
  (ecs.EntityComponentManager.DeleteComponent id ecs.SystemManager).map
    (fun r => { ecs with EntityComponentManager := r.1, SystemManager := r.2 })

/-- The call `ecs.DeleteEmptyEntities`. -/
def DeleteEmptyEntities (ecs : ECS δ ε β) : Option (ECS δ ε β) :=
  (ecs.EntityComponentManager.DeleteEmptyEntities).map
    (fun m => { ecs with EntityComponentManager := m })

/-- The call `ecs.NewSystem`. -/
def NewSystem (ecs : ECS δ ε β) (s : β) (triggeredBy : EventTypeID)
    (actsOn : List ComponentTypeID) : ECS δ ε β × SystemID :=
  -- Get all the entities the system should act on
  let entities := ecs.EntityComponentManager.GetEntityIDs actsOn
  ({ ecs with SystemManager := (ecs.SystemManager.NewSystem entities s triggeredBy actsOn).1 },
    (ecs.SystemManager.NewSystem entities s triggeredBy actsOn).2)

end ECS

/-- The structural calls on an engine. -/
inductive EngineOp (δ β : Type) where
  | NewEntity (name : String)
  | NewComponent (eID : EntityID) (cType : ComponentTypeID) (data : δ)
  | UpdateComponent (id : ComponentID) (data : δ)
  | DeleteEntity (id : EntityID)
  | DeleteComponent (id : ComponentID)
  | DeleteEmptyEntities
  | NewSystem (s : β) (triggeredBy : EventTypeID) (actsOn : List ComponentTypeID)

section EngineRuns

variable {δ ε β : Type} [Inhabited δ]

/-- One structural call on an engine, `none` when the call panics. -/
def engineStep (ecs : ECS δ ε β) : EngineOp δ β → Option (ECS δ ε β)
  | .NewEntity name => some (ecs.NewEntity name).1
  | .NewComponent eID cType data => (ecs.NewComponent eID cType data).map (fun r => r.2)
  | .UpdateComponent id data => ecs.UpdateComponent id data
  | .DeleteEntity id => ecs.DeleteEntity id
  | .DeleteComponent id => ecs.DeleteComponent id
  | .DeleteEmptyEntities => ecs.DeleteEmptyEntities
  | .NewSystem s triggeredBy actsOn => some (ecs.NewSystem s triggeredBy actsOn).1

/-- A sequence of structural calls on an engine. -/
def engineRun : List (EngineOp δ β) → ECS δ ε β → Option (ECS δ ε β)
  | [], ecs => some ecs
  | op :: ops, ecs =>
    match engineStep ecs op with
    | none => none
    | some ecs1 => engineRun ops ecs1

end EngineRuns

/-! ## Running systems -/

/-- The type `SystemFunc`: what a behaviour does to the engine, `none` when it panics. -/
abbrev SystemFunc (δ ε β : Type) := ECS δ ε β → Event ε → Entity → Option (ECS δ ε β)

namespace ECS

variable {δ ε β : Type} [Inhabited δ]

/-- The call `ecs.GetEntity`. -/
def GetEntity (ecs : ECS δ ε β) (id : EntityID) : Option Entity :=
  ecs.EntityComponentManager.GetEntity id

/-- The call `ecs.GetComponent`. -/
def GetComponent (ecs : ECS δ ε β) (id : ComponentID) : Option δ :=
  ecs.EntityComponentManager.GetComponent id

/-- The call `ecs.GetSystem`. -/
def GetSystem (ecs : ECS δ ε β) (id : SystemID) : Option (System β) :=
  ecs.SystemManager.GetSystem id

/-- The call `ecs.NewEvent`. -/
def NewEvent (ecs : ECS δ ε β) (eType : EventTypeID) (data : ε) : ECS δ ε β :=
  { ecs with EventManager := ecs.EventManager.NewEvent eType data }

/-- The call `ecs.ClearEvents`. -/
def ClearEvents (ecs : ECS δ ε β) : ECS δ ε β :=
  { ecs with EventManager := ecs.EventManager.ClearEvents }

/-- The loop `for id := range s.entities` of `system.Run` for the system of index `i`, over the
keys the map had when the loop started. An entry removed before its turn is not produced
(the set is the map shared with the registry, read in the current engine). Go leaves the
order of the loop unspecified and may or may not produce an entry added during the loop: the
order here is that of the model's map, and an entry added during the loop is not visited. -/
def runEntities (run : β → SystemFunc δ ε β) (f : β) (i : SystemID) (event : Event ε) :
    List EntityID → ECS δ ε β → Option (ECS δ ε β)
  | [], ecs => some ecs
  | id :: rest, ecs =>
    match ecs.SystemManager.systems[i]? with
    | none => runEntities run f i event rest ecs
    | some S =>
      if S.entities.contains id then
        match ecs.GetEntity id with
        | none => none
        | some e =>
          match run f ecs event e with
          | none => none
          | some ecs1 => runEntities run f i event rest ecs1
      else runEntities run f i event rest ecs

/-- The method `system.Run` for the system of index `i`, whose fields are `S`. -/
def systemRun (run : β → SystemFunc δ ε β) (i : SystemID) (S : system β) (ecs : ECS δ ε β)
    (event : Event ε) : Option (ECS δ ε β) :=
  -- If the system is triggered by the event
  if S.triggeredBy = event.EventTypeID then
    runEntities run S.f i event S.entities.keys ecs
  else some ecs

/-- The loop of `RunSystems` over the systems registered when the loop started, given by their
indices. Function, trigger and required list of a system never change and its set is a map
shared with the registry, so the copy the loop makes is the current system of that index. -/
def runSystemsLoop (run : β → SystemFunc δ ε β) (event : Event ε) :
    List SystemID → ECS δ ε β → Option (ECS δ ε β)
  | [], ecs => some ecs
  | i :: rest, ecs =>
    match ecs.SystemManager.systems[i]? with
    | none => runSystemsLoop run event rest ecs
    | some S =>
      match systemRun run i S ecs event with
      | none => none
      | some ecs1 => runSystemsLoop run event rest ecs1

/-- The method `RunSystems`. -/
def RunSystems (run : β → SystemFunc δ ε β) (ecs : ECS δ ε β) (event : Event ε) :
    Option (ECS δ ε β) :=
  runSystemsLoop run event (List.range ecs.SystemManager.systems.length) ecs

/-- The loop `for _, event := range m.eventQueue` of `ForEvents` for a visitor that acts on
the engine. `range` evaluates the slice once, so the loop runs over the indices below the
length the queue had at the call and reads, at every turn, the cell of that index in the
backing array `a` the slice had at the call: a cell that `append` has overwritten meanwhile
(after a `ClearEvents`) yields the new event. The cells the loop reads were written before the
call, so a read finds an event as long as the visitor changes the event manager through its
methods only. -/
def forEventCells {ξ : Type} (i : Event ε → ECS δ ε β → Option ((Bool × Option ξ) × ECS δ ε β))
    (a : Nat) : List Nat → ECS δ ε β → Option ((Bool × Option ξ) × ECS δ ε β)
  | [], ecs => some ((true, none), ecs)
  | k :: rest, ecs =>
    match ecs.EventManager.cell a k with
    | none => none
    | some event =>
      match i event ecs with
      | none => none
      | some (r, ecs1) =>
        if !r.1 || r.2.isSome then some (r, ecs1) else forEventCells i a rest ecs1

/-- The call `ecs.ForEvents`, for a visitor that acts on the engine. -/
def ForEvents {ξ : Type} (ecs : ECS δ ε β)
    (i : Event ε → ECS δ ε β → Option ((Bool × Option ξ) × ECS δ ε β)) :
    Option ((Bool × Option ξ) × ECS δ ε β) :=
  forEventCells i ecs.EventManager.retired.length
    (List.range ecs.EventManager.eventQueue.length) ecs

/-- The method `Run`: the visitor given to `ForEvents` runs the systems on the engine and
returns `true, nil`. -/
def Run (run : β → SystemFunc δ ε β) (ecs : ECS δ ε β) : Option (ECS δ ε β) :=
  match ecs.ForEvents
      (fun event (ecs1 : ECS δ ε β) =>
        (ecs1.RunSystems run event).map (fun ecs2 => ((true, (none : Option Unit)), ecs2))) with
  | none => none
  | some (_, ecs1) => some ecs1.ClearEvents

end ECS

/-- The method `Component.Update`. -/
def Component.Update {δ ε β : Type} (c : Component δ) (ecs : ECS δ ε β) :
    Option (ECS δ ε β) :=
  ecs.UpdateComponent c.id c.Data

/-! ## Invariant of the pending-deletion set -/

/-- Every id of the pending-deletion set is an index of the table, and the entity there has an
empty mapping. -/
def entityComponentManager.PendingInv {δ σ : Type} (m : entityComponentManager δ σ) : Prop :=
  ∀ id, m.entitiesToBeKilled.contains id = true →
    ∃ ent, m.entities[id]? = some ent ∧ ent.components.entries = []

/-! ## Concrete runs -/

/-- A new manager with payloads in `Nat` and no outside world. -/
def init : entityComponentManager Nat Unit × Unit :=
  (entityComponentManager.newEntityComponentManager, ())

/-- The manager after a run of calls on a new manager (a new manager when the run panics). -/
def managerAfter (ops : List (Op Nat Unit)) : entityComponentManager Nat Unit :=
  match runOps ops init with
  | some s => s.1
  | none => entityComponentManager.newEntityComponentManager

/-- One entity holding one component of type 1. -/
def oneComponent : List (Op Nat Unit) :=
  [Op.NewEntity "a", Op.NewComponent 0 1 5]

/-- One entity holding one component of the nil type with the nil payload: the calls
`NewEntity("a")` and `NewComponentReflect(0, nil)`. -/
def nilComponent : List (Op Nat Unit) :=
  [Op.NewEntity "a", Op.NewComponent 0 nilType 0]

/-- Two entities, each with a component of type 7, and the deletion of the second component
(the one with the highest index). -/
def deleteSecondOfTwo : List (Op Nat Unit) :=
  [Op.NewEntity "a", Op.NewEntity "b", Op.NewComponent 0 7 10, Op.NewComponent 1 7 11,
    Op.DeleteComponent { ID := 1, ComponentTypeID := 7 }]

/-- Creating `n` components in a store, one after the other; entity and payload of the
component of index `i` are `i`. -/
def createN : Nat → componentTypeManager Nat → Option (componentTypeManager Nat)
  | 0, m => some m
  | n + 1, m =>
    match createN n m with
    | none => none
    | some m1 => (m1.new n n).map Prod.fst

/-- Deleting the `k` highest indices below `n`, highest first: `n-1`, `n-2`, ..., `n-k`. -/
def deleteTop : Nat → Nat → componentTypeManager Nat → Option (componentTypeManager Nat)
  | 0, _, m => some m
  | k + 1, n, m =>
    match m.delete (n - 1) with
    | none => none
    | some m1 => deleteTop k (n - 1) m1

/-- Entities `0 .. n-1`. -/
def newEntities (n : Nat) : List (Op Nat Unit) :=
  (List.range n).map (fun _ => Op.NewEntity "e")

/-- A component of type 7 with payload `i` for every entity `i` with `lo ≤ i < lo + n`. -/
def newComponents (lo n : Nat) : List (Op Nat Unit) :=
  (List.range n).map (fun i => Op.NewComponent (lo + i) 7 (lo + i))

/-- Deletion of the components of type 7 with indices `0 .. n-1`, in ascending order. -/
def deleteComponents (n : Nat) : List (Op Nat Unit) :=
  (List.range n).map (fun i => Op.DeleteComponent { ID := i, ComponentTypeID := 7 })

/-- Sixty-five entities, each with a component of type 7: the store grows to a second block. -/
def growToSecondBlock : List (Op Nat Unit) :=
  newEntities 65 ++ newComponents 0 65

/-- Sixty-seven entities; components of type 7 for the entities `0 .. 64`. -/
def beforeComponent65 : List (Op Nat Unit) :=
  newEntities 67 ++ newComponents 0 65

/-- What follows the creation of component 65: component 66 is created and deleted, then the
components `0 .. 64` are deleted. Component 65 is never deleted. -/
def afterComponent65 : List (Op Nat Unit) :=
  [Op.NewComponent 66 7 66, Op.DeleteComponent { ID := 66, ComponentTypeID := 7 }]
    ++ deleteComponents 65

/-- A new manager whose outside world counts the calls of the deletion callbacks. -/
def initCount : entityComponentManager Nat Nat × Nat :=
  (entityComponentManager.newEntityComponentManager, 0)

/-- A deletion callback that counts its calls is registered; entities 0 and 1 receive the
components 0 and 1 of type 7; component 0 is deleted; entity 0 receives a new component of
type 7 (index 2). -/
def deleteThenReplace : List (Op Nat Nat) :=
  [Op.DeleteComponentCallback (fun _ n => n + 1), Op.NewEntity "a", Op.NewEntity "b",
    Op.NewComponent 0 7 10, Op.NewComponent 1 7 11,
    Op.DeleteComponent { ID := 0, ComponentTypeID := 7 }, Op.NewComponent 0 7 12]

/-- Entity 0 receives a component of type 7, then an empty entity 1 is created. -/
def ownerThenEmpty : List (Op Nat Unit) :=
  [Op.NewEntity "a", Op.NewComponent 0 7 10, Op.NewEntity "b"]

/-- A new engine with payloads in `Nat` and behaviours without content. -/
def engine : ECS Nat Nat Unit := ECS.New

/-- The engine after a run of structural calls on a new engine (a new engine when the run
panics). -/
def engineAfter (ops : List (EngineOp Nat Unit)) : ECS Nat Nat Unit :=
  match engineRun ops engine with
  | some ecs => ecs
  | none => engine

/-- Entity 0 with a component of type 7 and a system that requires type 7. -/
def matchedBySystem : List (EngineOp Nat Unit) :=
  [EngineOp.NewEntity "a", EngineOp.NewComponent 0 7 10, EngineOp.NewSystem () 3 [7]]

/-- Entity 0 with a component of type 7 only and a system that requires the types 7 and 8. -/
def positionOnly : List (EngineOp Nat Unit) :=
  [EngineOp.NewEntity "e", EngineOp.NewComponent 0 7 10, EngineOp.NewSystem () 3 [7, 8]]

/-- Entity 0 with components of the types 7 and 8 and a system that requires both. -/
def positionAndVelocity : List (EngineOp Nat Unit) :=
  [EngineOp.NewEntity "e", EngineOp.NewComponent 0 7 10, EngineOp.NewComponent 0 8 1,
    EngineOp.NewSystem () 3 [7, 8]]

/-- An empty entity 0 below entity 1, which holds a component of type 7. -/
def pendingBelowOwner : List (Op Nat Unit) :=
  [Op.NewEntity "a", Op.NewEntity "b", Op.NewComponent 1 7 10]

/-- A single empty entity. -/
def singleEmpty : List (Op Nat Unit) :=
  [Op.NewEntity "a"]

/-- Entity 0 with a component of type 7 is matched by a system triggered by events of type 3;
the entity is then deleted wholesale and reaped, so the table is empty. -/
def matchedThenReaped : List (EngineOp Nat Unit) :=
  matchedBySystem ++ [EngineOp.DeleteEntity 0, EngineOp.DeleteEmptyEntities]

/-- Behaviours that do nothing. -/
def idleRun : Unit → SystemFunc Nat Nat Unit := fun _ ecs _ _ => some ecs

/-- Go `int` arithmetic on a 64-bit platform: the value of an integer expression wraps around
into the range from `-2^63` to `2^63 - 1`. -/
def goInt (x : Int) : Int := (x + 2 ^ 63) % 2 ^ 64 - 2 ^ 63

/-- The component and event type of `TestECS_Counter`. -/
def countType : Nat := 5

/-- The behaviour of `TestECS_Counter`: `count := entity.Get(countType)`,
`count.Data = count.Data.(int) + event.Data.(int)`, `count.Update(ecs)`. -/
def counterFunc : SystemFunc Int Int Unit := fun ecs event entity =>
  match ecs.EntityComponentManager.EntityGet entity countType with
  | none => none
  | some count => Component.Update { count with Data := goInt (count.Data + event.Data) } ecs

/-- The set-up of `TestECS_Counter`: one entity with a counter component of value `c0` and one
system on that component type with the counter behaviour. -/
def counterSetup (c0 : Int) : List (EngineOp Int Unit) :=
  [EngineOp.NewEntity "entity", EngineOp.NewComponent 0 countType c0,
    EngineOp.NewSystem () countType [countType]]

/-- One `NewEvent` of the trigger type for every payload of the list, in order. -/
def pushEvents (vs : List Int) (ecs : ECS Int Int Unit) : ECS Int Int Unit :=
  vs.foldl (fun acc v => acc.NewEvent countType v) ecs

/-- Entity 0 with a component of type 7 is matched by a system triggered by events of type 3;
an empty entity 1 is created and the empty entities are reaped. -/
def matchedBelowEmpty : List (EngineOp Nat Unit) :=
  matchedBySystem ++ [EngineOp.NewEntity "b", EngineOp.DeleteEmptyEntities]

/-- A behaviour that pushes, at every invocation, an event of the type of the event it is run
for, with the payload plus one. -/
def pushAgain : Unit → SystemFunc Nat Nat Unit :=
  fun _ ecs event _ => some (ecs.NewEvent event.EventTypeID (event.Data + 1))

/-- Three components for the entities 4, 5 and 6, with the payloads 40, 50 and 60. -/
def threeRecords : List (EntityID × Nat) := [(4, 40), (5, 50), (6, 60)]

/-- Two components are added to a new store and the first one is deleted. -/
def twoNewOneDelete : List (StoreOp Nat) :=
  [StoreOp.new 0 10, StoreOp.new 1 11, StoreOp.delete 0]

/-- The store after a run of calls on a new store (a new store when the run panics). -/
def storeAfter (ops : List (StoreOp Nat)) : componentTypeManager Nat :=
  match componentTypeManager.storeRun ops componentTypeManager.newComponentTypeManager with
  | some m => m
  | none => componentTypeManager.newComponentTypeManager

/-- The behaviour of the clear-and-push run: it writes the payload of the event at the end of
the log that the entity holds as its component of type 7, and at the event of payload 1 it
then calls `ClearEvents()`, `NewEvent(3, 100)` and `NewEvent(3, 200)`. -/
def logClearPush : Unit → SystemFunc (List Nat) Nat Unit := fun _ ecs event entity =>
  match ecs.EntityComponentManager.EntityGet entity 7 with
  | none => none
  | some log =>
    match Component.Update { log with Data := log.Data ++ [event.Data] } ecs with
    | none => none
    | some ecs1 =>
      if event.Data = 1 then some ((ecs1.ClearEvents.NewEvent 3 100).NewEvent 3 200)
      else some ecs1

/-- Entity 0 holds an empty log as its component of type 7 and is matched by a system
triggered by events of type 3. -/
def logSetup : List (EngineOp (List Nat) Unit) :=
  [EngineOp.NewEntity "a", EngineOp.NewComponent 0 7 [], EngineOp.NewSystem () 3 [7]]

/-- The engine after the set-up `logSetup` and the three calls `NewEvent(3, 1)`,
`NewEvent(3, 2)`, `NewEvent(3, 3)` (a new engine if the set-up panicked). -/
def logEngine : ECS (List Nat) Nat Unit :=
  match engineRun logSetup (ECS.New : ECS (List Nat) Nat Unit) with
  | some ecs => ((ecs.NewEvent 3 1).NewEvent 3 2).NewEvent 3 3
  | none => ECS.New

/-! ## Dispatch, in the words of the specification -/

/-- The systems are run once for every event of the list, in list order, each run starting in
the engine the previous one left: the engine after the last run. -/
def dispatchQueued {δ ε β : Type} [Inhabited δ] (run : β → SystemFunc δ ε β) :
    List (Event ε) → ECS δ ε β → Option (ECS δ ε β)
  | [], ecs => some ecs
  | event :: rest, ecs =>
    match ecs.RunSystems run event with
    | none => none
    | some ecs1 => dispatchQueued run rest ecs1

/-! ## Visits of a loop, in the words of the interface documentation -/

/-- A visitor result that lets the iteration go on: `true` and no error. -/
def continues {ξ : Type} (r : Bool × Option ξ) : Bool := r.1 && r.2.isNone

/-- The visitor is called on every element of the list, in list order, each call starting in
the world the previous one left, and every call lets the iteration go on: the world after the
last call. -/
def visitAll {α ω ξ : Type} (i : α → ω → Option ((Bool × Option ξ) × ω)) :
    List α → ω → Option ω
  | [], w => some w
  | x :: rest, w =>
    match i x w with
    | none => none
    | some (r, w1) => if continues r then visitAll i rest w1 else none

/-- A visitor that writes down the id of every entity it sees and stops, with result
`false, nil`, at the entity of id `stop`. -/
def logEntitiesUntil (stop : EntityID) :
    Entity → List EntityID → Option ((Bool × Option Unit) × List EntityID) :=
  fun e log => some ((decide (e.id ≠ stop), none), log ++ [e.id])


/-- The engine of `TestECS_Counter` after its set-up with counter value `c`, with the event
manager `em` (a new engine if the set-up panicked). -/
def counterEngine (em : eventManager Int) (c : Int) : ECS Int Int Unit :=
  match engineRun (counterSetup c) (ECS.New : ECS Int Int Unit) with
  | some ecs => { ecs with EventManager := em }
  | none => ECS.New

/-! # Theorems -/

/-! ## Facts about Go maps -/

namespace GoMap

variable {κ ν : Type} [DecidableEq κ]

theorem lookupList_insertList (l : List (κ × ν)) (k k' : κ) (v : ν) :
    lookupList (insertList l k v) k' = if k = k' then some v else lookupList l k' := by
  induction l with
  | nil => simp [insertList, lookupList]
  | cons p rest ih =>
    obtain ⟨a, b⟩ := p
    by_cases h : a = k
    · subst h
      by_cases h' : a = k' <;> simp [insertList, lookupList, h']
    · by_cases h' : a = k'
      · subst h'
        have : ¬ k = a := fun e => h e.symm
        simp [insertList, lookupList, h, this]
      · simp [insertList, lookupList, h, h', ih]

theorem lookupList_eraseList (l : List (κ × ν)) (k k' : κ) :
    lookupList (eraseList l k) k' = if k = k' then none else lookupList l k' := by
  induction l with
  | nil => simp [eraseList, lookupList]
  | cons p rest ih =>
    obtain ⟨a, b⟩ := p
    by_cases h : a = k
    · subst h
      by_cases h' : a = k'
      · subst h'
        simpa [eraseList, lookupList] using ih
      · simp [eraseList, lookupList, ih, h']
    · by_cases h' : a = k'
      · subst h'
        have : ¬ k = a := fun e => h e.symm
        simp [eraseList, lookupList, h, this]
      · simp [eraseList, lookupList, h, h', ih]

theorem insertList_insertList (l : List (κ × ν)) (k : κ) (v v' : ν) :
    insertList (insertList l k v) k v' = insertList l k v' := by
  induction l with
  | nil => simp [insertList]
  | cons p rest ih =>
    obtain ⟨a, b⟩ := p
    by_cases h : a = k
    · simp [insertList, h]
    · simp [insertList, h, ih]

theorem insert_insert (m : GoMap κ ν) (k : κ) (v v' : ν) :
    (m.insert k v).insert k v' = m.insert k v' := by
  simp [insert, insertList_insertList]

theorem lookup_empty (k : κ) : (empty : GoMap κ ν).lookup k = none := rfl

theorem lookup_insert (m : GoMap κ ν) (k k' : κ) (v : ν) :
    (m.insert k v).lookup k' = if k = k' then some v else m.lookup k' :=
  lookupList_insertList m.entries k k' v

theorem lookup_insert_self (m : GoMap κ ν) (k : κ) (v : ν) :
    (m.insert k v).lookup k = some v := by
  simp [lookup_insert]

theorem lookup_insert_ne (m : GoMap κ ν) {k k' : κ} (v : ν) (h : k ≠ k') :
    (m.insert k v).lookup k' = m.lookup k' := by
  simp [lookup_insert, h]

theorem lookup_erase (m : GoMap κ ν) (k k' : κ) :
    (m.erase k).lookup k' = if k = k' then none else m.lookup k' :=
  lookupList_eraseList m.entries k k'

theorem contains_iff (m : GoMap κ ν) (k : κ) :
    m.contains k = true ↔ ∃ v, m.lookup k = some v := by
  unfold contains
  cases m.lookup k <;> simp

theorem contains_eq_false_iff (m : GoMap κ ν) (k : κ) :
    m.contains k = false ↔ m.lookup k = none := by
  unfold contains
  cases m.lookup k <;> simp

theorem contains_insert (m : GoMap κ ν) (k k' : κ) (v : ν) :
    (m.insert k v).contains k' = (decide (k = k') || m.contains k') := by
  unfold contains
  rw [lookup_insert]
  by_cases h : k = k' <;> simp [h]

theorem lookup_of_mem_entries {l : List (κ × ν)} {k : κ} {v : ν} (h : (k, v) ∈ l) :
    ∃ v', lookupList l k = some v' := by
  induction l with
  | nil => cases h
  | cons p rest ih =>
    obtain ⟨a, b⟩ := p
    by_cases ha : a = k
    · exact ⟨b, by simp [lookupList, ha]⟩
    · rcases List.mem_cons.mp h with h1 | h1
      · exact absurd (congrArg Prod.fst h1).symm ha
      · obtain ⟨v', hv'⟩ := ih h1
        exact ⟨v', by simp [lookupList, ha, hv']⟩

end GoMap

/-! ## Facts about component stores -/

namespace componentTypeManager

variable {δ : Type}

theorem componentBlockSize_pos : 0 < componentBlockSize := by decide

theorem WF_new [Inhabited δ] : (newComponentTypeManager : componentTypeManager δ).WF := by
  simp [WF, newComponentTypeManager]

theorem div_lt_of_lt_mul {i n : Nat} (h : i < componentBlockSize * n) :
    i / componentBlockSize < n :=
  (Nat.div_lt_iff_lt_mul componentBlockSize_pos).mpr (by rw [Nat.mul_comm] at h; exact h)

theorem modify_eq_some {m : componentTypeManager δ} {id : Nat}
    (h : id / componentBlockSize < m.components.length) (f : component δ → component δ) :
    ∃ m1, m.modify id f = some m1 ∧ m1.len = m.len ∧
      m1.components.length = m.components.length ∧
      m1.spare = m.spare ∧ m1.retired = m.retired ∧
      m1.get id = (m.get id).map f ∧
      ∀ j, j ≠ id → m1.get j = m.get j := by
  unfold modify
  rw [List.getElem?_eq_getElem h]
  refine ⟨_, rfl, rfl, by simp, rfl, rfl, ?_, ?_⟩
  · simp only [get]
    rw [List.getElem?_set_self (by simpa using h), List.getElem?_eq_getElem h]
    simp [Mathlib.Vector.get_set_same]
  · intro j hj
    simp only [get]
    by_cases hb : id / componentBlockSize = j / componentBlockSize
    · have hs : slotOf id ≠ slotOf j := by
        intro e
        have e1 : id % componentBlockSize = j % componentBlockSize := congrArg Fin.val e
        apply hj
        rw [← Nat.div_add_mod j componentBlockSize, ← Nat.div_add_mod id componentBlockSize,
          hb, e1]
      rw [← hb, List.getElem?_set_self (by simpa using h), List.getElem?_eq_getElem h]
      simp [Mathlib.Vector.get_set_of_ne hs]
    · rw [List.getElem?_set_ne hb]

theorem modify_some_inv {m m1 : componentTypeManager δ} {id : Nat}
    {f : component δ → component δ}
    (h : m.modify id f = some m1) :
    id / componentBlockSize < m.components.length ∧ m1.len = m.len ∧
      m1.components.length = m.components.length ∧
      m1.spare = m.spare ∧ m1.retired = m.retired ∧
      m1.get id = (m.get id).map f ∧
      ∀ j, j ≠ id → m1.get j = m.get j := by
  by_cases hlt : id / componentBlockSize < m.components.length
  · obtain ⟨m2, h2, rest⟩ := modify_eq_some hlt f
    rw [h2] at h
    cases h
    exact ⟨hlt, rest⟩
  · unfold modify at h
    rw [List.getElem?_eq_none (Nat.le_of_not_lt hlt)] at h
    cases h

theorem appendBlock_len [Inhabited δ] (m : componentTypeManager δ) :
    m.appendBlock.len = m.len := by
  unfold appendBlock
  cases m.spare <;> rfl

theorem appendBlock_components [Inhabited δ] (m : componentTypeManager δ) :
    m.appendBlock.components = m.components ++ [componentBlock.zero] := by
  unfold appendBlock
  cases m.spare <;> rfl

theorem appendBlock_get [Inhabited δ] (m : componentTypeManager δ) {j : Nat}
    (h : j / componentBlockSize < m.components.length) : m.appendBlock.get j = m.get j := by
  simp only [get, appendBlock_components]
  rw [List.getElem?_append_left h]

theorem new_eq_some [Inhabited δ] {m : componentTypeManager δ} (h : m.WF) (e : EntityID)
    (d : δ) :
    ∃ m1, m.new e d = some (m1, m.len) ∧ m1.len = m.len + 1 ∧ m1.WF ∧
      m1.get m.len = some { entity := e, data := d, deleted := false } ∧
      m.len / componentBlockSize < m1.components.length ∧
      ∀ j, j ≠ m.len → j / componentBlockSize < m.components.length → m1.get j = m.get j := by
  obtain ⟨hpos, hle⟩ := h
  have hdiv : m.len / componentBlockSize ≤ m.components.length :=
    (Nat.div_le_iff_le_mul_add_pred componentBlockSize_pos).mpr (by omega)
  unfold new
  by_cases hc : m.components.length ≤ m.len / componentBlockSize
  · have hb : m.len / componentBlockSize < m.appendBlock.components.length := by
      rw [appendBlock_components]; simp; omega
    obtain ⟨m2, h2, hlen, hblk, _, _, hget, hfr⟩ :=
      @modify_eq_some δ m.appendBlock m.len hb
        (fun _ => { entity := e, data := d, deleted := false })
    simp only [if_pos hc, appendBlock_len, h2]
    have hg : ∃ c, m.appendBlock.get m.len = some c := by
      simp only [get]
      rw [List.getElem?_eq_getElem hb]
      exact ⟨_, rfl⟩
    obtain ⟨c, hc'⟩ := hg
    refine ⟨_, rfl, ?_, ?_, ?_, ?_, ?_⟩
    · simp [hlen, appendBlock_len]
    · refine ⟨?_, ?_⟩
      · show 0 < m2.components.length
        rw [hblk, appendBlock_components]; simp
      · show m2.len + 1 ≤ componentBlockSize * m2.components.length
        rw [hblk, hlen, appendBlock_len]
        have := (Nat.div_lt_iff_lt_mul componentBlockSize_pos).mp hb
        rw [Nat.mul_comm]; omega
    · show m2.get m.len = _
      rw [hget, hc']; rfl
    · show m.len / componentBlockSize < m2.components.length
      rw [hblk]; exact hb
    · intro j hj hjb
      show m2.get j = m.get j
      rw [hfr j hj, appendBlock_get m hjb]
  · have hb : m.len / componentBlockSize < m.components.length := Nat.lt_of_not_le hc
    obtain ⟨m2, h2, hlen, hblk, _, _, hget, hfr⟩ :=
      @modify_eq_some δ m m.len hb
        (fun _ => { entity := e, data := d, deleted := false })
    simp only [if_neg hc, h2]
    have hg : ∃ c, m.get m.len = some c := by
      simp only [get]
      rw [List.getElem?_eq_getElem hb]
      exact ⟨_, rfl⟩
    obtain ⟨c, hc'⟩ := hg
    refine ⟨_, rfl, ?_, ?_, ?_, ?_, ?_⟩
    · simp [hlen]
    · refine ⟨?_, ?_⟩
      · show 0 < m2.components.length
        rw [hblk]; exact hpos
      · show m2.len + 1 ≤ componentBlockSize * m2.components.length
        rw [hblk, hlen]
        have := (Nat.div_lt_iff_lt_mul componentBlockSize_pos).mp hb
        rw [Nat.mul_comm]; omega
    · show m2.get m.len = _
      rw [hget, hc']; rfl
    · show m.len / componentBlockSize < m2.components.length
      rw [hblk]; exact hb
    · intro j hj _
      exact hfr j hj

theorem truncateBlock_some_inv {m m1 : componentTypeManager δ} (h : m.truncateBlock = some m1) :
    m1.components.length + 1 = m.components.length ∧ m1.len = m.len := by
  unfold truncateBlock at h
  cases hl : m.components.getLast? with
  | none => rw [hl] at h; cases h
  | some b =>
    rw [hl] at h
    cases h
    have hne : m.components ≠ [] := by
      intro e
      rw [e] at hl
      cases hl
    have : 0 < m.components.length := List.length_pos.mpr hne
    refine ⟨?_, rfl⟩
    simp only [List.length_dropLast]
    omega

theorem deleteScan_blocks : ∀ (e : Nat) (m m2 : componentTypeManager δ) (e2 : Nat),
    e / componentBlockSize < m.components.length → deleteScan e m = some (m2, e2) →
    e2 / componentBlockSize < m2.components.length
  | 0, m, m2, e2, hb, h => by
    simp only [deleteScan] at h
    cases h
    exact hb
  | e + 1, m, m2, e2, hb, h => by
    simp only [deleteScan] at h
    cases hg : m.get (e + 1) with
    | none => rw [hg] at h; cases h
    | some c =>
      rw [hg] at h
      simp only at h
      by_cases hdel : c.deleted = true
      · rw [if_pos hdel] at h
        by_cases hmod : (e + 1) % componentBlockSize = 0
        · rw [if_pos hmod] at h
          cases ht : m.truncateBlock with
          | none => rw [ht] at h; cases h
          | some m1 =>
            rw [ht] at h
            simp only at h
            obtain ⟨hl, _⟩ := truncateBlock_some_inv ht
            refine deleteScan_blocks e m1 m2 e2 ?_ h
            have h1 : (e + 1) / componentBlockSize = e / componentBlockSize + 1 := by
              unfold componentBlockSize at hmod ⊢
              omega
            omega
        · rw [if_neg hmod] at h
          simp only at h
          refine deleteScan_blocks e m m2 e2 ?_ h
          have h1 : e / componentBlockSize ≤ (e + 1) / componentBlockSize :=
            Nat.div_le_div_right (Nat.le_succ e)
          omega
      · rw [if_neg hdel] at h
        cases h
        exact hb

theorem delete_WF {m m1 : componentTypeManager δ} {id : Nat} (h : m.WF)
    (hd : m.delete id = some m1) : m1.WF := by
  unfold delete at hd
  cases hm : m.modify id (fun c => { c with deleted := true }) with
  | none => rw [hm] at hd; cases hd
  | some m' =>
    rw [hm] at hd
    simp only at hd
    obtain ⟨hb, hlen, hblk, _, _, _, _⟩ := modify_some_inv hm
    by_cases hlast : id + 1 = m'.len
    · rw [if_pos hlast] at hd
      cases hs : deleteScan id m' with
      | none => rw [hs] at hd; cases hd
      | some r =>
        obtain ⟨m2, e⟩ := r
        rw [hs] at hd
        cases hd
        have hb2 := deleteScan_blocks id m' m2 e (by rw [hblk]; exact hb) hs
        have := (Nat.div_lt_iff_lt_mul componentBlockSize_pos).mp hb2
        refine ⟨?_, ?_⟩
        · show 0 < m2.components.length
          exact Nat.lt_of_le_of_lt (Nat.zero_le _) hb2
        · show e ≤ componentBlockSize * m2.components.length
          rw [Nat.mul_comm]; omega
    · rw [if_neg hlast] at hd
      cases hd
      exact ⟨by rw [hblk]; exact h.1, by rw [hblk, hlen]; exact h.2⟩

theorem modify_WF {m m1 : componentTypeManager δ} {id : Nat} {f : component δ → component δ}
    (h : m.WF) (hm : m.modify id f = some m1) : m1.WF := by
  obtain ⟨_, hlen, hblk, _⟩ := modify_some_inv hm
  exact ⟨by rw [hblk]; exact h.1, by rw [hblk, hlen]; exact h.2⟩

end componentTypeManager

namespace entityComponentManager

variable {δ σ : Type}

theorem Inv_new : Inv (newEntityComponentManager : entityComponentManager δ σ) := by
  refine ⟨?_, ?_⟩
  · intro t tm h
    simp [newEntityComponentManager, GoMap.lookup_empty] at h
  · intro ent h
    simp [newEntityComponentManager] at h

theorem storeFor_WF [Inhabited δ] {m : entityComponentManager δ σ} (h : Inv m)
    (t : ComponentTypeID) :
    (storeFor m t).WF := by
  unfold storeFor
  cases hl : m.componentTypeManagers.lookup t with
  | none => exact componentTypeManager.WF_new
  | some tm => exact h.1 t tm hl

theorem NewComponent_duplicate [Inhabited δ] {m : entityComponentManager δ σ} {eID : EntityID}
    {cType : ComponentTypeID} {ent : entity} {tm : componentTypeManager δ}
    (hs : m.componentTypeManagers.lookup cType = some tm)
    (he : m.entities[eID]? = some ent) (hd : ent.components.contains cType = true)
    (hn : cType ≠ nilType) (data : δ) (w : σ) :
    NewComponent m eID cType data w =
      some (Except.error { cType := cType, eID := eID }, m, w) := by
  unfold NewComponent
  simp only [hs, he, hd, if_true, hn, if_false]

theorem NewComponent_nil_duplicate [Inhabited δ] {m : entityComponentManager δ σ}
    {eID : EntityID} {ent : entity} (he : m.entities[eID]? = some ent)
    (hd : ent.components.contains nilType = true) (data : δ) (w : σ) :
    NewComponent m eID nilType data w = none := by
  unfold NewComponent
  cases hl : m.componentTypeManagers.lookup nilType <;> simp [hl, he, hd]

theorem NewComponent_fresh [Inhabited δ] {m : entityComponentManager δ σ} {eID : EntityID}
    {cType : ComponentTypeID} {ent : entity} (hwf : (storeFor m cType).WF)
    (he : m.entities[eID]? = some ent) (hd : ent.components.contains cType = false)
    (data : δ) (w : σ) :
    ∃ tm1 p,
      tm1.WF ∧ tm1.len = (storeFor m cType).len + 1 ∧
      tm1.get (storeFor m cType).len = some { entity := eID, data := data, deleted := false } ∧
      NewComponent m eID cType data w =
        some (Except.ok { ID := (storeFor m cType).len, ComponentTypeID := cType },
          { m with
            componentTypeManagers := m.componentTypeManagers.insert cType tm1
            entities := m.entities.set eID
              { ent with components :=
                  ent.components.insert cType { id := (storeFor m cType).len, ptr := p } }
            entitiesToBeKilled := m.entitiesToBeKilled.erase eID },
          runCallbacks m.newComponentCallbacks
            (newEntity eID
              { ent with components :=
                  ent.components.insert cType { id := (storeFor m cType).len, ptr := p } }) w) := by
  obtain ⟨tm1, hnew, hlen, hwf1, hget, hblk, hfr⟩ :=
    componentTypeManager.new_eq_some hwf eID data
  have hp : tm1.getDataPtr (storeFor m cType).len =
      some ⟨tm1.retired.length, (storeFor m cType).len⟩ := by
    unfold componentTypeManager.getDataPtr
    rw [if_pos hblk]
  refine ⟨tm1, ⟨tm1.retired.length, (storeFor m cType).len⟩, hwf1, hlen, hget, ?_⟩
  unfold NewComponent
  cases hl : m.componentTypeManagers.lookup cType with
  | some tm =>
    have hsf : storeFor m cType = tm := by unfold storeFor; rw [hl]
    rw [hsf] at hnew hp
    simp only [he, hd, hnew, hp, hsf]
    simp
  | none =>
    have hsf : storeFor m cType = componentTypeManager.newComponentTypeManager := by
      unfold storeFor; rw [hl]
    rw [hsf] at hnew hp
    simp only [he, hd, hnew, hp, hsf]
    simp [GoMap.insert_insert]

theorem Inv_insert_store {m : entityComponentManager δ σ} (h : Inv m) (t : ComponentTypeID)
    (tm : componentTypeManager δ) (hwf : tm.WF) :
    Inv { m with componentTypeManagers := m.componentTypeManagers.insert t tm } := by
  refine ⟨?_, ?_⟩
  · intro t' tm' hl
    simp only [GoMap.lookup_insert] at hl
    by_cases e : t = t'
    · rw [if_pos e] at hl
      cases hl
      exact hwf
    · rw [if_neg e] at hl
      exact h.1 t' tm' hl
  · intro ent hent t' hc
    simp only [GoMap.contains_insert]
    simp [h.2 ent hent t' hc]

theorem Inv_set_entity {m : entityComponentManager δ σ} (h : Inv m) (eID : EntityID)
    (ent1 : entity) (killed : GoMap EntityID Unit)
    (hc : ∀ t, ent1.components.contains t = true → m.componentTypeManagers.contains t = true) :
    Inv { m with entities := m.entities.set eID ent1, entitiesToBeKilled := killed } := by
  refine ⟨h.1, ?_⟩
  intro ent hent t ht
  rcases List.mem_or_eq_of_mem_set hent with h1 | h1
  · exact h.2 ent h1 t ht
  · subst h1
    exact hc t ht

theorem Inv_NewEntity {m : entityComponentManager δ σ} (h : Inv m) (name : String) :
    Inv (NewEntity m name).1 := by
  refine ⟨h.1, ?_⟩
  intro ent hent t ht
  simp only [NewEntity, List.mem_append, List.mem_singleton] at hent
  rcases hent with h1 | h1
  · exact h.2 ent h1 t ht
  · subst h1
    simp [GoMap.contains, GoMap.lookup_empty] at ht

theorem Inv_NewComponent [Inhabited δ] {m m1 : entityComponentManager δ σ} (h : Inv m)
    {eID : EntityID}
    {cType : ComponentTypeID} {data : δ} {w w1 : σ} {r : Except DuplicateTypeError ComponentID}
    (hs : NewComponent m eID cType data w = some (r, m1, w1)) : Inv m1 := by
  cases he : m.entities[eID]? with
  | none =>
    exfalso
    unfold NewComponent at hs
    cases hl : m.componentTypeManagers.lookup cType <;> simp [hl, he] at hs
  | some ent =>
    have hmem : ent ∈ m.entities := List.getElem?_mem he
    cases hd : ent.components.contains cType with
    | false =>
      obtain ⟨tm1, p, hwf1, _, _, hnc⟩ :=
        NewComponent_fresh (storeFor_WF h cType) he hd data w
      rw [hnc] at hs
      cases hs
      have h1 := Inv_insert_store h cType tm1 hwf1
      refine Inv_set_entity h1 eID _ _ ?_
      intro t ht
      simp only [GoMap.contains_insert] at ht ⊢
      by_cases e : cType = t
      · simp [e]
      · simp only [e, decide_False, Bool.false_or] at ht ⊢
        exact h.2 ent hmem t ht
    | true =>
      by_cases hnil : cType = nilType
      · exfalso
        subst hnil
        rw [NewComponent_nil_duplicate he hd] at hs
        cases hs
      · cases hl : m.componentTypeManagers.lookup cType with
        | some tm =>
          rw [NewComponent_duplicate hl he hd hnil] at hs
          cases hs
          exact h
        | none =>
          unfold NewComponent at hs
          simp [hl, he, hd, hnil] at hs
          obtain ⟨_, hm, _⟩ := hs
          subst hm
          exact Inv_insert_store h cType _ componentTypeManager.WF_new

theorem Inv_UpdateComponent {m m1 : entityComponentManager δ σ} (h : Inv m) {id : ComponentID}
    {data : δ} (hs : UpdateComponent m id data = some m1) : Inv m1 := by
  unfold UpdateComponent at hs
  cases hl : m.componentTypeManagers.lookup id.ComponentTypeID with
  | none => simp [hl] at hs
  | some tm =>
    cases hm : tm.modify id.ID (fun c => { c with data := data }) with
    | none => simp [hl, hm] at hs
    | some tm1 =>
      simp [hl, hm] at hs
      subst hs
      exact Inv_insert_store h _ tm1 (componentTypeManager.modify_WF (h.1 _ tm hl) hm)

theorem deleteComponentsOf_inv :
    ∀ (comps : List (ComponentTypeID × componentPtr))
      (stores stores1 : GoMap ComponentTypeID (componentTypeManager δ)),
      (∀ t tm, stores.lookup t = some tm → tm.WF) →
      deleteComponentsOf stores comps = some stores1 →
      (∀ t tm, stores1.lookup t = some tm → tm.WF) ∧
      (∀ t, stores.contains t = true → stores1.contains t = true)
  | [], stores, stores1, hwf, hs => by
    simp only [deleteComponentsOf] at hs
    cases hs
    exact ⟨hwf, fun _ h => h⟩
  | (cType, c) :: rest, stores, stores1, hwf, hs => by
    simp only [deleteComponentsOf] at hs
    cases hl : stores.lookup cType with
    | none => simp [hl] at hs
    | some tm =>
      cases hd : tm.delete c.id with
      | none => simp [hl, hd] at hs
      | some tm1 =>
        simp only [hl, hd] at hs
        have hwf1 : ∀ t tm', (stores.insert cType tm1).lookup t = some tm' → tm'.WF := by
          intro t tm' hl'
          simp only [GoMap.lookup_insert] at hl'
          by_cases e : cType = t
          · rw [if_pos e] at hl'
            cases hl'
            exact componentTypeManager.delete_WF (hwf cType tm hl) hd
          · rw [if_neg e] at hl'
            exact hwf t tm' hl'
        obtain ⟨ha, hb⟩ := deleteComponentsOf_inv rest _ stores1 hwf1 hs
        refine ⟨ha, ?_⟩
        intro t ht
        apply hb
        simp [GoMap.contains_insert, ht]

theorem Inv_DeleteEntity {m m1 : entityComponentManager δ σ} (h : Inv m) {id : EntityID}
    (hs : DeleteEntity m id = some m1) : Inv m1 := by
  unfold DeleteEntity at hs
  by_cases hge : id ≥ m.entities.length
  · rw [if_pos hge] at hs
    cases hs
    exact h
  · rw [if_neg hge] at hs
    cases he : m.entities[id]? with
    | none => simp [he] at hs
    | some ent =>
      cases hd : deleteComponentsOf m.componentTypeManagers ent.components.entries with
      | none => simp [he, hd] at hs
      | some stores =>
        simp [he, hd] at hs
        subst hs
        obtain ⟨ha, hb⟩ := deleteComponentsOf_inv _ _ _ h.1 hd
        refine ⟨ha, ?_⟩
        intro ent' hent t ht
        rcases List.mem_or_eq_of_mem_set hent with h1 | h1
        · exact hb t (h.2 ent' h1 t ht)
        · subst h1
          simp [GoMap.contains, GoMap.lookup_empty] at ht

theorem Inv_DeleteComponent [Inhabited δ] {m m1 : entityComponentManager δ σ} (h : Inv m)
    {id : ComponentID}
    {w w1 : σ} (hs : DeleteComponent m id w = some (m1, w1)) : Inv m1 := by
  unfold DeleteComponent at hs
  cases hl : m.componentTypeManagers.lookup id.ComponentTypeID with
  | none =>
    simp [hl] at hs
    rw [← hs.1]
    exact h
  | some tm =>
    simp only [hl] at hs
    cases hg : tm.getSafe id.ID with
    | none => simp [hg] at hs
    | some r =>
      obtain ⟨c, ok⟩ := r
      cases ok with
      | false =>
        simp [hg] at hs
        rw [← hs.1]
        exact h
      | true =>
        simp only [hg] at hs
        cases hd : tm.delete id.ID with
        | none => simp [hd] at hs
        | some tm1 =>
          cases he : m.entities[c.entity]? with
          | none => simp [hd, he] at hs
          | some ent =>
            simp only [hd, he, Option.some.injEq, Prod.mk.injEq] at hs
            obtain ⟨hm, _⟩ := hs
            subst hm
            have hmem : ent ∈ m.entities := List.getElem?_mem he
            have h1 := Inv_insert_store h id.ComponentTypeID tm1
              (componentTypeManager.delete_WF (h.1 _ tm hl) hd)
            refine Inv_set_entity h1 c.entity _ _ ?_
            intro t ht
            simp only [GoMap.contains_insert]
            have : ent.components.contains t = true := by
              simp only [GoMap.contains, GoMap.lookup_erase] at ht ⊢
              by_cases e : id.ComponentTypeID = t
              · simp [e] at ht
              · simpa [e] using ht
            simp [h.2 ent hmem t this]

theorem markDeleted_components :
    ∀ (ids : List EntityID) (es es1 : List entity), markDeleted es ids = some es1 →
      ∀ ent1, ent1 ∈ es1 → ∃ ent, ent ∈ es ∧ ent1.components = ent.components
  | [], es, es1, hs, ent1, hm => by
    simp only [markDeleted] at hs
    cases hs
    exact ⟨ent1, hm, rfl⟩
  | id :: rest, es, es1, hs, ent1, hm => by
    simp only [markDeleted] at hs
    cases he : es[id]? with
    | none => simp [he] at hs
    | some ent =>
      simp only [he] at hs
      obtain ⟨ent2, h2, hc⟩ := markDeleted_components rest _ es1 hs ent1 hm
      rcases List.mem_or_eq_of_mem_set h2 with h3 | h3
      · exact ⟨ent2, h3, hc⟩
      · subst h3
        exact ⟨ent, List.getElem?_mem he, hc⟩

theorem Inv_DeleteEmptyEntities {m m1 : entityComponentManager δ σ} (h : Inv m)
    (hs : DeleteEmptyEntities m = some m1) : Inv m1 := by
  unfold DeleteEmptyEntities at hs
  cases hmk : markDeleted m.entities m.entitiesToBeKilled.keys with
  | none => simp [hmk] at hs
  | some es =>
    simp only [hmk] at hs
    have key : ∀ ent1, ent1 ∈ es → ∀ t, ent1.components.contains t = true →
        m.componentTypeManagers.contains t = true := by
      intro ent1 h1 t ht
      obtain ⟨ent, h2, hc⟩ := markDeleted_components _ _ _ hmk ent1 h1
      rw [hc] at ht
      exact h.2 ent h2 t ht
    split at hs
    · cases hr : reapScan es (es.length - 1) with
      | none => simp [hr] at hs
      | some e =>
        simp only [hr, Option.some.injEq] at hs
        subst hs
        exact ⟨h.1, fun ent1 h1 => key ent1 (List.mem_of_mem_take h1)⟩
    · simp only [Option.some.injEq] at hs
      subst hs
      exact ⟨h.1, key⟩

end entityComponentManager

section RunsFacts

variable {δ σ : Type}

theorem Inv_step [Inhabited δ] {s s1 : entityComponentManager δ σ × σ}
    (h : entityComponentManager.Inv s.1)
    {op : Op δ σ} (hs : step s op = some s1) : entityComponentManager.Inv s1.1 := by
  cases op with
  | NewEntity name =>
    simp only [step, Option.some.injEq] at hs
    subst hs
    exact entityComponentManager.Inv_NewEntity h name
  | NewComponent eID cType data =>
    simp only [step, Option.map_eq_some'] at hs
    obtain ⟨⟨r, m1, w1⟩, h1, h2⟩ := hs
    subst h2
    exact entityComponentManager.Inv_NewComponent h h1
  | NewComponentCallback c =>
    simp only [step, Option.some.injEq] at hs
    subst hs
    exact h
  | UpdateComponent id data =>
    simp only [step, Option.map_eq_some'] at hs
    obtain ⟨m1, h1, h2⟩ := hs
    subst h2
    exact entityComponentManager.Inv_UpdateComponent h h1
  | DeleteEntity id =>
    simp only [step, Option.map_eq_some'] at hs
    obtain ⟨m1, h1, h2⟩ := hs
    subst h2
    exact entityComponentManager.Inv_DeleteEntity h h1
  | DeleteComponent id =>
    simp only [step] at hs
    exact entityComponentManager.Inv_DeleteComponent h hs
  | DeleteComponentCallback c =>
    simp only [step, Option.some.injEq] at hs
    subst hs
    exact h
  | DeleteEmptyEntities =>
    simp only [step, Option.map_eq_some'] at hs
    obtain ⟨m1, h1, h2⟩ := hs
    subst h2
    exact entityComponentManager.Inv_DeleteEmptyEntities h h1

theorem Inv_runOps [Inhabited δ] :
    ∀ (ops : List (Op δ σ)) (s s1 : entityComponentManager δ σ × σ),
    entityComponentManager.Inv s.1 → runOps ops s = some s1 → entityComponentManager.Inv s1.1
  | [], s, s1, h, hs => by
    simp only [runOps, Option.some.injEq] at hs
    subst hs
    exact h
  | op :: ops, s, s1, h, hs => by
    simp only [runOps] at hs
    cases hst : step s op with
    | none => simp [hst] at hs
    | some s2 =>
      simp only [hst] at hs
      exact Inv_runOps ops s2 s1 (Inv_step h hst) hs

theorem Reachable.inv [Inhabited δ] {m : entityComponentManager δ σ} (h : Reachable m) :
    entityComponentManager.Inv m := by
  obtain ⟨ops, w0, w, hr⟩ := h
  exact Inv_runOps ops _ _ entityComponentManager.Inv_new hr

end RunsFacts

/-! ## Facts about queries, systems and the engine -/

section SystemFacts

variable {δ σ ε β : Type}

theorem GoMap.contains_erase {κ ν : Type} [DecidableEq κ] (m : GoMap κ ν) (k k' : κ) :
    (m.erase k).contains k' = (!decide (k = k') && m.contains k') := by
  unfold GoMap.contains
  rw [GoMap.lookup_erase]
  by_cases h : k = k' <;> simp [h]

theorem GoMap.contains_empty {κ ν : Type} [DecidableEq κ] (k : κ) :
    (GoMap.empty : GoMap κ ν).contains k = false := rfl

theorem hasComponents_newEntity (id : EntityID) (e : entity) (l : List ComponentTypeID) :
    (entityComponentManager.newEntity id e).hasComponents l = entityHasComponents e l := by
  induction l with
  | nil => rfl
  | cons t rest ih =>
    simp only [Entity.hasComponents, entityHasComponents, Entity.Has,
      entityComponentManager.newEntity, ih]
    cases e.components.contains t <;> simp
    exact ih

theorem systemManager.contains_fillEntities (l : List EntityID) (set : GoMap EntityID Unit)
    (k : EntityID) :
    (systemManager.fillEntities set l).contains k = true ↔ set.contains k = true ∨ k ∈ l := by
  induction l generalizing set with
  | nil => simp [systemManager.fillEntities]
  | cons a rest ih =>
    have h := ih (set.insert a ())
    simp only [systemManager.fillEntities, List.foldl_cons] at h ⊢
    rw [h, GoMap.contains_insert]
    by_cases e : a = k
    · simp [e]
    · have e' : ¬ k = a := fun x => e x.symm
      simp [e, e']

theorem systemManager.fillEntities_nil (set : GoMap EntityID Unit) :
    systemManager.fillEntities set [] = set := rfl

end SystemFacts

section ManagerInversion

variable {δ σ : Type}

theorem entityComponentManager.NewComponent_ok_inv [Inhabited δ]
    {m m1 : entityComponentManager δ σ} {eID : EntityID} {cType : ComponentTypeID} {data : δ}
    {w w1 : σ} {id : ComponentID}
    (h : m.NewComponent eID cType data w = some (Except.ok id, m1, w1)) :
    ∃ ent p,
      m.entities[eID]? = some ent ∧ ent.components.contains cType = false ∧
      m1.entities = m.entities.set eID
        { ent with components := ent.components.insert cType { id := id.ID, ptr := p } } ∧
      w1 = entityComponentManager.runCallbacks m.newComponentCallbacks
        (entityComponentManager.newEntity eID
          { ent with components := ent.components.insert cType { id := id.ID, ptr := p } }) w ∧
      m1.newComponentCallbacks = m.newComponentCallbacks ∧
      m1.deleteComponentCallbacks = m.deleteComponentCallbacks := by
  unfold entityComponentManager.NewComponent at h
  cases hl : m.componentTypeManagers.lookup cType with
  | some tm =>
    simp only [hl] at h
    cases he : m.entities[eID]? with
    | none => simp [he] at h
    | some ent =>
      simp only [he] at h
      cases hd : ent.components.contains cType with
      | true => simp [hd] at h
      | false =>
        simp only [hd] at h
        cases hn : tm.new eID data with
        | none => simp [hn] at h
        | some r =>
          obtain ⟨tm1, n⟩ := r
          simp only [hn] at h
          cases hp : tm1.getDataPtr n with
          | none => simp [hp] at h
          | some p =>
            simp only [hp, Bool.false_eq_true, if_false, Option.some.injEq, Prod.mk.injEq,
              Except.ok.injEq] at h
            obtain ⟨hid, hm, hw⟩ := h
            subst hid hm hw
            exact ⟨ent, p, rfl, hd, rfl, rfl, rfl, rfl⟩
  | none =>
    simp only [hl] at h
    cases he : m.entities[eID]? with
    | none => simp [he] at h
    | some ent =>
      simp only [he] at h
      cases hd : ent.components.contains cType with
      | true => simp [hd] at h
      | false =>
        simp only [hd] at h
        cases hn : (componentTypeManager.newComponentTypeManager :
            componentTypeManager δ).new eID data with
        | none => simp [hn] at h
        | some r =>
          obtain ⟨tm1, n⟩ := r
          simp only [hn] at h
          cases hp : tm1.getDataPtr n with
          | none => simp [hp] at h
          | some p =>
            simp only [hp, Bool.false_eq_true, if_false, Option.some.injEq, Prod.mk.injEq,
              Except.ok.injEq] at h
            obtain ⟨hid, hm, hw⟩ := h
            subst hid hm hw
            exact ⟨ent, p, rfl, hd, rfl, rfl, rfl, rfl⟩

theorem entityComponentManager.DeleteComponent_deleting_inv [Inhabited δ]
    {m m1 : entityComponentManager δ σ} {id : ComponentID} {w w1 : σ}
    {tm : componentTypeManager δ} {c : component δ}
    (hl : m.componentTypeManagers.lookup id.ComponentTypeID = some tm)
    (hg : tm.getSafe id.ID = some (c, true))
    (h : m.DeleteComponent id w = some (m1, w1)) :
    ∃ ent tm1,
      m.entities[c.entity]? = some ent ∧ tm.delete id.ID = some tm1 ∧
      m1.componentTypeManagers = m.componentTypeManagers.insert id.ComponentTypeID tm1 ∧
      m1.entities = m.entities.set c.entity
        { ent with components := ent.components.erase id.ComponentTypeID } ∧
      m1.entitiesToBeKilled =
        (if (ent.components.erase id.ComponentTypeID).size = 0
          then m.entitiesToBeKilled.insert c.entity () else m.entitiesToBeKilled) ∧
      w1 = entityComponentManager.runCallbacks m.deleteComponentCallbacks
        (entityComponentManager.newEntity c.entity
          { ent with components := ent.components.erase id.ComponentTypeID }) w ∧
      m1.newComponentCallbacks = m.newComponentCallbacks ∧
      m1.deleteComponentCallbacks = m.deleteComponentCallbacks := by
  unfold entityComponentManager.DeleteComponent at h
  simp only [hl, hg] at h
  cases hd : tm.delete id.ID with
  | none => simp [hd] at h
  | some tm1 =>
    cases he : m.entities[c.entity]? with
    | none => simp [hd, he] at h
    | some ent =>
      simp only [hd, he, Option.some.injEq, Prod.mk.injEq] at h
      obtain ⟨hm, hw⟩ := h
      subst hm hw
      exact ⟨ent, tm1, rfl, rfl, rfl, rfl, rfl, rfl, rfl, rfl⟩

end ManagerInversion

section CallbackFacts

variable {β : Type}

theorem systemManager.newComponentCallback_getElem? (entity : Entity) (m : systemManager β)
    (i : Nat) (S : system β) (h : m.systems[i]? = some S) :
    ∃ S1, (systemManager.newComponentCallback entity m).systems[i]? = some S1 ∧
      S1.f = S.f ∧ S1.triggeredBy = S.triggeredBy ∧ S1.actsOn = S.actsOn ∧
      ∀ e, S1.entities.contains e =
        ((entity.hasComponents S.actsOn && decide (entity.id = e)) || S.entities.contains e) := by
  simp only [systemManager.newComponentCallback, List.getElem?_map, h, Option.map_some']
  by_cases hc : entity.hasComponents S.actsOn = true
  · refine ⟨_, rfl, ?_⟩
    simp only [hc, if_true, true_and, Bool.true_and]
    exact fun e => GoMap.contains_insert _ _ _ _
  · refine ⟨_, rfl, ?_⟩
    simp only [hc, if_false, true_and]
    simp at hc
    simp [hc]

theorem systemManager.deleteComponentCallback_getElem? (entity : Entity) (m : systemManager β)
    (i : Nat) (S : system β) (h : m.systems[i]? = some S) :
    ∃ S1, (systemManager.deleteComponentCallback entity m).systems[i]? = some S1 ∧
      S1.f = S.f ∧ S1.triggeredBy = S.triggeredBy ∧ S1.actsOn = S.actsOn ∧
      ∀ e, S1.entities.contains e =
        (S.entities.contains e && (entity.hasComponents S.actsOn || !decide (entity.id = e))) := by
  simp only [systemManager.deleteComponentCallback, List.getElem?_map, h, Option.map_some']
  refine ⟨_, rfl, ?_⟩
  cases hin : S.entities.contains entity.id with
  | false =>
    simp only [Bool.not_false, if_true, true_and]
    intro e
    by_cases he : entity.id = e
    · subst he
      simp [hin]
    · simp [he]
  | true =>
    cases hc : entity.hasComponents S.actsOn with
    | true => simp
    | false =>
      simp only [Bool.not_true, Bool.false_eq_true, if_false, Bool.not_false, if_true, true_and,
        Bool.false_or]
      intro e
      rw [GoMap.contains_erase, Bool.and_comm]

theorem systemManager.length_newComponentCallback (entity : Entity) (m : systemManager β) :
    (systemManager.newComponentCallback entity m).systems.length = m.systems.length := by
  simp [systemManager.newComponentCallback]

theorem systemManager.length_deleteComponentCallback (entity : Entity) (m : systemManager β) :
    (systemManager.deleteComponentCallback entity m).systems.length = m.systems.length := by
  simp [systemManager.deleteComponentCallback]

end CallbackFacts

section CallbackLists

variable {δ σ ε β : Type}

theorem entityComponentManager.NewComponent_callbacks [Inhabited δ]
    {m m1 : entityComponentManager δ σ} {eID : EntityID} {cType : ComponentTypeID} {data : δ}
    {w w1 : σ} {r : Except DuplicateTypeError ComponentID}
    (h : m.NewComponent eID cType data w = some (r, m1, w1)) :
    m1.newComponentCallbacks = m.newComponentCallbacks ∧
      m1.deleteComponentCallbacks = m.deleteComponentCallbacks := by
  cases r with
  | ok id =>
    obtain ⟨_, _, _, _, _, _, h1, h2⟩ := entityComponentManager.NewComponent_ok_inv h
    exact ⟨h1, h2⟩
  | error err =>
    unfold entityComponentManager.NewComponent at h
    cases hl : m.componentTypeManagers.lookup cType with
    | some tm =>
      simp only [hl] at h
      cases he : m.entities[eID]? with
      | none => simp [he] at h
      | some ent =>
        simp only [he] at h
        cases hd : ent.components.contains cType with
        | true =>
          simp only [hd, if_true] at h
          by_cases hnil : cType = nilType
          · rw [if_pos hnil] at h
            cases h
          · rw [if_neg hnil] at h
            simp only [Option.some.injEq, Prod.mk.injEq] at h
            obtain ⟨_, hm, _⟩ := h
            subst hm
            exact ⟨rfl, rfl⟩
        | false =>
          simp only [hd] at h
          cases hn : tm.new eID data with
          | none => simp [hn] at h
          | some r =>
            obtain ⟨tm1, n⟩ := r
            simp only [hn] at h
            cases hp : tm1.getDataPtr n <;> simp [hp] at h
    | none =>
      simp only [hl] at h
      cases he : m.entities[eID]? with
      | none => simp [he] at h
      | some ent =>
        simp only [he] at h
        cases hd : ent.components.contains cType with
        | true =>
          simp only [hd, if_true] at h
          by_cases hnil : cType = nilType
          · rw [if_pos hnil] at h
            cases h
          · rw [if_neg hnil] at h
            simp only [Option.some.injEq, Prod.mk.injEq] at h
            obtain ⟨_, hm, _⟩ := h
            subst hm
            exact ⟨rfl, rfl⟩
        | false =>
          simp only [hd] at h
          cases hn : (componentTypeManager.newComponentTypeManager :
              componentTypeManager δ).new eID data with
          | none => simp [hn] at h
          | some r =>
            obtain ⟨tm1, n⟩ := r
            simp only [hn] at h
            cases hp : tm1.getDataPtr n <;> simp [hp] at h

theorem entityComponentManager.DeleteComponent_callbacks [Inhabited δ]
    {m m1 : entityComponentManager δ σ} {id : ComponentID} {w w1 : σ}
    (h : m.DeleteComponent id w = some (m1, w1)) :
    m1.newComponentCallbacks = m.newComponentCallbacks ∧
      m1.deleteComponentCallbacks = m.deleteComponentCallbacks := by
  cases hl : m.componentTypeManagers.lookup id.ComponentTypeID with
  | none =>
    unfold entityComponentManager.DeleteComponent at h
    simp only [hl, Option.some.injEq, Prod.mk.injEq] at h
    rw [← h.1]
    exact ⟨rfl, rfl⟩
  | some tm =>
    cases hg : tm.getSafe id.ID with
    | none =>
      unfold entityComponentManager.DeleteComponent at h
      simp [hl, hg] at h
    | some r =>
      obtain ⟨c, ok⟩ := r
      cases ok with
      | false =>
        unfold entityComponentManager.DeleteComponent at h
        simp only [hl, hg, Option.some.injEq, Prod.mk.injEq] at h
        rw [← h.1]
        exact ⟨rfl, rfl⟩
      | true =>
        obtain ⟨_, _, _, _, _, _, _, _, h1, h2⟩ :=
          entityComponentManager.DeleteComponent_deleting_inv hl hg h
        exact ⟨h1, h2⟩

theorem entityComponentManager.UpdateComponent_callbacks
    {m m1 : entityComponentManager δ σ} {id : ComponentID} {data : δ}
    (h : m.UpdateComponent id data = some m1) :
    m1.newComponentCallbacks = m.newComponentCallbacks ∧
      m1.deleteComponentCallbacks = m.deleteComponentCallbacks ∧
      m1.entities = m.entities ∧ m1.entitiesToBeKilled = m.entitiesToBeKilled := by
  unfold entityComponentManager.UpdateComponent at h
  cases hl : m.componentTypeManagers.lookup id.ComponentTypeID with
  | none => simp [hl] at h
  | some tm =>
    cases hm : tm.modify id.ID (fun c => { c with data := data }) with
    | none => simp [hl, hm] at h
    | some tm1 =>
      simp only [hl, hm, Option.some.injEq] at h
      subst h
      exact ⟨rfl, rfl, rfl, rfl⟩

theorem entityComponentManager.DeleteEntity_callbacks
    {m m1 : entityComponentManager δ σ} {id : EntityID}
    (h : m.DeleteEntity id = some m1) :
    m1.newComponentCallbacks = m.newComponentCallbacks ∧
      m1.deleteComponentCallbacks = m.deleteComponentCallbacks := by
  unfold entityComponentManager.DeleteEntity at h
  by_cases hge : id ≥ m.entities.length
  · rw [if_pos hge] at h
    cases h
    exact ⟨rfl, rfl⟩
  · rw [if_neg hge] at h
    cases he : m.entities[id]? with
    | none => simp [he] at h
    | some ent =>
      cases hd : entityComponentManager.deleteComponentsOf m.componentTypeManagers
          ent.components.entries with
      | none => simp [he, hd] at h
      | some stores =>
        simp only [he, hd, Option.some.injEq] at h
        subst h
        exact ⟨rfl, rfl⟩

theorem entityComponentManager.DeleteEmptyEntities_callbacks
    {m m1 : entityComponentManager δ σ} (h : m.DeleteEmptyEntities = some m1) :
    m1.newComponentCallbacks = m.newComponentCallbacks ∧
      m1.deleteComponentCallbacks = m.deleteComponentCallbacks ∧
      m1.componentTypeManagers = m.componentTypeManagers := by
  unfold entityComponentManager.DeleteEmptyEntities at h
  cases hmk : entityComponentManager.markDeleted m.entities m.entitiesToBeKilled.keys with
  | none => simp [hmk] at h
  | some es =>
    simp only [hmk] at h
    split at h
    · cases hr : entityComponentManager.reapScan es (es.length - 1) with
      | none => simp [hr] at h
      | some e =>
        simp only [hr, Option.some.injEq] at h
        subst h
        exact ⟨rfl, rfl, rfl⟩
    · simp only [Option.some.injEq] at h
      subst h
      exact ⟨rfl, rfl, rfl⟩

theorem ECS.Wired_New [Inhabited δ] : (ECS.New : ECS δ ε β).Wired := ⟨rfl, rfl⟩

theorem engineStep_Wired [Inhabited δ] {ecs ecs1 : ECS δ ε β} (hw : ecs.Wired)
    {op : EngineOp δ β} (h : engineStep ecs op = some ecs1) : ecs1.Wired := by
  cases op with
  | NewEntity name =>
    simp only [engineStep, Option.some.injEq] at h
    subst h
    exact hw
  | NewComponent eID cType data =>
    simp only [engineStep, ECS.NewComponent, Option.map_map, Option.map_eq_some'] at h
    obtain ⟨⟨r, m1, w1⟩, h1, h2⟩ := h
    subst h2
    obtain ⟨ha, hb⟩ := entityComponentManager.NewComponent_callbacks h1
    exact ⟨ha.trans hw.1, hb.trans hw.2⟩
  | UpdateComponent id data =>
    simp only [engineStep, ECS.UpdateComponent, Option.map_eq_some'] at h
    obtain ⟨m1, h1, h2⟩ := h
    subst h2
    obtain ⟨ha, hb, _, _⟩ := entityComponentManager.UpdateComponent_callbacks h1
    exact ⟨ha.trans hw.1, hb.trans hw.2⟩
  | DeleteEntity id =>
    simp only [engineStep, ECS.DeleteEntity, Option.map_eq_some'] at h
    obtain ⟨m1, h1, h2⟩ := h
    subst h2
    obtain ⟨ha, hb⟩ := entityComponentManager.DeleteEntity_callbacks h1
    exact ⟨ha.trans hw.1, hb.trans hw.2⟩
  | DeleteComponent id =>
    simp only [engineStep, ECS.DeleteComponent, Option.map_eq_some'] at h
    obtain ⟨⟨m1, w1⟩, h1, h2⟩ := h
    subst h2
    obtain ⟨ha, hb⟩ := entityComponentManager.DeleteComponent_callbacks h1
    exact ⟨ha.trans hw.1, hb.trans hw.2⟩
  | DeleteEmptyEntities =>
    simp only [engineStep, ECS.DeleteEmptyEntities, Option.map_eq_some'] at h
    obtain ⟨m1, h1, h2⟩ := h
    subst h2
    obtain ⟨ha, hb, _⟩ := entityComponentManager.DeleteEmptyEntities_callbacks h1
    exact ⟨ha.trans hw.1, hb.trans hw.2⟩
  | NewSystem s triggeredBy actsOn =>
    simp only [engineStep, Option.some.injEq] at h
    subst h
    exact hw

theorem engineRun_Wired [Inhabited δ] :
    ∀ (ops : List (EngineOp δ β)) (ecs ecs1 : ECS δ ε β),
      ecs.Wired → engineRun ops ecs = some ecs1 → ecs1.Wired
  | [], ecs, ecs1, hw, h => by
    simp only [engineRun, Option.some.injEq] at h
    subst h
    exact hw
  | op :: ops, ecs, ecs1, hw, h => by
    simp only [engineRun] at h
    cases hst : engineStep ecs op with
    | none => simp [hst] at h
    | some ecs2 =>
      simp only [hst] at h
      exact engineRun_Wired ops ecs2 ecs1 (engineStep_Wired hw hst) h

theorem Wired_engineAfter (ops : List (EngineOp Nat Unit)) : (engineAfter ops).Wired := by
  unfold engineAfter
  cases h : engineRun ops engine with
  | none => exact ECS.Wired_New
  | some ecs => exact engineRun_Wired ops engine ecs ECS.Wired_New h

end CallbackLists

/-! ## Facts about iteration -/

section IterationFacts

variable {α ω ξ : Type}

theorem forEach_of_visitAll (i : α → ω → Option ((Bool × Option ξ) × ω)) :
    ∀ (l : List α) (w w1 : ω), visitAll i l w = some w1 →
      forEach i l w = some ((true, none), w1)
  | [], w, w1, h => by
    simp only [visitAll, Option.some.injEq] at h
    subst h
    rfl
  | x :: rest, w, w1, h => by
    simp only [visitAll] at h
    cases hx : i x w with
    | none => simp [hx] at h
    | some p =>
      obtain ⟨r, w2⟩ := p
      simp only [hx] at h
      by_cases hc : continues r = true
      · rw [if_pos hc] at h
        have hr : (!r.1 || r.2.isSome) = false := by
          obtain ⟨ok, err⟩ := r
          cases ok <;> cases err <;> simp [continues] at hc ⊢
        simp only [forEach, hx, hr, Bool.false_eq_true, if_false]
        exact forEach_of_visitAll i rest w2 w1 h
      · rw [if_neg hc] at h
        cases h

theorem forEach_stops (i : α → ω → Option ((Bool × Option ξ) × ω)) :
    ∀ (pre : List α) (e : α) (post : List α) (w w1 w2 : ω) (r : Bool × Option ξ),
      visitAll i pre w = some w1 → i e w1 = some (r, w2) → continues r = false →
      forEach i (pre ++ e :: post) w = some (r, w2)
  | [], e, post, w, w1, w2, r, h, he, hr => by
    simp only [visitAll, Option.some.injEq] at h
    subst h
    have hstop : (!r.1 || r.2.isSome) = true := by
      obtain ⟨ok, err⟩ := r
      cases ok <;> cases err <;> simp [continues] at hr ⊢
    simp only [List.nil_append, forEach, he, hstop, if_true]
  | x :: pre, e, post, w, w1, w2, r, h, he, hr => by
    simp only [visitAll] at h
    cases hx : i x w with
    | none => simp [hx] at h
    | some p =>
      obtain ⟨rx, wx⟩ := p
      simp only [hx] at h
      by_cases hc : continues rx = true
      · rw [if_pos hc] at h
        have hgo : (!rx.1 || rx.2.isSome) = false := by
          obtain ⟨ok, err⟩ := rx
          cases ok <;> cases err <;> simp [continues] at hc ⊢
        simp only [List.cons_append, forEach, hx, hgo, Bool.false_eq_true, if_false]
        exact forEach_stops i pre e post wx w1 w2 r h he hr
      · rw [if_neg hc] at h
        cases h

theorem forEach_cases (i : α → ω → Option ((Bool × Option ξ) × ω)) :
    ∀ (l : List α) (w w1 : ω) (r : Bool × Option ξ), forEach i l w = some (r, w1) →
      (visitAll i l w = some w1 ∧ r = (true, none)) ∨
      ∃ pre e post w0, l = pre ++ e :: post ∧ visitAll i pre w = some w0 ∧
        i e w0 = some (r, w1) ∧ continues r = false
  | [], w, w1, r, h => by
    simp only [forEach, Option.some.injEq, Prod.mk.injEq] at h
    obtain ⟨h1, h2⟩ := h
    subst h1 h2
    exact Or.inl ⟨rfl, rfl⟩
  | x :: rest, w, w1, r, h => by
    simp only [forEach] at h
    cases hx : i x w with
    | none => simp [hx] at h
    | some p =>
      obtain ⟨rx, wx⟩ := p
      simp only [hx] at h
      by_cases hstop : (!rx.1 || rx.2.isSome) = true
      · rw [if_pos hstop] at h
        simp only [Option.some.injEq, Prod.mk.injEq] at h
        obtain ⟨h1, h2⟩ := h
        subst h1 h2
        refine Or.inr ⟨[], x, rest, w, rfl, rfl, hx, ?_⟩
        obtain ⟨ok, err⟩ := rx
        cases ok <;> cases err <;> simp [continues] at hstop ⊢
      · rw [if_neg hstop] at h
        have hc : continues rx = true := by
          obtain ⟨ok, err⟩ := rx
          cases ok <;> cases err <;> simp [continues] at hstop ⊢
        rcases forEach_cases i rest wx w1 r h with
          ⟨hv, hr⟩ | ⟨pre, e, post, w0, hl, hv, he, hr⟩
        · refine Or.inl ⟨?_, hr⟩
          simp only [visitAll, hx, hc, if_true]
          exact hv
        · refine Or.inr ⟨x :: pre, e, post, w0, by rw [hl]; rfl, ?_, he, hr⟩
          simp only [visitAll, hx, hc, if_true]
          exact hv

end IterationFacts

/-! ## Facts about the queries -/

section QueryFacts

variable {δ σ : Type}

theorem entityHasComponents_iff (e : entity) (l : List ComponentTypeID) :
    entityHasComponents e l = true ↔ ∀ t, t ∈ l → e.components.contains t = true := by
  induction l with
  | nil => simp [entityHasComponents]
  | cons a rest ih =>
    simp only [entityHasComponents, List.mem_cons, forall_eq_or_imp]
    cases h : e.components.contains a with
    | true => simpa using ih
    | false => simp

theorem entityComponentManager.mem_getEntityIDsFrom (actsOn : List ComponentTypeID) :
    ∀ (es : List entity) (start x : Nat),
      x ∈ entityComponentManager.getEntityIDsFrom actsOn start es ↔
        ∃ k ent, es[k]? = some ent ∧ x = start + k ∧ entityHasComponents ent actsOn = true
  | [], start, x => by simp [entityComponentManager.getEntityIDsFrom]
  | e :: rest, start, x => by
    have ih := entityComponentManager.mem_getEntityIDsFrom actsOn rest (start + 1) x
    have key : x ∈ entityComponentManager.getEntityIDsFrom actsOn start (e :: rest) ↔
        (x = start ∧ entityHasComponents e actsOn = true) ∨
          x ∈ entityComponentManager.getEntityIDsFrom actsOn (start + 1) rest := by
      simp only [entityComponentManager.getEntityIDsFrom]
      by_cases hc : entityHasComponents e actsOn = true
      · simp [hc]
      · simp [hc]
    rw [key, ih]
    constructor
    · rintro (⟨h1, h2⟩ | ⟨k, ent, hk, hx, hc⟩)
      · exact ⟨0, e, by simp, by omega, h2⟩
      · exact ⟨k + 1, ent, by simpa using hk, by omega, hc⟩
    · rintro ⟨k, ent, hk, hx, hc⟩
      cases k with
      | zero =>
        simp only [List.getElem?_cons_zero, Option.some.injEq] at hk
        subst hk
        exact Or.inl ⟨by omega, hc⟩
      | succ k =>
        exact Or.inr ⟨k, ent, by simpa using hk, by omega, hc⟩

theorem entityComponentManager.getEntityIDsFrom_ge (actsOn : List ComponentTypeID)
    (es : List entity) (start x : Nat)
    (h : x ∈ entityComponentManager.getEntityIDsFrom actsOn start es) : start ≤ x := by
  obtain ⟨k, _, _, hx, _⟩ := (entityComponentManager.mem_getEntityIDsFrom actsOn es start x).mp h
  omega

theorem entityComponentManager.getEntityIDsFrom_sorted (actsOn : List ComponentTypeID) :
    ∀ (es : List entity) (start : Nat),
      (entityComponentManager.getEntityIDsFrom actsOn start es).Pairwise (· < ·)
  | [], start => by simp [entityComponentManager.getEntityIDsFrom]
  | e :: rest, start => by
    have ih := entityComponentManager.getEntityIDsFrom_sorted actsOn rest (start + 1)
    simp only [entityComponentManager.getEntityIDsFrom]
    by_cases hc : entityHasComponents e actsOn = true
    · rw [if_pos hc, List.pairwise_cons]
      refine ⟨?_, ih⟩
      intro x hx
      have := entityComponentManager.getEntityIDsFrom_ge actsOn rest (start + 1) x hx
      show start < x
      omega
    · rw [if_neg hc]
      exact ih

theorem entityComponentManager.getEntityIDsFrom_nil :
    ∀ (es : List entity) (start : Nat),
      entityComponentManager.getEntityIDsFrom [] start es = List.range' start es.length
  | [], start => rfl
  | e :: rest, start => by
    simp only [entityComponentManager.getEntityIDsFrom, entityHasComponents, if_true,
      List.length_cons, List.range'_succ]
    rw [entityComponentManager.getEntityIDsFrom_nil rest (start + 1)]

theorem entityComponentManager.getElem?_entityViews :
    ∀ (es : List entity) (start k : Nat),
      (entityComponentManager.entityViews start es)[k]? =
        (es[k]?).map (entityComponentManager.newEntity (start + k))
  | [], start, k => by simp [entityComponentManager.entityViews]
  | e :: rest, start, 0 => by simp [entityComponentManager.entityViews]
  | e :: rest, start, k + 1 => by
    simp only [entityComponentManager.entityViews, List.getElem?_cons_succ]
    rw [entityComponentManager.getElem?_entityViews rest (start + 1) k]
    have : start + 1 + k = start + (k + 1) := by omega
    rw [this]

theorem entityComponentManager.length_entityViews :
    ∀ (es : List entity) (start : Nat),
      (entityComponentManager.entityViews start es).length = es.length
  | [], start => rfl
  | e :: rest, start => by
    simp only [entityComponentManager.entityViews, List.length_cons]
    rw [entityComponentManager.length_entityViews rest (start + 1)]

end QueryFacts

/-! ## The pending-deletion set -/

section PendingFacts

variable {δ σ : Type}

theorem GoMap.mem_keys_iff {κ ν : Type} [DecidableEq κ] (m : GoMap κ ν) (k : κ) :
    k ∈ m.keys ↔ m.contains k = true := by
  obtain ⟨l⟩ := m
  simp only [GoMap.keys, GoMap.contains, GoMap.lookup]
  induction l with
  | nil => simp [GoMap.lookupList]
  | cons p rest ih =>
    obtain ⟨a, b⟩ := p
    by_cases h : a = k
    · simp [GoMap.lookupList, h]
    · have h' : ¬ k = a := fun e => h e.symm
      simp only [List.map_cons, List.mem_cons, h', false_or, GoMap.lookupList, h, if_false]
      exact ih

theorem GoMap.contains_of_entries_nil {κ ν : Type} [DecidableEq κ] {m : GoMap κ ν}
    (h : m.entries = []) (k : κ) : m.contains k = false := by
  simp [GoMap.contains, GoMap.lookup, h, GoMap.lookupList]

theorem GoMap.entries_erase_of_nil {κ ν : Type} [DecidableEq κ] {m : GoMap κ ν}
    (h : m.entries = []) (k : κ) : (m.erase k).entries = [] := by
  simp [GoMap.erase, h, GoMap.eraseList]

theorem GoMap.entries_of_size_zero {κ ν : Type} {m : GoMap κ ν} (h : m.size = 0) :
    m.entries = [] :=
  List.length_eq_zero.mp h

theorem entityComponentManager.NewComponent_table [Inhabited δ]
    {m m1 : entityComponentManager δ σ} {eID : EntityID} {cType : ComponentTypeID} {data : δ}
    {w w1 : σ} {r : Except DuplicateTypeError ComponentID}
    (h : m.NewComponent eID cType data w = some (r, m1, w1)) :
    (m1.entities = m.entities ∧ m1.entitiesToBeKilled = m.entitiesToBeKilled) ∨
    ∃ ent ent1, m.entities[eID]? = some ent ∧ m1.entities = m.entities.set eID ent1 ∧
      m1.entitiesToBeKilled = m.entitiesToBeKilled.erase eID := by
  unfold entityComponentManager.NewComponent at h
  cases hl : m.componentTypeManagers.lookup cType with
  | some tm =>
    simp only [hl] at h
    cases he : m.entities[eID]? with
    | none => simp [he] at h
    | some ent =>
      simp only [he] at h
      cases hd : ent.components.contains cType with
      | true =>
        simp only [hd, if_true] at h
        by_cases hnil : cType = nilType
        · rw [if_pos hnil] at h
          cases h
        · rw [if_neg hnil] at h
          simp only [Option.some.injEq, Prod.mk.injEq] at h
          obtain ⟨_, hm, _⟩ := h
          subst hm
          exact Or.inl ⟨rfl, rfl⟩
      | false =>
        simp only [hd] at h
        cases hn : tm.new eID data with
        | none => simp [hn] at h
        | some r =>
          obtain ⟨tm1, n⟩ := r
          simp only [hn] at h
          cases hp : tm1.getDataPtr n with
          | none => simp [hp] at h
          | some p =>
            simp only [hp, Bool.false_eq_true, if_false, Option.some.injEq,
              Prod.mk.injEq] at h
            obtain ⟨_, hm, _⟩ := h
            subst hm
            exact Or.inr ⟨ent, _, rfl, rfl, rfl⟩
  | none =>
    simp only [hl] at h
    cases he : m.entities[eID]? with
    | none => simp [he] at h
    | some ent =>
      simp only [he] at h
      cases hd : ent.components.contains cType with
      | true =>
        simp only [hd, if_true] at h
        by_cases hnil : cType = nilType
        · rw [if_pos hnil] at h
          cases h
        · rw [if_neg hnil] at h
          simp only [Option.some.injEq, Prod.mk.injEq] at h
          obtain ⟨_, hm, _⟩ := h
          subst hm
          exact Or.inl ⟨rfl, rfl⟩
      | false =>
        simp only [hd] at h
        cases hn : (componentTypeManager.newComponentTypeManager :
            componentTypeManager δ).new eID data with
        | none => simp [hn] at h
        | some r =>
          obtain ⟨tm1, n⟩ := r
          simp only [hn] at h
          cases hp : tm1.getDataPtr n with
          | none => simp [hp] at h
          | some p =>
            simp only [hp, Bool.false_eq_true, if_false, Option.some.injEq,
              Prod.mk.injEq] at h
            obtain ⟨_, hm, _⟩ := h
            subst hm
            exact Or.inr ⟨ent, _, rfl, rfl, rfl⟩

theorem entityComponentManager.DeleteEntity_table
    {m m1 : entityComponentManager δ σ} {id : EntityID} (h : m.DeleteEntity id = some m1) :
    (m.entities.length ≤ id ∧ m1 = m) ∨
    ∃ ent, m.entities[id]? = some ent ∧
      m1.entities = m.entities.set id { ent with components := GoMap.empty } ∧
      m1.entitiesToBeKilled = m.entitiesToBeKilled.insert id () := by
  unfold entityComponentManager.DeleteEntity at h
  by_cases hge : id ≥ m.entities.length
  · rw [if_pos hge] at h
    cases h
    exact Or.inl ⟨hge, rfl⟩
  · rw [if_neg hge] at h
    cases he : m.entities[id]? with
    | none => simp [he] at h
    | some ent =>
      cases hd : entityComponentManager.deleteComponentsOf m.componentTypeManagers
          ent.components.entries with
      | none => simp [he, hd] at h
      | some stores =>
        simp only [he, hd, Option.some.injEq] at h
        subst h
        exact Or.inr ⟨ent, rfl, rfl, rfl⟩

theorem entityComponentManager.DeleteComponent_table [Inhabited δ]
    {m m1 : entityComponentManager δ σ} {id : ComponentID} {w w1 : σ}
    (h : m.DeleteComponent id w = some (m1, w1)) :
    (m1.entities = m.entities ∧ m1.entitiesToBeKilled = m.entitiesToBeKilled) ∨
    ∃ e ent, m.entities[e]? = some ent ∧
      m1.entities = m.entities.set e
        { ent with components := ent.components.erase id.ComponentTypeID } ∧
      m1.entitiesToBeKilled =
        (if (ent.components.erase id.ComponentTypeID).size = 0
          then m.entitiesToBeKilled.insert e () else m.entitiesToBeKilled) := by
  cases hl : m.componentTypeManagers.lookup id.ComponentTypeID with
  | none =>
    unfold entityComponentManager.DeleteComponent at h
    simp only [hl, Option.some.injEq, Prod.mk.injEq] at h
    rw [← h.1]
    exact Or.inl ⟨rfl, rfl⟩
  | some tm =>
    cases hg : tm.getSafe id.ID with
    | none =>
      unfold entityComponentManager.DeleteComponent at h
      simp [hl, hg] at h
    | some r =>
      obtain ⟨c, ok⟩ := r
      cases ok with
      | false =>
        unfold entityComponentManager.DeleteComponent at h
        simp only [hl, hg, Option.some.injEq, Prod.mk.injEq] at h
        rw [← h.1]
        exact Or.inl ⟨rfl, rfl⟩
      | true =>
        obtain ⟨ent, _, he, _, _, hents, hp, _, _, _⟩ :=
          entityComponentManager.DeleteComponent_deleting_inv hl hg h
        exact Or.inr ⟨c.entity, ent, he, hents, hp⟩

theorem entityComponentManager.PendingInv_new :
    (entityComponentManager.newEntityComponentManager :
      entityComponentManager δ σ).PendingInv := by
  intro id h
  simp [entityComponentManager.newEntityComponentManager, GoMap.contains_empty] at h

theorem entityComponentManager.PendingInv_set_erase {m : entityComponentManager δ σ}
    (h : m.PendingInv) (e : EntityID) (ent1 : entity) :
    ∀ id, (m.entitiesToBeKilled.erase e).contains id = true →
      ∃ ent, (m.entities.set e ent1)[id]? = some ent ∧ ent.components.entries = [] := by
  intro id hc
  rw [GoMap.contains_erase] at hc
  simp only [Bool.and_eq_true, Bool.not_eq_true', decide_eq_false_iff_not] at hc
  obtain ⟨ent, he, hn⟩ := h id hc.2
  exact ⟨ent, by rw [List.getElem?_set_ne hc.1]; exact he, hn⟩

theorem entityComponentManager.PendingInv_set_insert {m : entityComponentManager δ σ}
    (h : m.PendingInv) (e : EntityID) (ent1 : entity) (hlt : e < m.entities.length)
    (hn1 : ent1.components.entries = []) :
    ∀ id, (m.entitiesToBeKilled.insert e ()).contains id = true →
      ∃ ent, (m.entities.set e ent1)[id]? = some ent ∧ ent.components.entries = [] := by
  intro id hc
  by_cases hid : e = id
  · subst hid
    exact ⟨ent1, List.getElem?_set_self hlt, hn1⟩
  · rw [GoMap.contains_insert] at hc
    simp only [hid, decide_False, Bool.false_or] at hc
    obtain ⟨ent, he, hn⟩ := h id hc
    exact ⟨ent, by rw [List.getElem?_set_ne hid]; exact he, hn⟩

theorem entityComponentManager.PendingInv_step [Inhabited δ]
    {s s1 : entityComponentManager δ σ × σ} (h : s.1.PendingInv) {op : Op δ σ}
    (hs : step s op = some s1) : s1.1.PendingInv := by
  cases op with
  | NewEntity name =>
    simp only [step, Option.some.injEq] at hs
    subst hs
    intro id hc
    show ∃ ent, (s.1.entities ++ _)[id]? = some ent ∧ _
    by_cases hid : s.1.entities.length = id
    · subst hid
      refine ⟨{ name := name, components := GoMap.empty, deleted := false }, ?_, rfl⟩
      simp
    · have hc' : s.1.entitiesToBeKilled.contains id = true := by
        have := hc
        simp only [entityComponentManager.NewEntity, GoMap.contains_insert, hid,
          decide_False, Bool.false_or] at this
        exact this
      obtain ⟨ent, he, hn⟩ := h id hc'
      have hlt : id < s.1.entities.length := (List.getElem?_eq_some.mp he).1
      exact ⟨ent, by rw [List.getElem?_append_left hlt]; exact he, hn⟩
  | NewComponent eID cType data =>
    simp only [step, Option.map_eq_some'] at hs
    obtain ⟨⟨r, m1, w1⟩, h1, h2⟩ := hs
    subst h2
    rcases entityComponentManager.NewComponent_table h1 with
      ⟨he, hp⟩ | ⟨ent, ent1, _, he, hp⟩
    · intro id hc
      show ∃ ent, m1.entities[id]? = some ent ∧ _
      rw [he]
      exact h id (by rw [← hp]; exact hc)
    · intro id hc
      show ∃ ent, m1.entities[id]? = some ent ∧ _
      rw [he]
      exact entityComponentManager.PendingInv_set_erase h eID ent1 id (by rw [← hp]; exact hc)
  | NewComponentCallback c =>
    simp only [step, Option.some.injEq] at hs
    subst hs
    exact h
  | UpdateComponent id data =>
    simp only [step, Option.map_eq_some'] at hs
    obtain ⟨m1, h1, h2⟩ := hs
    subst h2
    obtain ⟨_, _, he, hp⟩ := entityComponentManager.UpdateComponent_callbacks h1
    intro id' hc
    show ∃ ent, m1.entities[id']? = some ent ∧ _
    rw [he]
    exact h id' (by rw [← hp]; exact hc)
  | DeleteEntity id =>
    simp only [step, Option.map_eq_some'] at hs
    obtain ⟨m1, h1, h2⟩ := hs
    subst h2
    rcases entityComponentManager.DeleteEntity_table h1 with ⟨_, hm⟩ | ⟨ent, he0, he, hp⟩
    · subst hm
      exact h
    · intro id' hc
      show ∃ ent, m1.entities[id']? = some ent ∧ _
      rw [he]
      exact entityComponentManager.PendingInv_set_insert h id _
        (List.getElem?_eq_some.mp he0).1 rfl id' (by rw [← hp]; exact hc)
  | DeleteComponent id =>
    simp only [step] at hs
    rcases entityComponentManager.DeleteComponent_table hs with
      ⟨he, hp⟩ | ⟨e, ent, he0, he, hp⟩
    · intro id' hc
      rw [he]
      exact h id' (by rw [← hp]; exact hc)
    · intro id' hc
      rw [he]
      rw [hp] at hc
      by_cases hz : (ent.components.erase id.ComponentTypeID).size = 0
      · rw [if_pos hz] at hc
        exact entityComponentManager.PendingInv_set_insert h e _
          (List.getElem?_eq_some.mp he0).1 (GoMap.entries_of_size_zero hz) id' hc
      · rw [if_neg hz] at hc
        obtain ⟨ent', he', hn'⟩ := h id' hc
        by_cases hid : e = id'
        · subst hid
          rw [he0] at he'
          cases he'
          exact ⟨_, List.getElem?_set_self (List.getElem?_eq_some.mp he0).1,
            GoMap.entries_erase_of_nil hn' _⟩
        · exact ⟨ent', by rw [List.getElem?_set_ne hid]; exact he', hn'⟩
  | DeleteComponentCallback c =>
    simp only [step, Option.some.injEq] at hs
    subst hs
    exact h
  | DeleteEmptyEntities =>
    simp only [step, Option.map_eq_some'] at hs
    obtain ⟨m1, h1, h2⟩ := hs
    subst h2
    have hp : m1.entitiesToBeKilled = GoMap.empty := by
      unfold entityComponentManager.DeleteEmptyEntities at h1
      cases hmk : entityComponentManager.markDeleted s.1.entities
          s.1.entitiesToBeKilled.keys with
      | none => simp [hmk] at h1
      | some es =>
        simp only [hmk] at h1
        split at h1
        · cases hr : entityComponentManager.reapScan es (es.length - 1) with
          | none => simp [hr] at h1
          | some e =>
            simp only [hr, Option.some.injEq] at h1
            subst h1
            rfl
        · simp only [Option.some.injEq] at h1
          subst h1
          rfl
    intro id hc
    have hc' : m1.entitiesToBeKilled.contains id = true := hc
    rw [hp, GoMap.contains_empty] at hc'
    cases hc'

theorem entityComponentManager.PendingInv_runOps [Inhabited δ] :
    ∀ (ops : List (Op δ σ)) (s s1 : entityComponentManager δ σ × σ),
      s.1.PendingInv → runOps ops s = some s1 → s1.1.PendingInv
  | [], s, s1, h, hs => by
    simp only [runOps, Option.some.injEq] at hs
    subst hs
    exact h
  | op :: ops, s, s1, h, hs => by
    simp only [runOps] at hs
    cases hst : step s op with
    | none => simp [hst] at hs
    | some s2 =>
      simp only [hst] at hs
      exact entityComponentManager.PendingInv_runOps ops s2 s1
        (entityComponentManager.PendingInv_step h hst) hs

theorem Reachable.pendingInv [Inhabited δ] {m : entityComponentManager δ σ}
    (h : Reachable m) : m.PendingInv := by
  obtain ⟨ops, w0, w, hr⟩ := h
  exact entityComponentManager.PendingInv_runOps ops _ _
    entityComponentManager.PendingInv_new hr

end PendingFacts

/-! ## Facts about reaping -/

section ReapFacts

variable {δ σ : Type}

theorem entityComponentManager.markDeleted_spec :
    ∀ (ids : List Nat) (es : List entity), (∀ id, id ∈ ids → id < es.length) →
      ∃ es1, entityComponentManager.markDeleted es ids = some es1 ∧
        es1.length = es.length ∧
        ∀ (k : Nat) (ent : entity), es[k]? = some ent →
          es1[k]? = some { ent with deleted := ent.deleted || decide (k ∈ ids) }
  | [], es, _ => ⟨es, rfl, rfl, fun k ent h => by simp [h]⟩
  | id :: rest, es, hlt => by
    have hid : id < es.length := hlt id (List.mem_cons_self _ _)
    have he : es[id]? = some es[id] := List.getElem?_eq_getElem hid
    obtain ⟨es1, h1, hl, hk⟩ := entityComponentManager.markDeleted_spec rest
      (es.set id { es[id] with deleted := true })
      (fun x hx => by rw [List.length_set]; exact hlt x (List.mem_cons_of_mem _ hx))
    refine ⟨es1, ?_, by rw [hl, List.length_set], ?_⟩
    · simp only [entityComponentManager.markDeleted, he]
      exact h1
    · intro k ent hke
      by_cases hik : id = k
      · subst hik
        rw [he] at hke
        cases hke
        rw [hk id { es[id] with deleted := true } (List.getElem?_set_self hid)]
        simp
      · have hki : ¬ k = id := fun e => hik e.symm
        rw [hk k ent (by rw [List.getElem?_set_ne hik]; exact hke)]
        simp [hki]

theorem entityComponentManager.reapScan_spec (es : List entity) :
    ∀ n : Nat, n < es.length →
      ∃ r, entityComponentManager.reapScan es n = some r ∧ r ≤ n ∧
        (∀ e, e ≤ n →
          (∀ k, e ≤ k → k ≤ n → ∃ ent, es[k]? = some ent ∧ ent.deleted = true) → r ≤ e) ∧
        (∀ k ent, k ≤ n → es[k]? = some ent → ent.deleted = false → k ≤ r)
  | 0, _ =>
    ⟨0, rfl, Nat.le_refl 0, fun e _ _ => Nat.zero_le e, fun k _ hk _ _ => hk⟩
  | n + 1, hn => by
    have he : es[n + 1]? = some es[n + 1] := List.getElem?_eq_getElem hn
    cases hd : es[n + 1].deleted with
    | true =>
      obtain ⟨r, hr, hle, hup, hlow⟩ :=
        entityComponentManager.reapScan_spec es n (Nat.lt_of_succ_lt hn)
      refine ⟨r, ?_, Nat.le_succ_of_le hle, ?_, ?_⟩
      · simp only [entityComponentManager.reapScan, he, hd, if_true]
        exact hr
      · intro e hen hall
        by_cases hee : e ≤ n
        · exact hup e hee (fun k h1 h2 => hall k h1 (Nat.le_succ_of_le h2))
        · omega
      · intro k ent hk hke hnd
        by_cases hkn : k ≤ n
        · exact hlow k ent hkn hke hnd
        · have : k = n + 1 := by omega
          subst this
          rw [he] at hke
          cases hke
          rw [hd] at hnd
          cases hnd
    | false =>
      refine ⟨n + 1, ?_, Nat.le_refl _, ?_, fun k _ hk _ _ => hk⟩
      · simp [entityComponentManager.reapScan, he, hd]
      · intro e hen hall
        obtain ⟨ent, h1, h2⟩ := hall (n + 1) hen (Nat.le_refl _)
        rw [he] at h1
        cases h1
        rw [hd] at h2
        cases h2

theorem entityComponentManager.DeleteEmptyEntities_spec
    (m : entityComponentManager δ σ) (hp : m.PendingInv) :
    ∃ m1 es, m.DeleteEmptyEntities = some m1 ∧
      es.length = m.entities.length ∧
      (∀ (k : Nat) (ent : entity), m.entities[k]? = some ent →
        es[k]? = some
          { ent with deleted := ent.deleted || m.entitiesToBeKilled.contains k }) ∧
      (m1.entities = es ∨
        ∃ r, m1.entities = es.take r ∧
          (∃ id, m.entitiesToBeKilled.contains id = true ∧ id + 1 = es.length) ∧
          entityComponentManager.reapScan es (es.length - 1) = some r) := by
  have hlt : ∀ id, id ∈ m.entitiesToBeKilled.keys → id < m.entities.length := by
    intro id hid
    obtain ⟨ent, he, _⟩ := hp id ((GoMap.mem_keys_iff _ _).mp hid)
    exact (List.getElem?_eq_some.mp he).1
  obtain ⟨es, hmk, hl, hk⟩ :=
    entityComponentManager.markDeleted_spec m.entitiesToBeKilled.keys m.entities hlt
  have hk' : ∀ (k : Nat) (ent : entity), m.entities[k]? = some ent →
      es[k]? = some
        { ent with deleted := ent.deleted || m.entitiesToBeKilled.contains k } := by
    intro k ent h
    rw [hk k ent h]
    have : decide (k ∈ m.entitiesToBeKilled.keys) = m.entitiesToBeKilled.contains k := by
      cases hc : m.entitiesToBeKilled.contains k with
      | true => exact decide_eq_true ((GoMap.mem_keys_iff _ _).mpr hc)
      | false =>
        apply decide_eq_false
        intro hmem
        rw [(GoMap.mem_keys_iff _ _).mp hmem] at hc
        cases hc
    rw [this]
  unfold entityComponentManager.DeleteEmptyEntities
  simp only [hmk]
  cases hany : m.entitiesToBeKilled.keys.any (fun id => decide (id + 1 = es.length)) with
  | false =>
    exact ⟨{ m with entities := es, entitiesToBeKilled := GoMap.empty }, es, by simp, hl, hk',
      Or.inl rfl⟩
  | true =>
    obtain ⟨id, hid, hidl⟩ := List.any_eq_true.mp hany
    have hidl' : id + 1 = es.length := of_decide_eq_true hidl
    have hpos : 0 < es.length := by rw [← hidl']; exact Nat.succ_pos _
    obtain ⟨r, hr, _⟩ := entityComponentManager.reapScan_spec es (es.length - 1)
      (Nat.sub_lt hpos Nat.one_pos)
    refine ⟨{ m with entities := es.take r, entitiesToBeKilled := GoMap.empty }, es, ?_, hl,
      hk', Or.inr ⟨r, rfl, ⟨id, (GoMap.mem_keys_iff _ _).mp hid, hidl'⟩, hr⟩⟩
    simp [hr]

theorem entityComponentManager.id_lt_of_mem_entityViews :
    ∀ (es : List entity) (start : Nat) (v : Entity),
      v ∈ entityComponentManager.entityViews start es → v.id < start + es.length
  | [], _, _, h => by simp [entityComponentManager.entityViews] at h
  | e :: rest, start, v, h => by
    simp only [entityComponentManager.entityViews, List.mem_cons] at h
    rcases h with h | h
    · subst h
      show start < start + (e :: rest).length
      simp
    · have := entityComponentManager.id_lt_of_mem_entityViews rest (start + 1) v h
      exact Nat.lt_of_lt_of_eq this
        (by rw [List.length_cons, Nat.add_assoc, Nat.add_comm 1])

end ReapFacts

/-! ## Facts about the event queue -/

section EventFacts

variable {ε : Type}

theorem eventManager.eventQueue_NewEvent (m : eventManager ε) (t : EventTypeID) (d : ε) :
    (m.NewEvent t d).eventQueue = m.eventQueue ++ [{ EventTypeID := t, Data := d }] := by
  unfold eventManager.NewEvent
  cases m.spare with
  | cons x rest => rfl
  | nil =>
    by_cases hf : m.free > 0
    · simp only [hf, if_true]
    · simp only [hf, if_false]

theorem eventManager.eventQueue_pushAll (l : List (EventTypeID × ε)) :
    ∀ m : eventManager ε,
      (m.pushAll l).eventQueue =
        m.eventQueue ++ l.map (fun p => { EventTypeID := p.1, Data := p.2 }) := by
  induction l with
  | nil => intro m; simp [eventManager.pushAll]
  | cons p rest ih =>
    intro m
    have h := ih (m.NewEvent p.1 p.2)
    simp only [eventManager.pushAll, List.foldl_cons] at h ⊢
    rw [h, eventManager.eventQueue_NewEvent]
    simp

theorem eventManager.pushAll_append (m : eventManager ε) (l1 l2 : List (EventTypeID × ε)) :
    (m.pushAll l1).pushAll l2 = m.pushAll (l1 ++ l2) := by
  simp [eventManager.pushAll, List.foldl_append]

theorem eventManager.eventQueue_ClearEvents (m : eventManager ε) :
    m.ClearEvents.eventQueue = [] := by
  unfold eventManager.ClearEvents
  by_cases hl : m.eventQueue.length > 0
  · rw [if_pos hl]
  · rw [if_neg hl]
    exact List.length_eq_zero.mp (Nat.le_zero.mp (Nat.not_lt.mp hl))

theorem eventManager.Keeps_self (m : eventManager ε) :
    m.Keeps m.retired.length m.eventQueue :=
  Or.inl ⟨rfl, List.prefix_refl _⟩

theorem eventManager.Keeps_NewEvent {m : eventManager ε} {a : Nat} {q : List (Event ε)}
    (h : m.Keeps a q) (t : EventTypeID) (d : ε) : (m.NewEvent t d).Keeps a q := by
  unfold eventManager.NewEvent
  rcases h with ⟨ha, hp⟩ | ⟨ha, hp⟩
  · cases m.spare with
    | cons x rest => exact Or.inl ⟨ha, hp.trans (List.prefix_append _ _)⟩
    | nil =>
      by_cases hf : m.free > 0
      · simp only [hf, if_true]
        exact Or.inl ⟨ha, hp.trans (List.prefix_append _ _)⟩
      · simp only [hf, if_false]
        refine Or.inr ⟨by simp [ha], ?_⟩
        show q <+: (m.retired ++ [m.eventQueue]).getD a []
        rw [ha, List.getD_eq_getElem?_getD, List.getElem?_append_right (Nat.le_refl _)]
        simpa using hp
  · have hget : ∀ x : List (Event ε), (m.retired ++ [x]).getD a [] = m.retired.getD a [] := by
      intro x
      rw [List.getD_eq_getElem?_getD, List.getD_eq_getElem?_getD,
        List.getElem?_append_left ha]
    cases m.spare with
    | cons x rest => exact Or.inr ⟨ha, hp⟩
    | nil =>
      by_cases hf : m.free > 0
      · simp only [hf, if_true]
        exact Or.inr ⟨ha, hp⟩
      · simp only [hf, if_false]
        refine Or.inr ⟨by simp; omega, ?_⟩
        show q <+: (m.retired ++ [m.eventQueue]).getD a []
        rw [hget]
        exact hp

theorem eventManager.Keeps_pushAll {a : Nat} {q : List (Event ε)}
    (l : List (EventTypeID × ε)) :
    ∀ m : eventManager ε, m.Keeps a q → (m.pushAll l).Keeps a q := by
  induction l with
  | nil => intro m h; exact h
  | cons p rest ih =>
    intro m h
    exact ih (m.NewEvent p.1 p.2) (eventManager.Keeps_NewEvent h p.1 p.2)

theorem eventManager.cell_of_Keeps {m : eventManager ε} {a : Nat} {q : List (Event ε)}
    (h : m.Keeps a q) {k : Nat} (hk : k < q.length) : m.cell a k = q[k]? := by
  unfold eventManager.cell
  rcases h with ⟨ha, t, hp⟩ | ⟨ha, t, hp⟩
  · rw [if_pos ha, ← hp, List.append_assoc, List.getElem?_append_left hk]
  · rw [if_neg (Nat.ne_of_lt ha), ← hp, List.getElem?_append_left hk]

end EventFacts

/-! ## Dispatch -/

section DispatchFacts

variable {δ ε β : Type}

theorem ECS.runEntities_pushes [Inhabited δ] (run : β → SystemFunc δ ε β)
    (hpush : ∀ f e1 ev ent e2, run f e1 ev ent = some e2 →
      ∃ added, e2.EventManager = e1.EventManager.pushAll added)
    (f : β) (i : SystemID) (event : Event ε) :
    ∀ (ids : List EntityID) (ecs ecs1 : ECS δ ε β),
      ECS.runEntities run f i event ids ecs = some ecs1 →
      ∃ added, ecs1.EventManager = ecs.EventManager.pushAll added
  | [], ecs, ecs1, h => by
    simp only [ECS.runEntities, Option.some.injEq] at h
    subst h
    exact ⟨[], rfl⟩
  | id :: rest, ecs, ecs1, h => by
    simp only [ECS.runEntities] at h
    cases hS : ecs.SystemManager.systems[i]? with
    | none =>
      simp only [hS] at h
      exact ECS.runEntities_pushes run hpush f i event rest ecs ecs1 h
    | some S =>
      simp only [hS] at h
      by_cases hc : S.entities.contains id = true
      · rw [if_pos hc] at h
        cases hg : ecs.GetEntity id with
        | none => simp [hg] at h
        | some e =>
          simp only [hg] at h
          cases hr : run f ecs event e with
          | none => simp [hr] at h
          | some ecs2 =>
            simp only [hr] at h
            obtain ⟨a1, h1⟩ := hpush f ecs event e ecs2 hr
            obtain ⟨a2, h2⟩ := ECS.runEntities_pushes run hpush f i event rest ecs2 ecs1 h
            exact ⟨a1 ++ a2, by rw [h2, h1, eventManager.pushAll_append]⟩
      · rw [if_neg hc] at h
        exact ECS.runEntities_pushes run hpush f i event rest ecs ecs1 h

theorem ECS.runSystemsLoop_pushes [Inhabited δ] (run : β → SystemFunc δ ε β)
    (hpush : ∀ f e1 ev ent e2, run f e1 ev ent = some e2 →
      ∃ added, e2.EventManager = e1.EventManager.pushAll added)
    (event : Event ε) :
    ∀ (is : List SystemID) (ecs ecs1 : ECS δ ε β),
      ECS.runSystemsLoop run event is ecs = some ecs1 →
      ∃ added, ecs1.EventManager = ecs.EventManager.pushAll added
  | [], ecs, ecs1, h => by
    simp only [ECS.runSystemsLoop, Option.some.injEq] at h
    subst h
    exact ⟨[], rfl⟩
  | i :: rest, ecs, ecs1, h => by
    simp only [ECS.runSystemsLoop] at h
    cases hS : ecs.SystemManager.systems[i]? with
    | none =>
      simp only [hS] at h
      exact ECS.runSystemsLoop_pushes run hpush event rest ecs ecs1 h
    | some S =>
      simp only [hS] at h
      cases hr : ECS.systemRun run i S ecs event with
      | none => simp [hr] at h
      | some ecs2 =>
        simp only [hr] at h
        have h2 : ∃ added, ecs2.EventManager = ecs.EventManager.pushAll added := by
          unfold ECS.systemRun at hr
          by_cases ht : S.triggeredBy = event.EventTypeID
          · rw [if_pos ht] at hr
            exact ECS.runEntities_pushes run hpush S.f i event _ ecs ecs2 hr
          · rw [if_neg ht] at hr
            cases hr
            exact ⟨[], rfl⟩
        obtain ⟨a1, h1⟩ := h2
        obtain ⟨a2, h3⟩ := ECS.runSystemsLoop_pushes run hpush event rest ecs2 ecs1 h
        exact ⟨a1 ++ a2, by rw [h3, h1, eventManager.pushAll_append]⟩

theorem dispatchQueued_pushes [Inhabited δ] (run : β → SystemFunc δ ε β)
    (hpush : ∀ f e1 ev ent e2, run f e1 ev ent = some e2 →
      ∃ added, e2.EventManager = e1.EventManager.pushAll added) :
    ∀ (q : List (Event ε)) (ecs ecs1 : ECS δ ε β), dispatchQueued run q ecs = some ecs1 →
      ∃ added, ecs1.EventManager = ecs.EventManager.pushAll added
  | [], ecs, ecs1, h => by
    simp only [dispatchQueued, Option.some.injEq] at h
    subst h
    exact ⟨[], rfl⟩
  | event :: rest, ecs, ecs1, h => by
    simp only [dispatchQueued] at h
    cases hr : ecs.RunSystems run event with
    | none => simp [hr] at h
    | some ecs2 =>
      simp only [hr] at h
      obtain ⟨a1, h1⟩ := ECS.runSystemsLoop_pushes run hpush event _ ecs ecs2 hr
      obtain ⟨a2, h2⟩ := dispatchQueued_pushes run hpush rest ecs2 ecs1 h
      exact ⟨a1 ++ a2, by rw [h2, h1, eventManager.pushAll_append]⟩

theorem forEventCells_RunSystems [Inhabited δ] (run : β → SystemFunc δ ε β)
    (hpush : ∀ f e1 ev ent e2, run f e1 ev ent = some e2 →
      ∃ added, e2.EventManager = e1.EventManager.pushAll added)
    (a : Nat) (q0 : List (Event ε)) :
    ∀ (n s : Nat) (ecs : ECS δ ε β), s + n = q0.length → ecs.EventManager.Keeps a q0 →
      ECS.forEventCells
          (fun event (ecs1 : ECS δ ε β) =>
            (ecs1.RunSystems run event).map (fun ecs2 => ((true, (none : Option Unit)), ecs2)))
          a (List.range' s n) ecs =
        (dispatchQueued run (q0.drop s) ecs).map (fun ecs2 => ((true, none), ecs2))
  | 0, s, ecs, hs, _ => by
    have hd : q0.drop s = [] := List.drop_eq_nil_of_le (by omega)
    rw [hd]
    rfl
  | n + 1, s, ecs, hs, hk => by
    have hlt : s < q0.length := by omega
    have hcell := eventManager.cell_of_Keeps hk hlt
    rw [List.getElem?_eq_getElem hlt] at hcell
    have hd : q0.drop s = q0[s] :: q0.drop (s + 1) := List.drop_eq_getElem_cons hlt
    rw [hd]
    simp only [List.range'_succ, ECS.forEventCells, hcell, dispatchQueued]
    cases hr : ecs.RunSystems run q0[s] with
    | none => rfl
    | some ecs2 =>
      obtain ⟨added, hadd⟩ := ECS.runSystemsLoop_pushes run hpush q0[s] _ ecs ecs2 hr
      simp only [Option.map_some', Bool.not_true, Option.isSome_none, Bool.or_self,
        Bool.false_eq_true, if_false]
      exact forEventCells_RunSystems run hpush a q0 n (s + 1) ecs2 (by omega)
        (by rw [hadd]; exact eventManager.Keeps_pushAll added _ hk)

theorem Run_eq_dispatchQueued [Inhabited δ] (run : β → SystemFunc δ ε β)
    (hpush : ∀ f e1 ev ent e2, run f e1 ev ent = some e2 →
      ∃ added, e2.EventManager = e1.EventManager.pushAll added)
    (ecs : ECS δ ε β) :
    ecs.Run run = (dispatchQueued run ecs.EventManager.eventQueue ecs).map ECS.ClearEvents := by
  unfold ECS.Run ECS.ForEvents
  rw [List.range_eq_range',
    forEventCells_RunSystems run hpush _ ecs.EventManager.eventQueue _ 0 ecs (Nat.zero_add _)
      (eventManager.Keeps_self _)]
  simp only [List.drop_zero]
  cases dispatchQueued run ecs.EventManager.eventQueue ecs <;> rfl

end DispatchFacts

/-! ## The counter engine -/

section CounterFacts

theorem counterEngine_setup (c : Int) :
    engineRun (counterSetup c) ECS.New = some (counterEngine eventManager.newEventManager c) :=
  rfl

theorem counterEngine_systems (em : eventManager Int) (c : Int) :
    (counterEngine em c).SystemManager.systems =
      [{ f := (), triggeredBy := countType, actsOn := [countType],
         entities := ⟨[(0, ())]⟩ }] := rfl

theorem counterEngine_GetEntity (em : eventManager Int) (c : Int) :
    (counterEngine em c).GetEntity 0 =
      some ⟨0, "entity", ⟨[(countType, ⟨0, ⟨0, 0⟩⟩)]⟩⟩ := rfl

theorem counterEngine_EntityGet (em : eventManager Int) (c : Int) :
    (counterEngine em c).EntityComponentManager.EntityGet
      ⟨0, "entity", ⟨[(countType, ⟨0, ⟨0, 0⟩⟩)]⟩⟩ countType =
      some { id := ⟨0, countType⟩, Data := c } := rfl

theorem counterEngine_UpdateComponent (em : eventManager Int) (c d : Int) :
    (counterEngine em c).UpdateComponent ⟨0, countType⟩ d = some (counterEngine em d) := rfl

theorem counterEngine_GetComponent (em : eventManager Int) (c : Int) :
    (counterEngine em c).GetComponent ⟨0, countType⟩ = some c := rfl

theorem counterEngine_EventManager (em : eventManager Int) (c : Int) :
    (counterEngine em c).EventManager = em := rfl

theorem counterEngine_NewEvent (em : eventManager Int) (c v : Int) :
    (counterEngine em c).NewEvent countType v = counterEngine (em.NewEvent countType v) c :=
  rfl

theorem counterEngine_ClearEvents (em : eventManager Int) (c : Int) :
    (counterEngine em c).ClearEvents = counterEngine em.ClearEvents c := rfl

theorem counterEngine_RunSystems (em : eventManager Int) (c v : Int) :
    (counterEngine em c).RunSystems (fun _ => counterFunc) ⟨countType, v⟩ =
      some (counterEngine em (goInt (c + v))) := by
  have hr : List.range 1 = [0] := rfl
  simp only [ECS.RunSystems, counterEngine_systems, List.length_singleton, hr,
    ECS.runSystemsLoop, List.getElem?_cons_zero, ECS.systemRun, if_true, GoMap.keys,
    List.map_cons, List.map_nil, ECS.runEntities, counterEngine_GetEntity, counterFunc,
    counterEngine_EntityGet, Component.Update, counterEngine_UpdateComponent]
  rfl

theorem pushEvents_counterEngine (vs : List Int) :
    ∀ (em : eventManager Int) (c : Int),
      pushEvents vs (counterEngine em c) =
        counterEngine (em.pushAll (vs.map (fun v => (countType, v)))) c := by
  induction vs with
  | nil => intro em c; rfl
  | cons v rest ih =>
    intro em c
    have := ih (em.NewEvent countType v) c
    simp only [pushEvents, List.foldl_cons, counterEngine_NewEvent] at this ⊢
    rw [this]
    rfl

theorem counterFunc_keeps_events (e1 : ECS Int Int Unit) (ev : Event Int) (ent : Entity)
    (e2 : ECS Int Int Unit) (h : counterFunc e1 ev ent = some e2) :
    ∃ added, e2.EventManager = e1.EventManager.pushAll added := by
  refine ⟨[], ?_⟩
  unfold counterFunc at h
  cases hg : e1.EntityComponentManager.EntityGet ent countType with
  | none => simp [hg] at h
  | some count =>
    simp only [hg, Component.Update, ECS.UpdateComponent, Option.map_eq_some'] at h
    obtain ⟨m, _, hm⟩ := h
    rw [← hm]
    rfl

theorem dispatchQueued_counterEngine (em : eventManager Int) :
    ∀ (vs : List Int) (c : Int),
      dispatchQueued (fun _ => counterFunc)
          (vs.map (fun v => ({ EventTypeID := countType, Data := v } : Event Int)))
          (counterEngine em c) =
        some (counterEngine em (vs.foldl (fun a v => goInt (a + v)) c))
  | [], c => rfl
  | v :: rest, c => by
    simp only [List.map_cons, dispatchQueued, counterEngine_RunSystems, List.foldl_cons]
    exact dispatchQueued_counterEngine em rest (goInt (c + v))

theorem goInt_add (a b : Int) : goInt (goInt a + b) = goInt (a + b) := by
  unfold goInt
  omega

theorem goInt_of_range (a : Int) (h1 : -2 ^ 63 ≤ a) (h2 : a < 2 ^ 63) : goInt a = a := by
  unfold goInt
  omega

theorem foldl_goInt (vs : List Int) :
    ∀ c : Int, vs.foldl (fun a v => goInt (a + v)) (goInt c) = goInt (c + vs.sum) := by
  induction vs with
  | nil => intro c; simp
  | cons v rest ih =>
    intro c
    simp only [List.foldl_cons, List.sum_cons, goInt_add]
    rw [ih (c + v), Int.add_assoc]

end CounterFacts

/-! ## Runs of store operations -/

namespace componentTypeManager

variable {δ : Type}

theorem deleteScan_total [Inhabited δ] : ∀ (e : Nat) (m : componentTypeManager δ),
    e / componentBlockSize < m.components.length → ∃ r, deleteScan e m = some r
  | 0, m, _ => ⟨(m, 0), rfl⟩
  | e + 1, m, hb => by
    have hg : m.get (e + 1) = some ((m.components.get ⟨_, hb⟩).get (slotOf (e + 1))) := by
      simp only [get, List.getElem?_eq_getElem hb, Option.map_some']
      rfl
    simp only [deleteScan, hg]
    by_cases hdel : ((m.components.get ⟨_, hb⟩).get (slotOf (e + 1))).deleted = true
    · rw [if_pos hdel]
      by_cases hmod : (e + 1) % componentBlockSize = 0
      · rw [if_pos hmod]
        have hne : m.components ≠ [] := by
          intro h0
          rw [h0] at hb
          exact Nat.not_lt_zero _ hb
        cases ht : m.truncateBlock with
        | none =>
          unfold truncateBlock at ht
          cases hl : m.components.getLast? with
          | none => exact absurd (List.getLast?_eq_none_iff.mp hl) hne
          | some b => rw [hl] at ht; cases ht
        | some m1 =>
          obtain ⟨hl, _⟩ := truncateBlock_some_inv ht
          have h1 : (e + 1) / componentBlockSize = e / componentBlockSize + 1 := by
            unfold componentBlockSize at hmod ⊢
            omega
          exact deleteScan_total e m1 (by omega)
      · rw [if_neg hmod]
        have h1 : e / componentBlockSize ≤ (e + 1) / componentBlockSize :=
          Nat.div_le_div_right (Nat.le_succ e)
        exact deleteScan_total e m (Nat.lt_of_le_of_lt h1 hb)
    · rw [if_neg hdel]
      exact ⟨_, rfl⟩

theorem delete_eq_some [Inhabited δ] {m : componentTypeManager δ} {id : Nat}
    (hb : id / componentBlockSize < m.components.length) : ∃ m1, m.delete id = some m1 := by
  obtain ⟨m1, hm, hlen, hblk, _⟩ := modify_eq_some hb (fun c => { c with deleted := true })
  unfold delete
  simp only [hm]
  by_cases hlast : id + 1 = m1.len
  · rw [if_pos hlast]
    obtain ⟨r, hr⟩ := deleteScan_total id m1 (by rw [hblk]; exact hb)
    rw [hr]
    exact ⟨_, rfl⟩
  · rw [if_neg hlast]
    exact ⟨_, rfl⟩

theorem storeStep_WF [Inhabited δ] {m m1 : componentTypeManager δ} (h : m.WF)
    {op : StoreOp δ} (hs : m.storeStep op = some m1) : m1.WF := by
  cases op with
  | new e d =>
    obtain ⟨m2, hn, _, hwf, _⟩ := new_eq_some h e d
    simp only [storeStep, hn, Option.map_some', Option.some.injEq] at hs
    subst hs
    exact hwf
  | delete id => exact delete_WF h hs

theorem storeRun_WF [Inhabited δ] : ∀ (ops : List (StoreOp δ)) (m m1 : componentTypeManager δ),
    m.WF → storeRun ops m = some m1 → m1.WF
  | [], m, m1, h, hr => by
    simp only [storeRun, Option.some.injEq] at hr
    subst hr
    exact h
  | op :: ops, m, m1, h, hr => by
    simp only [storeRun] at hr
    cases hs : m.storeStep op with
    | none => simp [hs] at hr
    | some m2 =>
      simp only [hs] at hr
      exact storeRun_WF ops m2 m1 (storeStep_WF h hs) hr

theorem new_blocks [Inhabited δ] {m m1 : componentTypeManager δ} {e : EntityID} {d : δ}
    {id : Nat} (h : m.new e d = some (m1, id)) :
    m1.components.length =
      if m.components.length ≤ m.len / componentBlockSize then m.components.length + 1
      else m.components.length := by
  unfold new at h
  by_cases hc : m.components.length ≤ m.len / componentBlockSize
  · rw [if_pos hc] at h ⊢
    simp only at h
    cases hm : m.appendBlock.modify m.appendBlock.len
        (fun _ => { entity := e, data := d, deleted := false }) with
    | none => simp [hm] at h
    | some m2 =>
      simp only [hm, Option.some.injEq, Prod.mk.injEq] at h
      obtain ⟨_, _, hblk, _⟩ := modify_some_inv hm
      rw [← h.1]
      show m2.components.length = _
      rw [hblk, appendBlock_components]
      simp
  · rw [if_neg hc] at h ⊢
    simp only at h
    cases hm : m.modify m.len (fun _ => { entity := e, data := d, deleted := false }) with
    | none => simp [hm] at h
    | some m2 =>
      simp only [hm, Option.some.injEq, Prod.mk.injEq] at h
      obtain ⟨_, _, hblk, _⟩ := modify_some_inv hm
      rw [← h.1]
      exact hblk

theorem newAll_spec [Inhabited δ] : ∀ (l : List (EntityID × δ)) (m : componentTypeManager δ),
    m.WF → m.components.length = max 1 ((m.len + 63) / 64) →
    ∃ m1, newAll l m = some (m1, List.range' m.len l.length) ∧
      m1.len = m.len + l.length ∧ m1.WF ∧
      m1.components.length = max 1 ((m1.len + 63) / 64) ∧
      (∀ j, j < m.len → m1.get j = m.get j) ∧
      ∀ (k : Nat) (e : EntityID) (d : δ), l[k]? = some (e, d) →
        m1.get (m.len + k) = some { entity := e, data := d, deleted := false }
  | [], m, hwf, hblk => ⟨m, rfl, rfl, hwf, hblk, fun _ _ => rfl, fun k e d h => by simp at h⟩
  | (e0, d0) :: rest, m, hwf, hblk => by
    obtain ⟨m1, hn, hlen1, hwf1, hget1, _, hfr1⟩ := new_eq_some hwf e0 d0
    have hb1 := new_blocks hn
    have hblk1 : m1.components.length = max 1 ((m1.len + 63) / 64) := by
      rw [hb1, hlen1, hblk]
      unfold componentBlockSize
      split <;> omega
    obtain ⟨m2, hall, hlen2, hwf2, hblk2, hold2, hnew2⟩ := newAll_spec rest m1 hwf1 hblk1
    have hin : ∀ j, j < m.len → j / componentBlockSize < m.components.length := by
      intro j hj
      have := hwf.2
      exact (Nat.div_lt_iff_lt_mul componentBlockSize_pos).mpr
        (by rw [Nat.mul_comm]; exact Nat.lt_of_lt_of_le hj this)
    refine ⟨m2, ?_, ?_, hwf2, hblk2, ?_, ?_⟩
    · simp only [newAll, hn, hall, hlen1, Option.map_some', List.length_cons, List.range'_succ]
    · rw [hlen2, hlen1, List.length_cons]
      omega
    · intro j hj
      rw [hold2 j (by rw [hlen1]; exact Nat.lt_succ_of_lt hj)]
      exact hfr1 j (Nat.ne_of_lt hj) (hin j hj)
    · intro k e d hk
      cases k with
      | zero =>
        simp only [List.getElem?_cons_zero, Option.some.injEq, Prod.mk.injEq] at hk
        obtain ⟨h1, h2⟩ := hk
        subst h1 h2
        rw [Nat.add_zero, hold2 m.len (by rw [hlen1]; exact Nat.lt_succ_self _)]
        exact hget1
      | succ k =>
        simp only [List.getElem?_cons_succ] at hk
        have := hnew2 k e d hk
        rw [hlen1] at this
        have heq : m.len + (k + 1) = m.len + 1 + k := by omega
        rw [heq]
        exact this

end componentTypeManager

/-! ## The outside world after a call -/

section WorldFacts

variable {δ σ : Type}

theorem entityComponentManager.NewComponent_world [Inhabited δ]
    {m m1 : entityComponentManager δ σ} {eID : EntityID} {cType : ComponentTypeID} {data : δ}
    {w w1 : σ} {r : Except DuplicateTypeError ComponentID}
    (h : m.NewComponent eID cType data w = some (r, m1, w1)) :
    w1 = w ∨ ∃ v, w1 = entityComponentManager.runCallbacks m.newComponentCallbacks v w := by
  cases r with
  | ok id =>
    obtain ⟨_, _, _, _, _, hw, _, _⟩ := entityComponentManager.NewComponent_ok_inv h
    exact Or.inr ⟨_, hw⟩
  | error err =>
    left
    unfold entityComponentManager.NewComponent at h
    cases hl : m.componentTypeManagers.lookup cType with
    | some tm =>
      simp only [hl] at h
      cases he : m.entities[eID]? with
      | none => simp [he] at h
      | some ent =>
        simp only [he] at h
        cases hd : ent.components.contains cType with
        | true =>
          simp only [hd, if_true] at h
          by_cases hnil : cType = nilType
          · rw [if_pos hnil] at h
            cases h
          · rw [if_neg hnil] at h
            simp only [Option.some.injEq, Prod.mk.injEq] at h
            exact h.2.2.symm
        | false =>
          simp only [hd] at h
          cases hn : tm.new eID data with
          | none => simp [hn] at h
          | some r =>
            obtain ⟨tm1, n⟩ := r
            simp only [hn] at h
            cases hp : tm1.getDataPtr n with
            | none => simp [hp] at h
            | some p => simp [hp] at h
    | none =>
      simp only [hl] at h
      cases he : m.entities[eID]? with
      | none => simp [he] at h
      | some ent =>
        simp only [he] at h
        cases hd : ent.components.contains cType with
        | true =>
          simp only [hd, if_true] at h
          by_cases hnil : cType = nilType
          · rw [if_pos hnil] at h
            cases h
          · rw [if_neg hnil] at h
            simp only [Option.some.injEq, Prod.mk.injEq] at h
            exact h.2.2.symm
        | false =>
          simp only [hd] at h
          cases hn : (componentTypeManager.newComponentTypeManager :
              componentTypeManager δ).new eID data with
          | none => simp [hn] at h
          | some r =>
            obtain ⟨tm1, n⟩ := r
            simp only [hn] at h
            cases hp : tm1.getDataPtr n with
            | none => simp [hp] at h
            | some p => simp [hp] at h

theorem entityComponentManager.DeleteComponent_world [Inhabited δ]
    {m m1 : entityComponentManager δ σ} {id : ComponentID} {w w1 : σ}
    (h : m.DeleteComponent id w = some (m1, w1)) :
    w1 = w ∨ ∃ v, w1 = entityComponentManager.runCallbacks m.deleteComponentCallbacks v w := by
  cases hl : m.componentTypeManagers.lookup id.ComponentTypeID with
  | none =>
    unfold entityComponentManager.DeleteComponent at h
    simp only [hl, Option.some.injEq, Prod.mk.injEq] at h
    exact Or.inl h.2.symm
  | some tm =>
    cases hg : tm.getSafe id.ID with
    | none =>
      unfold entityComponentManager.DeleteComponent at h
      simp [hl, hg] at h
    | some r =>
      obtain ⟨c, ok⟩ := r
      cases ok with
      | false =>
        unfold entityComponentManager.DeleteComponent at h
        simp only [hl, hg, Option.some.injEq, Prod.mk.injEq] at h
        exact Or.inl h.2.symm
      | true =>
        obtain ⟨ent, _, _, _, _, _, _, hw, _, _⟩ :=
          entityComponentManager.DeleteComponent_deleting_inv hl hg h
        exact Or.inr ⟨_, hw⟩

end WorldFacts

section Claims

variable {δ σ ε β : Type}

/-! ## Helpers for concrete runs -/

theorem reachable_managerAfter (ops : List (Op Nat Unit)) : Reachable (managerAfter ops) := by
  unfold managerAfter
  cases h : runOps ops init with
  | none => exact ⟨[], (), (), rfl⟩
  | some s => exact ⟨ops, (), s.2, h⟩

/-! ## NewComponent -/

/-- C1 (counterexample): entity 0 holds a component of the nil type, attached by a first
`NewComponentReflect(0, nil)`, which succeeds; a second `NewComponent` of the nil type on that
entity does not return an error: it panics, in the `cType.String()` of the error message. -/
theorem NewComponent_duplicate_nil_type_panics :
    (runOps nilComponent init).map
        (fun s =>
          (s.1.entities.map (fun e => e.components.contains nilType),
            (s.1.NewComponent 0 nilType 0 s.2).isSome)) =
      some ([true], false) := by
  decide

/-- C1 (amended): in every manager state, when entity `eID` already holds a component of a
type `cType` that is not the nil type, `NewComponent` returns the duplicate-type error and the
outside world is the one before the call whatever the registered callbacks are (no callback
runs); the entity table, the pending-deletion set, the callback lists and every store present
before the call are the same afterwards, and in a reachable state (where a held type always has
a store) the manager as a whole is the one before the call. -/
theorem NewComponent_duplicate_type_fails [Inhabited δ] (m : entityComponentManager δ σ)
    (eID : EntityID) (cType : ComponentTypeID) (ent : entity)
    (he : m.entities[eID]? = some ent) (hd : ent.components.contains cType = true)
    (hn : cType ≠ nilType) (data : δ) (w : σ) :
    ∃ m1 : entityComponentManager δ σ,
      m.NewComponent eID cType data w =
        some (Except.error { cType := cType, eID := eID }, m1, w) ∧
      m1.entities = m.entities ∧
      m1.entitiesToBeKilled = m.entitiesToBeKilled ∧
      (∀ t tm, m.componentTypeManagers.lookup t = some tm →
        m1.componentTypeManagers.lookup t = some tm) ∧
      m1.newComponentCallbacks = m.newComponentCallbacks ∧
      m1.deleteComponentCallbacks = m.deleteComponentCallbacks ∧
      (Reachable m → m1 = m) := by
  cases hl : m.componentTypeManagers.lookup cType with
  | some tm =>
    exact ⟨m, entityComponentManager.NewComponent_duplicate hl he hd hn data w, rfl, rfl,
      fun _ _ h => h, rfl, rfl, fun _ => rfl⟩
  | none =>
    refine ⟨{ m with componentTypeManagers :=
        m.componentTypeManagers.insert cType componentTypeManager.newComponentTypeManager },
      ?_, rfl, rfl, ?_, rfl, rfl, ?_⟩
    · unfold entityComponentManager.NewComponent
      simp only [hl, he, hd, if_true, hn, if_false]
    · intro t tm ht
      have hne : cType ≠ t := by
        intro e
        rw [e, ht] at hl
        cases hl
      rw [GoMap.lookup_insert_ne _ _ hne]
      exact ht
    · intro hr
      have hc := hr.inv.2 ent (List.getElem?_mem he) cType hd
      rw [GoMap.contains, hl] at hc
      cases hc

/-- Instance of C1 (amended): entity 0 holds a component of type 1 and is given a second
one. -/
theorem NewComponent_duplicate_type_fails_witness :
    ∃ m1 : entityComponentManager Nat Unit,
      (managerAfter oneComponent).NewComponent 0 1 9 () =
        some (Except.error { cType := 1, eID := 0 }, m1, ()) ∧
      m1 = managerAfter oneComponent := by
  obtain ⟨m1, h1, _, _, _, _, _, h2⟩ :=
    NewComponent_duplicate_type_fails (managerAfter oneComponent) 0 1
      { name := "a", components := ⟨[(1, { id := 0, ptr := { array := 0, cell := 0 } })]⟩,
        deleted := false }
      (by decide) (by decide) (by decide) 9 ()
  exact ⟨m1, h1, h2 (reachable_managerAfter oneComponent)⟩

/-- C2: in a reachable manager state, for an entity `eID` of the table that holds no component
of type `cType`, `NewComponent` succeeds and returns the id made of the previous length of the
store of `cType` (zero, with a new store, when the type had none) and `cType`. Afterwards the
store has one more record, the record at that index has owner `eID`, payload `data` and is not
deleted; the mapping of `eID` is the old one with the single new entry `cType ↦ index`; `eID`
is not pending deletion; and the outside world is the result of running the registered creation
callbacks once each, in registration order, on the view of `eID` in its new state. -/
theorem NewComponent_fresh_type_succeeds [Inhabited δ] (m : entityComponentManager δ σ)
    (hr : Reachable m) (eID : EntityID) (cType : ComponentTypeID) (ent : entity)
    (he : m.entities[eID]? = some ent) (hd : ent.components.contains cType = false)
    (data : δ) (w : σ) :
    ∃ (m1 : entityComponentManager δ σ) (tm1 : componentTypeManager δ) (ent1 : entity)
      (p : dataPtr),
      m.NewComponent eID cType data w =
        some (Except.ok { ID := (m.storeFor cType).len, ComponentTypeID := cType }, m1,
          m.newComponentCallbacks.foldl
            (fun acc c => c { id := eID, name := ent1.name, components := ent1.components } acc)
            w) ∧
      m1.componentTypeManagers.lookup cType = some tm1 ∧
      tm1.len = (m.storeFor cType).len + 1 ∧
      tm1.get (m.storeFor cType).len = some { entity := eID, data := data, deleted := false } ∧
      m1.entities[eID]? = some ent1 ∧
      ent1.name = ent.name ∧ ent1.deleted = ent.deleted ∧
      (∀ t, ent1.components.lookup t =
        if cType = t then some { id := (m.storeFor cType).len, ptr := p }
        else ent.components.lookup t) ∧
      m1.entitiesToBeKilled.contains eID = false ∧
      m1.newComponentCallbacks = m.newComponentCallbacks := by
  obtain ⟨tm1, p, _, hlen, hget, hnc⟩ :=
    entityComponentManager.NewComponent_fresh
      (entityComponentManager.storeFor_WF hr.inv cType) he hd data w
  have hlt : eID < m.entities.length := (List.getElem?_eq_some.mp he).1
  refine ⟨_, tm1, _, p, hnc, ?_, hlen, hget, ?_, rfl, rfl, ?_, ?_, rfl⟩
  · exact GoMap.lookup_insert_self _ _ _
  · exact List.getElem?_set_self hlt
  · intro t
    exact GoMap.lookup_insert _ _ _ _
  · show (m.entitiesToBeKilled.erase eID).contains eID = false
    rw [GoMap.contains_eq_false_iff, GoMap.lookup_erase, if_pos rfl]

/-- Instance of C2: entity 0 holds a component of type 1 and is given one of type 2. -/
theorem NewComponent_fresh_type_succeeds_witness :
    ∃ (m1 : entityComponentManager Nat Unit) (tm1 : componentTypeManager Nat) (ent1 : entity)
      (p : dataPtr),
      (managerAfter oneComponent).NewComponent 0 2 9 () =
        some (Except.ok { ID := ((managerAfter oneComponent).storeFor 2).len,
                          ComponentTypeID := 2 }, m1,
          (managerAfter oneComponent).newComponentCallbacks.foldl
            (fun acc c => c { id := 0, name := ent1.name, components := ent1.components } acc)
            ()) ∧
      m1.componentTypeManagers.lookup 2 = some tm1 ∧
      tm1.len = ((managerAfter oneComponent).storeFor 2).len + 1 ∧
      tm1.get ((managerAfter oneComponent).storeFor 2).len =
        some { entity := 0, data := 9, deleted := false } ∧
      m1.entities[0]? = some ent1 ∧
      ent1.name = "a" ∧ ent1.deleted = false ∧
      (∀ t, ent1.components.lookup t =
        if 2 = t then some { id := ((managerAfter oneComponent).storeFor 2).len, ptr := p }
        else (GoMap.mk [(1, ({ id := 0, ptr := { array := 0, cell := 0 } } : componentPtr))]).lookup
          t) ∧
      m1.entitiesToBeKilled.contains 0 = false ∧
      m1.newComponentCallbacks = (managerAfter oneComponent).newComponentCallbacks :=
  NewComponent_fresh_type_succeeds (managerAfter oneComponent)
    (reachable_managerAfter oneComponent) 0 2
    { name := "a", components := ⟨[(1, { id := 0, ptr := { array := 0, cell := 0 } })]⟩,
      deleted := false }
    (by decide) (by decide) 9 ()

/-- C3 (failing run): with two entities holding components 0 and 1 of type 7, after
`DeleteComponent` of component 1 entity 0 still holds `{0, 7}`, and a `NewComponent` of type 7
for a third entity returns the same id `{0, 7}`. -/
theorem NewComponent_hands_out_live_index :
    (runOps (deleteSecondOfTwo ++ [Op.NewEntity "c"]) init).map
        (fun s =>
          (((s.1.entities[0]?).bind (fun e => e.components.lookup 7)).map (fun c => c.id),
            (s.1.NewComponent 2 7 12 s.2).map (fun r => r.1))) =
      some (some 0, some (Except.ok { ID := 0, ComponentTypeID := 7 })) := by
  decide

/-! ## Tail compaction of a store -/

/-- C4 (failing run): after creating two components in a new store and deleting the highest
index, the length of the store is 0 and not 1. -/
theorem tail_delete_length_off_by_one :
    ((createN 2 componentTypeManager.newComponentTypeManager).bind (deleteTop 1 2)).map
        (fun m => m.len) = some 0 ∧ (0 : Nat) ≠ 2 - 1 := by
  decide

/-- C5 (failing run): in a store with two live records, `delete 1` leaves record 0 not marked
deleted, yet the new length 0 no longer covers its index. -/
theorem delete_reclaims_live_record :
    (createN 2 componentTypeManager.newComponentTypeManager).map
        (fun m =>
          (m.len,
            (m.delete 1).map (fun m1 => (m1.len, (m1.get 0).map (fun c => c.deleted))))) =
      some (2, some (0, some false)) := by
  decide

/-- C6 (failing run): after two entities received a component of type 7 and the second
component was deleted, entity 0 still holds the reference to index 0 while the store of type 7
has length 0. -/
theorem reference_beyond_store_length :
    (runOps deleteSecondOfTwo init).map
        (fun s =>
          (((s.1.entities[0]?).bind (fun e => e.components.lookup 7)).map (fun c => c.id),
            (s.1.componentTypeManagers.lookup 7).map (fun tm => tm.len))) =
      some (some 0, some 0) := by
  decide

/-- C7 (failing run): the id `{65, 7}` is returned by a successful `NewComponent` and never
deleted; after component 66 and the components 0 to 64 are deleted, entity 65 still holds it
but its block has been dropped from the store, and `UpdateComponent` on it panics. -/
theorem UpdateComponent_panics_on_live_id :
    (runOps beforeComponent65 init).bind
        (fun s => (s.1.NewComponent 65 7 65 s.2).map (fun r => r.1)) =
      some (Except.ok { ID := 65, ComponentTypeID := 7 }) ∧
    (runOps (beforeComponent65 ++ Op.NewComponent 65 7 65 :: afterComponent65) init).map
        (fun s =>
          (((s.1.entities[65]?).bind (fun e => e.components.lookup 7)).map (fun c => c.id),
            (s.1.componentTypeManagers.lookup 7).map (fun tm => (tm.len, tm.components.length)),
            (s.1.UpdateComponent { ID := 65, ComponentTypeID := 7 } 999).isSome)) =
      some (some 65, some (0, 1), false) := by
  decide

/-- C8 (failing run): with 65 components of type 7 the store has grown by a block; after
`UpdateComponent` of component 0 with 999, `GetComponent` returns 999 but `GetEntity(0).Get`
still returns the payload 0 the component had when the store grew. -/
theorem EntityGet_stale_after_growth :
    (runOps (growToSecondBlock ++ [Op.UpdateComponent { ID := 0, ComponentTypeID := 7 } 999])
        init).map
        (fun s =>
          (s.1.GetComponent { ID := 0, ComponentTypeID := 7 },
            (s.1.GetEntity 0).bind (fun e => s.1.EntityGet e 7))) =
      some (some 999, some { id := { ID := 0, ComponentTypeID := 7 }, Data := 0 }) := by
  decide

/-! ## DeleteComponent -/

/-- C9 (failing run): after two entities received a component of type 7 and the second
component was deleted, entity 0 holds `{0, 7}`; `DeleteComponent` of that id changes nothing:
the entity still holds the type and the record is not marked deleted. -/
theorem DeleteComponent_skips_held_component :
    (runOps (deleteSecondOfTwo ++ [Op.DeleteComponent { ID := 0, ComponentTypeID := 7 }])
        init).map
        (fun s =>
          (((s.1.entities[0]?).bind (fun e => e.components.lookup 7)).map (fun c => c.id),
            ((s.1.componentTypeManagers.lookup 7).bind (fun tm => tm.get 0)).map
              (fun c => c.deleted),
            s.1.entitiesToBeKilled.contains 0)) =
      some (some 0, some false, false) := by
  decide

/-- C10: in every manager state, for a component id whose type has no store or whose index is
at least the length of the store of its type, `DeleteComponent` returns the manager and the
outside world it was given, whatever the registered callbacks are. -/
theorem DeleteComponent_unknown_is_noop [Inhabited δ] (m : entityComponentManager δ σ)
    (id : ComponentID) (w : σ)
    (h : m.componentTypeManagers.lookup id.ComponentTypeID = none ∨
      ∃ tm, m.componentTypeManagers.lookup id.ComponentTypeID = some tm ∧ tm.len ≤ id.ID) :
    m.DeleteComponent id w = some (m, w) := by
  unfold entityComponentManager.DeleteComponent
  rcases h with h | ⟨tm, h, hle⟩
  · simp only [h]
  · have hg : tm.getSafe id.ID = some (component.zero, false) := by
      unfold componentTypeManager.getSafe
      rw [if_pos hle]
    simp only [h, hg]

/-- Instance of C10: an index beyond the length of the store of type 1. -/
theorem DeleteComponent_unknown_is_noop_witness :
    (managerAfter oneComponent).DeleteComponent { ID := 100, ComponentTypeID := 1 } () =
      some (managerAfter oneComponent, ()) :=
  DeleteComponent_unknown_is_noop (managerAfter oneComponent)
    { ID := 100, ComponentTypeID := 1 } ()
    (Or.inr ⟨((managerAfter oneComponent).componentTypeManagers.lookup 1).getD
        componentTypeManager.newComponentTypeManager, by decide, by decide⟩)

/-- C11 (failing run): record 0 of type 7 has been deleted and its owner, entity 0, has
received a new component of type 7 (index 2). A second `DeleteComponent` of `{0, 7}` is not a
no-op: entity 0 loses its entry for type 7, is put in the pending-deletion set, and the
deletion callback runs once more (the count goes from 1 to 2). -/
theorem DeleteComponent_repeats_on_deleted_record :
    (runOps deleteThenReplace initCount).map
        (fun s =>
          (((s.1.componentTypeManagers.lookup 7).bind (fun tm => tm.get 0)).map
              (fun c => c.deleted),
            ((s.1.entities[0]?).bind (fun e => e.components.lookup 7)).map (fun c => c.id),
            s.1.entitiesToBeKilled.contains 0, s.2)) =
      some (some true, some 2, false, 1) ∧
    (runOps (deleteThenReplace ++ [Op.DeleteComponent { ID := 0, ComponentTypeID := 7 }])
        initCount).map
        (fun s =>
          (((s.1.entities[0]?).bind (fun e => e.components.lookup 7)).map (fun c => c.id),
            s.1.entitiesToBeKilled.contains 0, s.2)) =
      some (none, true, 2) := by
  decide

/-! ## DeleteEntity -/

/-- C12 (failing run): after 67 components of type 7, the deletion of component 66 and of the
components 0 to 64, entity 65 is in the table and still holds `{65, 7}`, but the block of that
record has been dropped from the store and `DeleteEntity` of entity 65 panics. -/
theorem DeleteEntity_panics_on_held_reference :
    (runOps (beforeComponent65 ++ Op.NewComponent 65 7 65 :: afterComponent65) init).map
        (fun s =>
          (s.1.entities.length,
            ((s.1.entities[65]?).bind (fun e => e.components.lookup 7)).map (fun c => c.id),
            (s.1.DeleteEntity 65).isSome)) =
      some (67, some 65, false) := by
  decide

/-- C13: in every manager state, for an entity id at or beyond the length of the table,
`DeleteEntity` returns the manager it was given. -/
theorem DeleteEntity_unknown_is_noop (m : entityComponentManager δ σ) (id : EntityID)
    (h : m.entities.length ≤ id) : m.DeleteEntity id = some m := by
  unfold entityComponentManager.DeleteEntity
  rw [if_pos h]

/-- Instance of C13: entity id 100 in a table of one entity. -/
theorem DeleteEntity_unknown_is_noop_witness :
    (managerAfter oneComponent).DeleteEntity 100 = some (managerAfter oneComponent) :=
  DeleteEntity_unknown_is_noop (managerAfter oneComponent) 100 (by decide)

/-! ## Systems -/

/-- C14 (failing run): entity 0 holds a component of type 7 and is matched by a system that
requires type 7; after `DeleteEntity` of entity 0 the entity holds no component of type 7 but
is still in the matched set of the system. -/
theorem matched_set_keeps_deleted_entity :
    (engineRun (matchedBySystem ++ [EngineOp.DeleteEntity 0]) engine).map
        (fun ecs =>
          ((ecs.SystemManager.systems[0]?).map
              (fun S => (S.actsOn, S.entities.contains 0)),
            (ecs.EntityComponentManager.entities[0]?).map
              (fun e => (e.deleted, entityHasComponents e [7])))) =
      some (some ([7], true), some (false, false)) := by
  decide

/-- C15: in every engine state, `NewSystem` returns the number of systems registered before
and appends one system with the given function, trigger and required list, whose matched set
holds exactly the ids returned by `GetEntityIDs` for that list (it is the empty map when there
are none); the systems registered before, the entity/component manager and the event manager
are unchanged. -/
theorem NewSystem_registers_matching_entities [Inhabited δ] (ecs : ECS δ ε β) (f : β)
    (triggeredBy : EventTypeID) (actsOn : List ComponentTypeID) :
    (ecs.NewSystem f triggeredBy actsOn).2 = ecs.SystemManager.systems.length ∧
    (∃ S : system β,
      (ecs.NewSystem f triggeredBy actsOn).1.SystemManager.systems =
        ecs.SystemManager.systems ++ [S] ∧
      S.f = f ∧ S.triggeredBy = triggeredBy ∧ S.actsOn = actsOn ∧
      (∀ id, S.entities.contains id = true ↔
        id ∈ ecs.EntityComponentManager.GetEntityIDs actsOn) ∧
      (ecs.EntityComponentManager.GetEntityIDs actsOn = [] → S.entities = GoMap.empty)) ∧
    (∀ i, i < ecs.SystemManager.systems.length →
      (ecs.NewSystem f triggeredBy actsOn).1.SystemManager.systems[i]? =
        ecs.SystemManager.systems[i]?) ∧
    (ecs.NewSystem f triggeredBy actsOn).1.EntityComponentManager =
      ecs.EntityComponentManager ∧
    (ecs.NewSystem f triggeredBy actsOn).1.EventManager = ecs.EventManager := by
  refine ⟨rfl, ⟨_, rfl, rfl, rfl, rfl, ?_, ?_⟩, ?_, rfl, rfl⟩
  · intro id
    rw [systemManager.contains_fillEntities]
    simp [GoMap.contains_empty]
  · intro h
    rw [h]
    rfl
  · intro i hi
    show (ecs.SystemManager.systems ++ _)[i]? = _
    exact List.getElem?_append_left hi

/-- C16: in an engine with the callbacks `New` installs, after a successful `NewComponent` on
entity `eID` the systems are the same in number, function, trigger and required list; for
every system, `eID` is in the matched set when the entity in its new state holds every
required type (precisely: when it was in the set before or holds every required type), and
the membership of every other entity is as before. -/
theorem NewComponent_updates_matched_sets [Inhabited δ] (ecs ecs1 : ECS δ ε β)
    (hw : ecs.Wired) (eID : EntityID) (cType : ComponentTypeID) (data : δ) (id : ComponentID)
    (h : ecs.NewComponent eID cType data = some (Except.ok id, ecs1)) :
    ∃ ent1 : entity,
      ecs1.EntityComponentManager.entities[eID]? = some ent1 ∧
      ecs1.SystemManager.systems.length = ecs.SystemManager.systems.length ∧
      ∀ (i : Nat) (S : system β), ecs.SystemManager.systems[i]? = some S →
        ∃ S1 : system β, ecs1.SystemManager.systems[i]? = some S1 ∧
          S1.f = S.f ∧ S1.triggeredBy = S.triggeredBy ∧ S1.actsOn = S.actsOn ∧
          (entityHasComponents ent1 S.actsOn = true → S1.entities.contains eID = true) ∧
          (S1.entities.contains eID = true ↔
            (S.entities.contains eID = true ∨ entityHasComponents ent1 S.actsOn = true)) ∧
          ∀ e, e ≠ eID → S1.entities.contains e = S.entities.contains e := by
  unfold ECS.NewComponent at h
  simp only [Option.map_eq_some'] at h
  obtain ⟨⟨r, m1, w1⟩, hnc, heq⟩ := h
  simp only [Prod.mk.injEq] at heq
  obtain ⟨hr, hecs⟩ := heq
  subst hr hecs
  obtain ⟨ent, p, he, _, hents, hw1, _, _⟩ :=
    entityComponentManager.NewComponent_ok_inv hnc
  have hlt : eID < ecs.EntityComponentManager.entities.length :=
    (List.getElem?_eq_some.mp he).1
  rw [hw.1] at hw1
  simp only [entityComponentManager.runCallbacks, List.foldl_cons, List.foldl_nil] at hw1
  refine ⟨{ ent with components := ent.components.insert cType { id := id.ID, ptr := p } },
    ?_, ?_, ?_⟩
  · show m1.entities[eID]? = _
    rw [hents]
    exact List.getElem?_set_self hlt
  · show w1.systems.length = _
    rw [hw1]
    exact systemManager.length_newComponentCallback _ _
  · intro i S hS
    obtain ⟨S1, h1, hf, ht, ha, hc⟩ :=
      systemManager.newComponentCallback_getElem?
        (entityComponentManager.newEntity eID
          { ent with components := ent.components.insert cType { id := id.ID, ptr := p } })
        ecs.SystemManager i S hS
    rw [hasComponents_newEntity] at hc
    refine ⟨S1, ?_, hf, ht, ha, ?_, ?_, ?_⟩
    · show w1.systems[i]? = _
      rw [hw1]
      exact h1
    · intro hall
      rw [hc, hall]
      simp [entityComponentManager.newEntity]
    · rw [hc]
      simp [entityComponentManager.newEntity, or_comm]
    · intro e hne
      rw [hc]
      have : ¬ eID = e := fun x => hne x.symm
      simp [entityComponentManager.newEntity, this]

/-- Instance of C16: entity 0 holds type 7 only and is not matched by the system that requires
the types 7 and 8; once it receives a component of type 8 it is in the matched set. -/
theorem NewComponent_updates_matched_sets_witness :
    ((engineAfter positionOnly).SystemManager.systems[0]?).map
        (fun S => S.entities.contains 0) = some false ∧
    ∃ (ecs1 : ECS Nat Nat Unit) (S1 : system Unit),
      (engineAfter positionOnly).NewComponent 0 8 1 =
        some (Except.ok { ID := 0, ComponentTypeID := 8 }, ecs1) ∧
      ecs1.SystemManager.systems[0]? = some S1 ∧ S1.actsOn = [7, 8] ∧
      S1.entities.contains 0 = true := by
  refine ⟨by decide, ?_⟩
  have hres : ((engineAfter positionOnly).NewComponent 0 8 1).map (fun r => r.1) =
      some (Except.ok { ID := 0, ComponentTypeID := 8 }) := by decide
  have hent : ((engineAfter positionOnly).NewComponent 0 8 1).bind
      (fun r => (r.2.EntityComponentManager.entities[0]?).map
        (fun e => entityHasComponents e [7, 8])) = some true := by decide
  have hS : (engineAfter positionOnly).SystemManager.systems[0]? =
      some { f := (), triggeredBy := 3, actsOn := [7, 8], entities := GoMap.empty } := by
    decide
  cases h : (engineAfter positionOnly).NewComponent 0 8 1 with
  | none =>
    rw [h] at hres
    cases hres
  | some r =>
    obtain ⟨res, ecs1⟩ := r
    rw [h] at hres hent
    simp only [Option.map_some', Option.some.injEq] at hres
    subst hres
    obtain ⟨ent1, he, _, hsys⟩ :=
      NewComponent_updates_matched_sets (engineAfter positionOnly) ecs1
        (Wired_engineAfter positionOnly) 0 8 1 { ID := 0, ComponentTypeID := 8 } h
    obtain ⟨S1, h1, _, _, ha, himp, _, _⟩ := hsys 0 _ hS
    simp only [Option.some_bind, he, Option.map_some', Option.some.injEq] at hent
    exact ⟨ecs1, S1, rfl, h1, ha, himp hent⟩

/-- C17: in an engine with the callbacks `New` installs, after a `DeleteComponent` that takes
the deleting path (the store of the type exists and `getSafe` finds the record `c`), with `e`
the entity `c.entity` the record belongs to: the systems are the same in number, function,
trigger and required list; for every system, `e` is in the matched set exactly when it was in
it before and the entity in its new state holds every required type, and the membership of
every other entity is as before. -/
theorem DeleteComponent_updates_matched_sets [Inhabited δ] (ecs ecs1 : ECS δ ε β)
    (hw : ecs.Wired) (id : ComponentID) (tm : componentTypeManager δ) (c : component δ)
    (hl : ecs.EntityComponentManager.componentTypeManagers.lookup id.ComponentTypeID = some tm)
    (hg : tm.getSafe id.ID = some (c, true))
    (h : ecs.DeleteComponent id = some ecs1) :
    ∃ ent1 : entity,
      ecs1.EntityComponentManager.entities[c.entity]? = some ent1 ∧
      ent1.components.contains id.ComponentTypeID = false ∧
      ecs1.SystemManager.systems.length = ecs.SystemManager.systems.length ∧
      ∀ (i : Nat) (S : system β), ecs.SystemManager.systems[i]? = some S →
        ∃ S1 : system β, ecs1.SystemManager.systems[i]? = some S1 ∧
          S1.f = S.f ∧ S1.triggeredBy = S.triggeredBy ∧ S1.actsOn = S.actsOn ∧
          (S1.entities.contains c.entity = true ↔
            (S.entities.contains c.entity = true ∧
              entityHasComponents ent1 S.actsOn = true)) ∧
          ∀ e, e ≠ c.entity → S1.entities.contains e = S.entities.contains e := by
  unfold ECS.DeleteComponent at h
  simp only [Option.map_eq_some'] at h
  obtain ⟨⟨m1, w1⟩, hdc, hecs⟩ := h
  subst hecs
  obtain ⟨ent, tm1, he, _, _, hents, _, hw1, _, _⟩ :=
    entityComponentManager.DeleteComponent_deleting_inv hl hg hdc
  have hlt : c.entity < ecs.EntityComponentManager.entities.length :=
    (List.getElem?_eq_some.mp he).1
  rw [hw.2] at hw1
  simp only [entityComponentManager.runCallbacks, List.foldl_cons, List.foldl_nil] at hw1
  refine ⟨{ ent with components := ent.components.erase id.ComponentTypeID }, ?_, ?_, ?_, ?_⟩
  · show m1.entities[c.entity]? = _
    rw [hents]
    exact List.getElem?_set_self hlt
  · show (ent.components.erase id.ComponentTypeID).contains id.ComponentTypeID = false
    rw [GoMap.contains_erase]
    simp
  · show w1.systems.length = _
    rw [hw1]
    exact systemManager.length_deleteComponentCallback _ _
  · intro i S hS
    obtain ⟨S1, h1, hf, ht, ha, hc⟩ :=
      systemManager.deleteComponentCallback_getElem?
        (entityComponentManager.newEntity c.entity
          { ent with components := ent.components.erase id.ComponentTypeID })
        ecs.SystemManager i S hS
    rw [hasComponents_newEntity] at hc
    refine ⟨S1, ?_, hf, ht, ha, ?_, ?_⟩
    · show w1.systems[i]? = _
      rw [hw1]
      exact h1
    · rw [hc]
      simp [entityComponentManager.newEntity]
    · intro e hne
      rw [hc]
      have : ¬ c.entity = e := fun x => hne x.symm
      simp [entityComponentManager.newEntity, this]

/-- Instance of C17: entity 0 holds the types 7 and 8 and is matched by the system that
requires both; after the deletion of its component of type 8 it is no longer matched. -/
theorem DeleteComponent_updates_matched_sets_witness :
    ((engineAfter positionAndVelocity).SystemManager.systems[0]?).map
        (fun S => S.entities.contains 0) = some true ∧
    ∃ (ecs1 : ECS Nat Nat Unit) (S1 : system Unit),
      (engineAfter positionAndVelocity).DeleteComponent { ID := 0, ComponentTypeID := 8 } =
        some ecs1 ∧
      ecs1.SystemManager.systems[0]? = some S1 ∧ S1.actsOn = [7, 8] ∧
      S1.entities.contains 0 = false := by
  refine ⟨by decide, ?_⟩
  have hsome : ((engineAfter positionAndVelocity).DeleteComponent
      { ID := 0, ComponentTypeID := 8 }).isSome = true := by decide
  have hS : (engineAfter positionAndVelocity).SystemManager.systems[0]? =
      some { f := (), triggeredBy := 3, actsOn := [7, 8],
             entities := (GoMap.empty : GoMap EntityID Unit).insert 0 () } := by
    decide
  cases h : (engineAfter positionAndVelocity).DeleteComponent
      { ID := 0, ComponentTypeID := 8 } with
  | none =>
    rw [h] at hsome
    cases hsome
  | some ecs1 =>
    obtain ⟨ent1, _, hno, _, hsys⟩ :=
      DeleteComponent_updates_matched_sets (engineAfter positionAndVelocity) ecs1
        (Wired_engineAfter positionAndVelocity) { ID := 0, ComponentTypeID := 8 }
        (((engineAfter positionAndVelocity).EntityComponentManager.componentTypeManagers.lookup
          8).getD componentTypeManager.newComponentTypeManager)
        { entity := 0, data := 1, deleted := false } (by decide) (by decide) h
    obtain ⟨S1, h1, _, _, ha, hiff, _⟩ := hsys 0 _ hS
    refine ⟨ecs1, S1, rfl, h1, ha, ?_⟩
    cases hc : S1.entities.contains 0 with
    | false => rfl
    | true =>
      have hall := (hiff.mp hc).2
      simp only [entityHasComponents] at hall
      simp only [show ent1.components.contains 8 = false from hno] at hall
      split at hall <;> simp at hall

/-- C18: in every engine state, whatever callbacks are registered, a `DeleteEntity` that
returns leaves the system manager (hence every matched set) and the event queue as they
were: no deletion callback runs. -/
theorem DeleteEntity_keeps_matched_sets (ecs ecs1 : ECS δ ε β) (id : EntityID)
    (h : ecs.DeleteEntity id = some ecs1) :
    ecs1.SystemManager = ecs.SystemManager ∧ ecs1.EventManager = ecs.EventManager := by
  unfold ECS.DeleteEntity at h
  simp only [Option.map_eq_some'] at h
  obtain ⟨m1, _, hecs⟩ := h
  subst hecs
  exact ⟨rfl, rfl⟩

/-- Instance of C18: entity 0 is matched by the system that requires type 7; after
`DeleteEntity` it holds no component and is still in the matched set. -/
theorem DeleteEntity_keeps_matched_sets_witness :
    ∃ ecs1 : ECS Nat Nat Unit,
      (engineAfter matchedBySystem).DeleteEntity 0 = some ecs1 ∧
      ecs1.SystemManager = (engineAfter matchedBySystem).SystemManager ∧
      (ecs1.SystemManager.systems[0]?).map (fun S => S.entities.contains 0) = some true := by
  have hsome : ((engineAfter matchedBySystem).DeleteEntity 0).isSome = true := by decide
  cases h : (engineAfter matchedBySystem).DeleteEntity 0 with
  | none =>
    rw [h] at hsome
    cases hsome
  | some ecs1 =>
    have hk := DeleteEntity_keeps_matched_sets (engineAfter matchedBySystem) ecs1 0 h
    refine ⟨ecs1, rfl, hk.1, ?_⟩
    rw [hk.1]
    decide

/-! ## NewEntity and DeleteEmptyEntities -/

/-- C19: in every manager state, `NewEntity` returns the previous length of the table; the
table is the old one followed by an entity with the given name, an empty mapping and no
deleted flag, so earlier entities are unchanged; the new id is in the pending-deletion set,
whose other members are as before; stores and callbacks are unchanged. -/
theorem NewEntity_appends_pending_entity (m : entityComponentManager δ σ) (name : String) :
    (m.NewEntity name).2 = m.entities.length ∧
    (m.NewEntity name).1.entities =
      m.entities ++ [{ name := name, components := GoMap.empty, deleted := false }] ∧
    (m.NewEntity name).1.entities[m.entities.length]? =
      some { name := name, components := GoMap.empty, deleted := false } ∧
    (∀ i, i < m.entities.length → (m.NewEntity name).1.entities[i]? = m.entities[i]?) ∧
    (m.NewEntity name).1.entitiesToBeKilled.contains m.entities.length = true ∧
    (∀ i, i ≠ m.entities.length →
      (m.NewEntity name).1.entitiesToBeKilled.contains i = m.entitiesToBeKilled.contains i) ∧
    (m.NewEntity name).1.componentTypeManagers = m.componentTypeManagers ∧
    (m.NewEntity name).1.newComponentCallbacks = m.newComponentCallbacks ∧
    (m.NewEntity name).1.deleteComponentCallbacks = m.deleteComponentCallbacks := by
  refine ⟨rfl, rfl, ?_, ?_, ?_, ?_, rfl, rfl, rfl⟩
  · show (m.entities ++ _)[m.entities.length]? = _
    simp
  · intro i hi
    show (m.entities ++ _)[i]? = _
    exact List.getElem?_append_left hi
  · show (m.entitiesToBeKilled.insert m.entities.length ()).contains _ = true
    rw [GoMap.contains_insert]
    simp
  · intro i hi
    show (m.entitiesToBeKilled.insert m.entities.length ()).contains _ = _
    rw [GoMap.contains_insert]
    have : ¬ m.entities.length = i := fun x => hi x.symm
    simp [this]

/-- C20 (failing run): entity 0 owns a component and the empty entity 1 is pending deletion;
`DeleteEmptyEntities` leaves a table of length 0, so entity 0 is no longer in the table. -/
theorem DeleteEmptyEntities_drops_owner :
    (runOps ownerThenEmpty init).map
        (fun s =>
          (s.1.entities.map (fun e => e.components.size), s.1.entitiesToBeKilled.keys,
            (s.1.DeleteEmptyEntities).map (fun m => m.entities.length))) =
      some ([1, 0], [1], some 0) := by
  decide

/-! ## DeleteEmptyEntities and the queries -/

/-- C21 (counterexample): entity 0 is empty and pending deletion and entity 1 owns a component;
after `DeleteEmptyEntities` entity 0 is still returned by `GetEntityIDs` for the empty list, and
`ForEntities` still visits it. -/
theorem DeleteEmptyEntities_pending_still_queried :
    (runOps pendingBelowOwner init).map
        (fun s =>
          (s.1.entitiesToBeKilled.keys,
            (s.1.DeleteEmptyEntities).map (fun m =>
              (m.GetEntityIDs [], (m.ForEntities (logEntitiesUntil 2) []).map (fun r => r.2))))) =
      some ([0], some ([0, 1], some [0, 1])) := by
  decide

/-- C21 (amended): on a reachable manager state `DeleteEmptyEntities` returns, and for an
entity `e` that was pending deletion: when `e` is still in the table afterwards it carries the
deleted flag and holds no component, so `GetEntityIDs` returns `e` for no non-empty list of
required types; when every entity of the table from `e` upwards was pending, the new table has
at most `e` entities, so `GetEntityIDs` returns `e` for no list at all and `ForEntities` makes
no view with id `e`; when some entity above `e` was neither flagged nor pending, `e` stays in
the table, `GetEntityIDs` returns it for the empty list and `ForEntities` makes a view of it. -/
theorem DeleteEmptyEntities_pending_entity_queries [Inhabited δ]
    (m : entityComponentManager δ σ) (hm : Reachable m) (e : EntityID)
    (hp : m.entitiesToBeKilled.contains e = true) :
    ∃ m1, m.DeleteEmptyEntities = some m1 ∧
      (∀ ent1, m1.entities[e]? = some ent1 →
        ent1.deleted = true ∧ ent1.components.entries = []) ∧
      (∀ L, L ≠ [] → e ∉ m1.GetEntityIDs L) ∧
      ((∀ k, e ≤ k → k < m.entities.length → m.entitiesToBeKilled.contains k = true) →
        m1.entities.length ≤ e ∧ (∀ L, e ∉ m1.GetEntityIDs L) ∧
        ∀ v, v ∈ entityComponentManager.entityViews 0 m1.entities → v.id ≠ e) ∧
      ((∃ k ent, e < k ∧ m.entities[k]? = some ent ∧ ent.deleted = false ∧
          m.entitiesToBeKilled.contains k = false) →
        e ∈ m1.GetEntityIDs [] ∧
        ∃ v, v ∈ entityComponentManager.entityViews 0 m1.entities ∧ v.id = e) := by
  have hpi := hm.pendingInv
  obtain ⟨ent, hent, hnil⟩ := hpi e hp
  have helt : e < m.entities.length := (List.getElem?_eq_some.mp hent).1
  obtain ⟨m1, es, hcall, hlen, hes, hshape⟩ :=
    entityComponentManager.DeleteEmptyEntities_spec m hpi
  have hese : es[e]? = some { ent with deleted := true } := by
    rw [hes e ent hent, hp, Bool.or_true]
  have hsub : ∀ ent1, m1.entities[e]? = some ent1 → ent1 = { ent with deleted := true } := by
    intro ent1 h1
    rcases hshape with h | ⟨r, h, _, _⟩
    · rw [h, hese] at h1
      cases h1
      rfl
    · rw [h, List.getElem?_take] at h1
      split at h1
      · rw [hese] at h1
        cases h1
        rfl
      · cases h1
  have hstill : ∀ ent1, m1.entities[e]? = some ent1 →
      ent1.deleted = true ∧ ent1.components.entries = [] := by
    intro ent1 h1
    rw [hsub ent1 h1]
    exact ⟨rfl, hnil⟩
  have hshort : m1.entities.length ≤ e → ∀ L, e ∉ m1.GetEntityIDs L := by
    intro hle L hin
    obtain ⟨k, ent1, hk, hek, _⟩ :=
      (entityComponentManager.mem_getEntityIDsFrom L m1.entities 0 e).mp hin
    rw [Nat.zero_add] at hek
    subst hek
    have := (List.getElem?_eq_some.mp hk).1
    exact absurd this (Nat.not_lt.mpr hle)
  refine ⟨m1, hcall, hstill, ?_, ?_, ?_⟩
  · intro L hL hin
    obtain ⟨k, ent1, hk, hek, hhas⟩ :=
      (entityComponentManager.mem_getEntityIDsFrom L m1.entities 0 e).mp hin
    rw [Nat.zero_add] at hek
    subst hek
    cases L with
    | nil => exact hL rfl
    | cons t rest =>
      have hc := (entityHasComponents_iff ent1 (t :: rest)).mp hhas t (List.mem_cons_self _ _)
      rw [GoMap.contains_of_entries_nil (hstill ent1 hk).2 t] at hc
      cases hc
  · intro hall
    have hle : m1.entities.length ≤ e := by
      have hpos : 0 < es.length := by rw [hlen]; exact Nat.lt_of_le_of_lt (Nat.zero_le _) helt
      have hlast : m.entitiesToBeKilled.contains (es.length - 1) = true :=
        hall (es.length - 1) (by rw [hlen]; exact Nat.le_sub_one_of_lt helt)
          (by rw [hlen]; exact Nat.sub_lt (hlen ▸ hpos) Nat.one_pos)
      obtain ⟨r, hr, _, hup, _⟩ := entityComponentManager.reapScan_spec es (es.length - 1)
        (Nat.sub_lt hpos Nat.one_pos)
      have hre : r ≤ e := by
        apply hup e (by rw [hlen]; exact Nat.le_sub_one_of_lt helt)
        intro k hek hkn
        have hklt : k < m.entities.length := by
          rw [← hlen]
          exact Nat.lt_of_le_of_lt hkn (Nat.sub_lt hpos Nat.one_pos)
        have hk0 : m.entities[k]? = some m.entities[k] := List.getElem?_eq_getElem hklt
        refine ⟨_, hes k _ hk0, ?_⟩
        show (m.entities[k].deleted || m.entitiesToBeKilled.contains k) = true
        rw [hall k hek hklt, Bool.or_true]
      rcases hshape with h | ⟨r1, h, _, hr1⟩
      · exfalso
        have hcall2 := hcall
        unfold entityComponentManager.DeleteEmptyEntities at hcall2
        obtain ⟨es2, hmk2, hl2, hk2⟩ :=
          entityComponentManager.markDeleted_spec m.entitiesToBeKilled.keys m.entities
            (fun id hid => by
              obtain ⟨ent2, he2, _⟩ := hpi id ((GoMap.mem_keys_iff _ _).mp hid)
              exact (List.getElem?_eq_some.mp he2).1)
        have hany : m.entitiesToBeKilled.keys.any
            (fun id => decide (id + 1 = es2.length)) = true := by
          apply List.any_eq_true.mpr
          refine ⟨es.length - 1, (GoMap.mem_keys_iff _ _).mpr hlast, ?_⟩
          apply decide_eq_true
          rw [hl2, ← hlen]
          exact Nat.sub_add_cancel hpos
        obtain ⟨r2, hr2, hr2le, hup2, _⟩ :=
          entityComponentManager.reapScan_spec es2 (es2.length - 1)
            (Nat.sub_lt (by rw [hl2, ← hlen]; exact hpos) Nat.one_pos)
        simp only [hmk2, hany, if_true, hr2, Option.some.injEq] at hcall2
        rw [← hcall2] at h
        have hlen2 : (es2.take r2).length = es.length := by
          have := congrArg List.length h
          exact this
        rw [List.length_take] at hlen2
        have : r2 < es2.length := Nat.lt_of_le_of_lt hr2le
          (Nat.sub_lt (by rw [hl2, ← hlen]; exact hpos) Nat.one_pos)
        rw [hl2, ← hlen] at this
        have hmin : min r2 es2.length ≤ r2 := Nat.min_le_left _ _
        rw [hlen2] at hmin
        exact absurd this (Nat.not_lt.mpr hmin)
      · rw [hr] at hr1
        cases hr1
        rw [h, List.length_take]
        exact Nat.le_trans (Nat.min_le_left _ _) hre
    refine ⟨hle, hshort hle, ?_⟩
    intro v hv hid
    have := entityComponentManager.id_lt_of_mem_entityViews m1.entities 0 v hv
    rw [Nat.zero_add, hid] at this
    exact absurd this (Nat.not_lt.mpr hle)
  · rintro ⟨k, entk, hek, hk, hnd, hnp⟩
    have hkept : m1.entities[e]? = some { ent with deleted := true } := by
      rcases hshape with h | ⟨r, h, _, hr⟩
      · rw [h]
        exact hese
      · have hklt : k < es.length := by rw [hlen]; exact (List.getElem?_eq_some.mp hk).1
        obtain ⟨r1, hr1, _, _, hlow⟩ := entityComponentManager.reapScan_spec es (es.length - 1)
          (Nat.sub_lt (Nat.lt_of_le_of_lt (Nat.zero_le _) hklt) Nat.one_pos)
        rw [hr] at hr1
        cases hr1
        have hkr : k ≤ r := by
          apply hlow k _ (Nat.le_sub_one_of_lt hklt) (hes k entk hk)
          show (entk.deleted || m.entitiesToBeKilled.contains k) = false
          rw [hnd, hnp]
          rfl
        rw [h, List.getElem?_take_of_lt (Nat.lt_of_lt_of_le hek hkr)]
        exact hese
    constructor
    · apply (entityComponentManager.mem_getEntityIDsFrom [] m1.entities 0 e).mpr
      exact ⟨e, _, hkept, (Nat.zero_add e).symm, rfl⟩
    · refine ⟨entityComponentManager.newEntity e { ent with deleted := true }, ?_, rfl⟩
      apply List.mem_iff_getElem?.mpr
      refine ⟨e, ?_⟩
      rw [entityComponentManager.getElem?_entityViews, hkept, Nat.zero_add]
      rfl

/-- C21 (amended), at a concrete state: entity 0 is empty and pending deletion, entity 1 owns
a component of type 7. -/
theorem DeleteEmptyEntities_pending_entity_queries_witness :
    (managerAfter pendingBelowOwner).entitiesToBeKilled.contains 0 = true ∧
    ∃ m1, (managerAfter pendingBelowOwner).DeleteEmptyEntities = some m1 ∧
      (∀ L, L ≠ [] → 0 ∉ m1.GetEntityIDs L) ∧ 0 ∈ m1.GetEntityIDs [] := by
  obtain ⟨m1, h1, _, h3, _, h5⟩ :=
    DeleteEmptyEntities_pending_entity_queries (managerAfter pendingBelowOwner)
      (reachable_managerAfter pendingBelowOwner) 0 (by decide)
  exact ⟨by decide, m1, h1, h3,
    (h5 ⟨1,
      { name := "b", components := ⟨[(7, { id := 0, ptr := { array := 0, cell := 0 } })]⟩,
        deleted := false },
      by decide, by decide, rfl, by decide⟩).1⟩

/-! ## Run -/

/-- C22 (failing run): entity 0 with a component of type 7 is matched by a system triggered by
events of type 3; after `DeleteEntity(0)` and `DeleteEmptyEntities()` the table is empty but the
matched set of the system still holds the id 0; with one event of type 3 in the queue `Run`
panics (in `GetEntity(0)`) before any behaviour is invoked, whereas with one event of type 4 it
returns. -/
theorem Run_panics_on_reaped_matched_entity :
    (engineRun matchedThenReaped engine).map
        (fun ecs =>
          (ecs.SystemManager.systems.map (fun S => (S.triggeredBy, S.entities.keys)),
            ecs.EntityComponentManager.entities.length,
            ((ecs.NewEvent 3 1).Run idleRun).isSome,
            ((ecs.NewEvent 4 1).Run idleRun).isSome)) =
      some ([(3, [0])], 0, false, true) := by
  decide

/-- C23: in the engine of `TestECS_Counter` (one entity with a counter component of value `c0`,
a Go `int`, and one system on that type whose behaviour adds the payload of the event to the
counter), for every list of payloads pushed as events of the trigger type, a single `Run`
returns with an empty queue, and `GetComponent` then reads the sum `c0 + v1 + ... + vn` of Go
`int` arithmetic: the sum wrapped into 64 bits, which is the exact sum whenever that is a Go
`int`. -/
theorem Run_counter_adds_payloads (c0 : Int) (vs : List Int)
    (hc : -2 ^ 63 ≤ c0 ∧ c0 < 2 ^ 63) :
    ∃ ecs0 ecs1 : ECS Int Int Unit,
      engineRun (counterSetup c0) ECS.New = some ecs0 ∧
      ecs0.GetComponent { ID := 0, ComponentTypeID := countType } = some c0 ∧
      (pushEvents vs ecs0).Run (fun _ => counterFunc) = some ecs1 ∧
      ecs1.EventManager.eventQueue = [] ∧
      ecs1.GetComponent { ID := 0, ComponentTypeID := countType } =
        some (goInt (c0 + vs.sum)) ∧
      (-2 ^ 63 ≤ c0 + vs.sum ∧ c0 + vs.sum < 2 ^ 63 →
        ecs1.GetComponent { ID := 0, ComponentTypeID := countType } = some (c0 + vs.sum)) := by
  have hfold : vs.foldl (fun a v => goInt (a + v)) c0 = goInt (c0 + vs.sum) := by
    have := foldl_goInt vs c0
    rw [goInt_of_range c0 hc.1 hc.2] at this
    exact this
  have hrun : (pushEvents vs (counterEngine eventManager.newEventManager c0)).Run
        (fun _ => counterFunc) =
      some (counterEngine
        (eventManager.newEventManager.pushAll (vs.map (fun v => (countType, v)))).ClearEvents
        (goInt (c0 + vs.sum))) := by
    rw [pushEvents_counterEngine,
      Run_eq_dispatchQueued (fun _ => counterFunc)
        (fun _ e1 ev ent e2 h => counterFunc_keeps_events e1 ev ent e2 h),
      counterEngine_EventManager, eventManager.eventQueue_pushAll]
    have hq : (eventManager.newEventManager : eventManager Int).eventQueue ++
        (vs.map (fun v => (countType, v))).map
          (fun p => ({ EventTypeID := p.1, Data := p.2 } : Event Int)) =
        vs.map (fun v => ({ EventTypeID := countType, Data := v } : Event Int)) := by
      simp [eventManager.newEventManager, List.map_map, Function.comp_def]
    rw [hq, dispatchQueued_counterEngine, hfold, Option.map_some', counterEngine_ClearEvents]
  refine ⟨counterEngine eventManager.newEventManager c0, _, counterEngine_setup c0,
    counterEngine_GetComponent _ c0, hrun, ?_, counterEngine_GetComponent _ _, ?_⟩
  · rw [counterEngine_EventManager]
    exact eventManager.eventQueue_ClearEvents _
  · intro h
    rw [counterEngine_GetComponent, goInt_of_range _ h.1 h.2]

/-- C23 at the values of `TestECS_Counter`: the counter starts at 0, five events of payload 1
are pushed, and the counter reads 5 after one `Run`. -/
theorem Run_counter_adds_payloads_witness :
    (-2 ^ 63 ≤ (0 : Int) ∧ (0 : Int) < 2 ^ 63) ∧
    ∃ ecs0 ecs1 : ECS Int Int Unit,
      engineRun (counterSetup 0) ECS.New = some ecs0 ∧
      (pushEvents [1, 1, 1, 1, 1] ecs0).Run (fun _ => counterFunc) = some ecs1 ∧
      ecs1.GetComponent { ID := 0, ComponentTypeID := countType } = some 5 := by
  obtain ⟨ecs0, ecs1, h0, _, h1, _, _, h2⟩ :=
    Run_counter_adds_payloads 0 [1, 1, 1, 1, 1] (by decide)
  exact ⟨by decide, ecs0, ecs1, h0, h1, h2 (by decide)⟩

/-! ## UpdateComponent -/

/-- C25: in every engine state, for a component id whose type has a store and whose index lies
inside the allocated blocks of that store, `UpdateComponent` returns and changes only the data
field of that one record: the entity table (every mapping), the pending-deletion set, the
callbacks, the system manager (every matched set) and the event queue are unchanged; every
other store is unchanged; the store of the type keeps its length and its number of blocks, the
record of the index keeps its owning entity and its deleted flag and has the new payload, and
every other record is unchanged. -/
theorem UpdateComponent_changes_only_data (ecs : ECS δ ε β) (id : ComponentID)
    (tm : componentTypeManager δ) (X : δ)
    (hl : ecs.EntityComponentManager.componentTypeManagers.lookup id.ComponentTypeID = some tm)
    (hb : id.ID / componentBlockSize < tm.components.length) :
    ∃ (ecs1 : ECS δ ε β) (tm1 : componentTypeManager δ),
      ecs.UpdateComponent id X = some ecs1 ∧
      ecs1.EntityComponentManager.entities = ecs.EntityComponentManager.entities ∧
      ecs1.EntityComponentManager.entitiesToBeKilled =
        ecs.EntityComponentManager.entitiesToBeKilled ∧
      ecs1.EntityComponentManager.newComponentCallbacks =
        ecs.EntityComponentManager.newComponentCallbacks ∧
      ecs1.EntityComponentManager.deleteComponentCallbacks =
        ecs.EntityComponentManager.deleteComponentCallbacks ∧
      ecs1.SystemManager = ecs.SystemManager ∧
      ecs1.EventManager = ecs.EventManager ∧
      (∀ t, t ≠ id.ComponentTypeID →
        ecs1.EntityComponentManager.componentTypeManagers.lookup t =
          ecs.EntityComponentManager.componentTypeManagers.lookup t) ∧
      ecs1.EntityComponentManager.componentTypeManagers.lookup id.ComponentTypeID =
        some tm1 ∧
      tm1.len = tm.len ∧ tm1.components.length = tm.components.length ∧
      tm1.get id.ID = (tm.get id.ID).map (fun c => { c with data := X }) ∧
      (∀ j, j ≠ id.ID → tm1.get j = tm.get j) := by
  obtain ⟨tm1, hm, hlen, hblk, _, _, hget, hfr⟩ :=
    componentTypeManager.modify_eq_some hb (fun c => { c with data := X })
  refine ⟨{ ecs with EntityComponentManager :=
      { ecs.EntityComponentManager with componentTypeManagers :=
          ecs.EntityComponentManager.componentTypeManagers.insert id.ComponentTypeID tm1 } },
    tm1, ?_, rfl, rfl, rfl, rfl, rfl, rfl, ?_, ?_, hlen, hblk, hget, hfr⟩
  · unfold ECS.UpdateComponent entityComponentManager.UpdateComponent
    simp only [hl, hm, Option.map_some']
  · intro t ht
    exact GoMap.lookup_insert_ne _ _ (fun e => ht e.symm)
  · exact GoMap.lookup_insert_self _ _ _

/-- Instance of C25: the payload of the component of entity 0 is replaced by 99; the matched
set of the system is as before. -/
theorem UpdateComponent_changes_only_data_witness :
    ∃ (ecs1 : ECS Nat Nat Unit) (tm1 : componentTypeManager Nat),
      (engineAfter matchedBySystem).UpdateComponent { ID := 0, ComponentTypeID := 7 } 99 =
        some ecs1 ∧
      ecs1.SystemManager = (engineAfter matchedBySystem).SystemManager ∧
      ecs1.EntityComponentManager.componentTypeManagers.lookup 7 = some tm1 ∧
      tm1.get 0 = some { entity := 0, data := 99, deleted := false } := by
  obtain ⟨ecs1, tm1, h, _, _, _, _, hs, _, _, hl1, _, _, hget, _⟩ :=
    UpdateComponent_changes_only_data (engineAfter matchedBySystem)
      { ID := 0, ComponentTypeID := 7 }
      (((engineAfter matchedBySystem).EntityComponentManager.componentTypeManagers.lookup
        7).getD componentTypeManager.newComponentTypeManager) 99 (by decide) (by decide)
  refine ⟨ecs1, tm1, h, hs, hl1, ?_⟩
  rw [hget]
  decide

/-! ## Events -/

/-- C26: for every event queue, type and payload, `NewEvent` leaves the queue equal to the old
one followed by the single event made of that type and payload; the events already queued keep
their places, and nothing is checked about the pair. -/
theorem NewEvent_appends (m : eventManager ε) (eType : EventTypeID) (data : ε) :
    (m.NewEvent eType data).eventQueue =
      m.eventQueue ++ [{ EventTypeID := eType, Data := data }] ∧
    (m.NewEvent eType data).eventQueue.length = m.eventQueue.length + 1 ∧
    (m.NewEvent eType data).eventQueue.take m.eventQueue.length = m.eventQueue ∧
    (m.NewEvent eType data).eventQueue[m.eventQueue.length]? =
      some { EventTypeID := eType, Data := data } := by
  have h := eventManager.eventQueue_NewEvent m eType data
  refine ⟨h, ?_, ?_, ?_⟩
  · rw [h]
    simp
  · rw [h]
    simp
  · rw [h]
    simp

/-- C28: for every event queue, the empty one included, `ClearEvents` leaves a queue of length
zero, and a following `ForEvents` calls no visitor and returns `true, nil`. -/
theorem ClearEvents_empties_queue (m : eventManager ε)
    (i : Event ε → ω → Option ((Bool × Option ξ) × ω)) (w : ω) :
    m.ClearEvents.eventQueue = [] ∧ m.ClearEvents.eventQueue.length = 0 ∧
    m.ClearEvents.ForEvents i w = some ((true, none), w) := by
  have h : m.ClearEvents.eventQueue = [] := by
    unfold eventManager.ClearEvents
    by_cases hl : m.eventQueue.length > 0
    · rw [if_pos hl]
    · rw [if_neg hl]
      exact List.length_eq_zero.mp (by omega)
  refine ⟨h, by rw [h]; rfl, ?_⟩
  unfold eventManager.ForEvents
  rw [h]
  rfl

/-! ## Queries -/

/-- C29: for every manager state and visitor acting on an outside world (it does not change
the manager), `ForEntities` calls the visitor on one view per entity of the table, in
ascending id order, the view of entity `k` carrying the id `k` and the name and mapping of that
entity. When every call lets the iteration go on, every entity is visited and the result is
`true, nil`; when the views before `e` let it go on and the call on `e` returns `false` or an
error, the result is that of the call on `e` and no later entity is visited. Every run that
returns is one of these two. -/
theorem ForEntities_visits_until_stop (m : entityComponentManager δ σ)
    (i : Entity → ω → Option ((Bool × Option ξ) × ω)) (w : ω) :
    (entityComponentManager.entityViews 0 m.entities).length = m.entities.length ∧
    (∀ k, (entityComponentManager.entityViews 0 m.entities)[k]? =
      (m.entities[k]?).map
        (fun ent => ({ id := k, name := ent.name, components := ent.components } : Entity))) ∧
    (∀ w1, visitAll i (entityComponentManager.entityViews 0 m.entities) w = some w1 →
      m.ForEntities i w = some ((true, none), w1)) ∧
    (∀ pre e post w1 w2 r, entityComponentManager.entityViews 0 m.entities = pre ++ e :: post →
      visitAll i pre w = some w1 → i e w1 = some (r, w2) → continues r = false →
      m.ForEntities i w = some (r, w2)) ∧
    (∀ r w1, m.ForEntities i w = some (r, w1) →
      (visitAll i (entityComponentManager.entityViews 0 m.entities) w = some w1 ∧
        r = (true, none)) ∨
      ∃ pre e post w0, entityComponentManager.entityViews 0 m.entities = pre ++ e :: post ∧
        visitAll i pre w = some w0 ∧ i e w0 = some (r, w1) ∧ continues r = false) := by
  refine ⟨entityComponentManager.length_entityViews _ _, ?_, ?_, ?_, ?_⟩
  · intro k
    rw [entityComponentManager.getElem?_entityViews, Nat.zero_add]
    rfl
  · intro w1 h
    exact forEach_of_visitAll i _ w w1 h
  · intro pre e post w1 w2 r hq hv he hr
    unfold entityComponentManager.ForEntities
    rw [hq]
    exact forEach_stops i pre e post w w1 w2 r hv he hr
  · intro r w1 h
    exact forEach_cases i _ w w1 r h

/-- Instance of C29: in a table of three entities a visitor that stops at entity 1 sees the
entities 0 and 1 and its result `false, nil` is returned. -/
theorem ForEntities_visits_until_stop_witness :
    (managerAfter (newEntities 3)).ForEntities (logEntitiesUntil 1) [] =
      some ((false, none), [0, 1]) :=
  (ForEntities_visits_until_stop (managerAfter (newEntities 3)) (logEntitiesUntil 1) []).2.2.2.1
    [{ id := 0, name := "e", components := GoMap.empty }]
    { id := 1, name := "e", components := GoMap.empty }
    [{ id := 2, name := "e", components := GoMap.empty }]
    [0] [0, 1] (false, none) (by decide) rfl rfl rfl

/-- C30: for every manager state and list of component types, `GetEntityIDs` returns the ids
in ascending order, hence without duplicates; an id is returned exactly when it is an index of
the table and the mapping of the entity there contains every type of the list; for the empty
list the result is every index of the table. -/
theorem GetEntityIDs_exact (m : entityComponentManager δ σ) (actsOn : List ComponentTypeID) :
    (m.GetEntityIDs actsOn).Nodup ∧
    (m.GetEntityIDs actsOn).Pairwise (· < ·) ∧
    (∀ id, id ∈ m.GetEntityIDs actsOn ↔
      ∃ ent, m.entities[id]? = some ent ∧
        ∀ t, t ∈ actsOn → ent.components.contains t = true) ∧
    m.GetEntityIDs [] = List.range m.entities.length := by
  have hs := entityComponentManager.getEntityIDsFrom_sorted actsOn m.entities 0
  refine ⟨?_, hs, ?_, ?_⟩
  · exact hs.imp (fun h => Nat.ne_of_lt h)
  · intro id
    unfold entityComponentManager.GetEntityIDs
    rw [entityComponentManager.mem_getEntityIDsFrom]
    constructor
    · rintro ⟨k, ent, hk, hx, hc⟩
      have : id = k := by rw [hx]; exact Nat.zero_add k
      subst this
      exact ⟨ent, hk, (entityHasComponents_iff ent actsOn).mp hc⟩
    · rintro ⟨ent, hk, hc⟩
      exact ⟨id, ent, hk, (Nat.zero_add id).symm, (entityHasComponents_iff ent actsOn).mpr hc⟩
  · unfold entityComponentManager.GetEntityIDs
    rw [entityComponentManager.getEntityIDsFrom_nil, List.range_eq_range']

/-! ## Views of systems -/

/-- C31 (failing input, every registration): after `NewSystem(f, ev, L)` on any engine,
`GetSystem` of the returned id finds the system, whose field `actsOn` is `L` and whose
`TriggeredBy()` is `ev`, but `ActsOn()` returns the empty (nil) slice: it is `L` only when `L`
is empty. -/
theorem ActsOn_returns_nil [Inhabited δ] (ecs : ECS δ ε β) (f : β) (ev : EventTypeID)
    (L : List ComponentTypeID) :
    ∃ s : System β,
      (ecs.NewSystem f ev L).1.GetSystem (ecs.NewSystem f ev L).2 = some s ∧
      s.ID = (ecs.NewSystem f ev L).2 ∧ s.system.actsOn = L ∧ s.TriggeredBy = ev ∧
      s.ActsOn = [] ∧ (s.ActsOn = L ↔ L = []) := by
  refine ⟨{ id := ecs.SystemManager.systems.length,
            system := { f := f, triggeredBy := ev, actsOn := L,
                        entities := systemManager.fillEntities GoMap.empty
                          (ecs.EntityComponentManager.GetEntityIDs L) } },
    ?_, rfl, rfl, rfl, ?_, ?_⟩
  · simp [ECS.GetSystem, systemManager.GetSystem, ECS.NewSystem, systemManager.NewSystem]
  · simp [System.ActsOn, goCopy]
  · simp [System.ActsOn, goCopy, eq_comm]

/-! ## Matched sets and the entity table -/

/-- C36 (failing runs): entity 0 with a component of type 7 is matched by a system triggered
by events of type 3. After `DeleteEntity(0)` and `DeleteEmptyEntities()`, and also after
`NewEntity("b")` and `DeleteEmptyEntities()`, the table is empty while the matched set of the
system still holds the id 0: `GetEntity(0)` panics, and so does `RunSystems` on an event of
type 3. -/
theorem matched_set_outlives_table_entry :
    (engineRun matchedThenReaped engine).map
        (fun ecs =>
          (ecs.SystemManager.systems.map (fun S => S.entities.keys),
            ecs.EntityComponentManager.entities.length,
            (ecs.GetEntity 0).isSome,
            (ecs.RunSystems idleRun { EventTypeID := 3, Data := 1 }).isSome)) =
      some ([[0]], 0, false, false) ∧
    (engineRun matchedBelowEmpty engine).map
        (fun ecs =>
          (ecs.SystemManager.systems.map (fun S => S.entities.keys),
            ecs.EntityComponentManager.entities.length,
            (ecs.GetEntity 0).isSome,
            (ecs.RunSystems idleRun { EventTypeID := 3, Data := 1 }).isSome)) =
      some ([[0]], 0, false, false) := by
  constructor <;> decide

/-! ## Stores -/

/-- C32: for every list of `n` pairs of entity and payload, adding them one after the other to
a new store returns the indices `0, 1, ..., n-1` in this order and leaves a store of length
`n` with exactly `max(1, ceil(n/64))` blocks, in which the record of slot `k mod 64` of block
`k div 64` holds the entity and the payload of the `k`-th pair and is not deleted; and adding
one more component to that store returns the index `n` and changes no record of an index
below `n`. -/
theorem new_fills_slots_in_order [Inhabited δ] (l : List (EntityID × δ)) :
    ∃ m : componentTypeManager δ,
      componentTypeManager.newAll l componentTypeManager.newComponentTypeManager =
        some (m, List.range l.length) ∧
      m.len = l.length ∧
      m.components.length = max 1 ((l.length + 63) / 64) ∧
      (∀ (k : Nat) (e : EntityID) (d : δ), l[k]? = some (e, d) →
        (m.components[k / 64]?).map
            (fun b => b.get ⟨k % 64, Nat.mod_lt k (by decide)⟩) =
          some { entity := e, data := d, deleted := false }) ∧
      ∀ (e : EntityID) (d : δ), ∃ m1 : componentTypeManager δ,
        m.new e d = some (m1, l.length) ∧ ∀ j, j < l.length → m1.get j = m.get j := by
  obtain ⟨m, hall, hlen, hwf, hblk, _, hnew⟩ :=
    componentTypeManager.newAll_spec l
      (componentTypeManager.newComponentTypeManager : componentTypeManager δ)
      componentTypeManager.WF_new (by simp [componentTypeManager.newComponentTypeManager])
  have hlen0 : m.len = l.length := by
    rw [hlen]
    exact Nat.zero_add _
  refine ⟨m, ?_, hlen0, ?_, ?_, ?_⟩
  · rw [hall, List.range_eq_range']
    rfl
  · rw [hblk, hlen0]
  · intro k e d hk
    have := hnew k e d hk
    rw [show (componentTypeManager.newComponentTypeManager :
      componentTypeManager δ).len + k = k from Nat.zero_add k] at this
    exact this
  · intro e d
    obtain ⟨m1, hn, _, _, _, _, hfr⟩ := componentTypeManager.new_eq_some hwf e d
    refine ⟨m1, by rw [← hlen0]; exact hn, ?_⟩
    intro j hj
    have hj' : j < m.len := by rw [hlen0]; exact hj
    exact hfr j (Nat.ne_of_lt hj')
      ((Nat.div_lt_iff_lt_mul componentTypeManager.componentBlockSize_pos).mpr
        (by rw [Nat.mul_comm]; exact Nat.lt_of_lt_of_le hj' hwf.2))

/-- C33: in every store whose length fits in its blocks (the shape of every store the code
makes), for an index `id` below the length that is not the highest one (`id < len - 1`),
`delete(id)` returns and only sets the deleted flag of record `id`: the length, the number of
blocks, the memory outside the slice and every other record are unchanged, and record `id`
keeps its entity and its data. -/
theorem delete_below_top_only_flags (m : componentTypeManager δ) (id : Nat) (hwf : m.WF)
    (hid : id + 1 < m.len) :
    ∃ m1 : componentTypeManager δ,
      m.delete id = some m1 ∧ m1.len = m.len ∧
      m1.components.length = m.components.length ∧
      m1.spare = m.spare ∧ m1.retired = m.retired ∧
      m1.get id = (m.get id).map (fun c => { c with deleted := true }) ∧
      ∀ j, j ≠ id → m1.get j = m.get j := by
  have hb : id / componentBlockSize < m.components.length :=
    (Nat.div_lt_iff_lt_mul componentTypeManager.componentBlockSize_pos).mpr
      (by rw [Nat.mul_comm]; exact Nat.lt_of_lt_of_le (Nat.lt_of_succ_lt hid) hwf.2)
  obtain ⟨m1, hm, hlen, hblk, hsp, hret, hget, hfr⟩ :=
    componentTypeManager.modify_eq_some hb (fun c => { c with deleted := true })
  refine ⟨m1, ?_, hlen, hblk, hsp, hret, hget, hfr⟩
  unfold componentTypeManager.delete
  simp only [hm]
  have hne : ¬ id + 1 = m1.len := by
    rw [hlen]
    exact Nat.ne_of_lt hid
  rw [if_neg hne]

/-- Instance of C33: two components are added to a new store and a third one after them; the
deletion of index 0 leaves length 3 and one block. -/
theorem delete_below_top_only_flags_witness :
    ∃ m1 : componentTypeManager Nat,
      (storeAfter [StoreOp.new 0 10, StoreOp.new 1 11, StoreOp.new 2 12]).delete 0 = some m1 ∧
      m1.len = 3 ∧ m1.components.length = 1 ∧
      m1.get 0 = some { entity := 0, data := 10, deleted := true } ∧
      m1.get 1 = some { entity := 1, data := 11, deleted := false } := by
  obtain ⟨m1, h, hlen, hblk, _, _, hget, hfr⟩ :=
    delete_below_top_only_flags
      (storeAfter [StoreOp.new 0 10, StoreOp.new 1 11, StoreOp.new 2 12]) 0
      ⟨by decide, by decide⟩ (by decide)
  refine ⟨m1, h, ?_, ?_, ?_, ?_⟩
  · rw [hlen]; decide
  · rw [hblk]; decide
  · rw [hget]; decide
  · rw [hfr 1 (by decide)]; decide

/-- C34: every store that calls of `new` and of `delete` make from a new store has at least
one block and a length of at most 64 times its number of blocks, so every index below the
length lies inside the allocated blocks and `get` and `getSafe` find its record; in such a
store a further `new` returns, and so does `delete` of every index below the length. -/
theorem store_length_within_blocks [Inhabited δ] (m : componentTypeManager δ)
    (h : m.StoreReachable) :
    0 < m.components.length ∧ m.len ≤ 64 * m.components.length ∧
    (∀ id, id < m.len →
      id / 64 < m.components.length ∧ ∃ c, m.get id = some c ∧ m.getSafe id = some (c, true)) ∧
    (∀ (e : EntityID) (d : δ), ∃ m1, m.new e d = some (m1, m.len)) ∧
    ∀ id, id < m.len → ∃ m1, m.delete id = some m1 := by
  obtain ⟨ops, hr⟩ := h
  have hwf : m.WF := componentTypeManager.storeRun_WF ops _ m componentTypeManager.WF_new hr
  have hb : ∀ id, id < m.len → id / componentBlockSize < m.components.length := by
    intro id hid
    exact (Nat.div_lt_iff_lt_mul componentTypeManager.componentBlockSize_pos).mpr
      (by rw [Nat.mul_comm]; exact Nat.lt_of_lt_of_le hid hwf.2)
  refine ⟨hwf.1, hwf.2, ?_, ?_, ?_⟩
  · intro id hid
    refine ⟨hb id hid, (m.components.get ⟨_, hb id hid⟩).get (slotOf id), ?_, ?_⟩
    · simp only [componentTypeManager.get, List.getElem?_eq_getElem (hb id hid),
        Option.map_some']
      rfl
    · simp only [componentTypeManager.getSafe, ge_iff_le, Nat.not_le.mpr hid, if_false,
        componentTypeManager.get, List.getElem?_eq_getElem (hb id hid), Option.map_some']
      rfl
  · intro e d
    obtain ⟨m1, hn, _⟩ := componentTypeManager.new_eq_some hwf e d
    exact ⟨m1, hn⟩
  · intro id hid
    exact componentTypeManager.delete_eq_some (hb id hid)

/-- Instance of C34: the store after two additions and the deletion of index 0. -/
theorem store_length_within_blocks_witness :
    (storeAfter twoNewOneDelete).len = 2 ∧
    0 < (storeAfter twoNewOneDelete).components.length ∧
    (storeAfter twoNewOneDelete).len ≤ 64 * (storeAfter twoNewOneDelete).components.length :=
  ⟨by decide,
    (store_length_within_blocks (storeAfter twoNewOneDelete)
      ⟨twoNewOneDelete, by decide⟩).1,
    (store_length_within_blocks (storeAfter twoNewOneDelete)
      ⟨twoNewOneDelete, by decide⟩).2.1⟩

/-! ## The pending-deletion set -/

/-- C35: in every manager state reachable through the public operations, every id of the
pending-deletion set is an index of the entity table and the entity at that index has an
empty component mapping. -/
theorem pending_ids_are_empty_table_entries [Inhabited δ] (m : entityComponentManager δ σ)
    (hm : Reachable m) (id : EntityID) (hp : m.entitiesToBeKilled.contains id = true) :
    id < m.entities.length ∧
    ∃ ent, m.entities[id]? = some ent ∧ ent.components.entries = [] ∧
      ent.components.size = 0 ∧ ∀ t, ent.components.contains t = false := by
  obtain ⟨ent, he, hn⟩ := hm.pendingInv id hp
  refine ⟨(List.getElem?_eq_some.mp he).1, ent, he, hn, ?_, ?_⟩
  · show ent.components.entries.length = 0
    rw [hn]
    rfl
  · exact GoMap.contains_of_entries_nil hn

/-- Instance of C35: entity 0 lost its only component and is pending deletion. -/
theorem pending_ids_are_empty_table_entries_witness :
    (managerAfter
      [Op.NewEntity "a", Op.NewComponent 0 7 10,
        Op.DeleteComponent { ID := 0, ComponentTypeID := 7 }]).entitiesToBeKilled.contains 0 =
      true ∧
    0 < (managerAfter
      [Op.NewEntity "a", Op.NewComponent 0 7 10,
        Op.DeleteComponent { ID := 0, ComponentTypeID := 7 }]).entities.length :=
  ⟨by decide,
    (pending_ids_are_empty_table_entries _ (reachable_managerAfter _) 0 (by decide)).1⟩

/-! ## Events pushed during a run -/

/-- C37 (counterexample): entity 0 is matched by a system triggered by events of type 3 and
the queue holds the events of payloads 1, 2 and 3. The behaviour logs the payload of every
event it is run for and, at the event of payload 1, calls `ClearEvents` and then pushes the
events of payloads 100 and 200. `Run` dispatches the payloads 1, 200, 3: the event pushed
second is written into the cell of the backing array that the loop of `ForEvents` reads next,
so an event pushed with `NewEvent` during the `Run` is dispatched during that `Run`. -/
theorem Run_dispatches_event_pushed_after_clear :
    logEngine.EventManager.eventQueue =
      [{ EventTypeID := 3, Data := 1 }, { EventTypeID := 3, Data := 2 },
        { EventTypeID := 3, Data := 3 }] ∧
    (logEngine.Run logClearPush).map
        (fun ecs =>
          (ecs.GetComponent { ID := 0, ComponentTypeID := 7 }, ecs.EventManager.eventQueue)) =
      some (some [1, 200, 3], []) := by
  constructor <;> decide

/-- C37 (amended): for every engine state and behaviours that change the event manager only
by pushing events with `NewEvent` (after every invocation the event manager is the one the
invocation found, after zero or more calls of `NewEvent`; no behaviour calls `ClearEvents`),
`Run` is the dispatch of exactly the events that were queued when it started, in queue order,
followed by `ClearEvents`: the events pushed meanwhile are at the end of the queue when the
dispatch is over, none of them is dispatched, and the queue is empty when `Run` returns. -/
theorem Run_dispatches_only_queued_events [Inhabited δ] (run : β → SystemFunc δ ε β)
    (ecs : ECS δ ε β)
    (hpush : ∀ f e1 ev ent e2, run f e1 ev ent = some e2 →
      ∃ added, e2.EventManager = e1.EventManager.pushAll added) :
    ecs.Run run = (dispatchQueued run ecs.EventManager.eventQueue ecs).map ECS.ClearEvents ∧
    (∀ mid, dispatchQueued run ecs.EventManager.eventQueue ecs = some mid →
      (∃ pushed, mid.EventManager.eventQueue = ecs.EventManager.eventQueue ++ pushed) ∧
      ecs.Run run = some mid.ClearEvents) ∧
    ∀ ecs1, ecs.Run run = some ecs1 → ecs1.EventManager.eventQueue = [] := by
  have hrun := Run_eq_dispatchQueued run hpush ecs
  refine ⟨hrun, ?_, ?_⟩
  · intro mid hmid
    obtain ⟨added, hadd⟩ := dispatchQueued_pushes run hpush _ ecs mid hmid
    refine ⟨⟨added.map (fun p => { EventTypeID := p.1, Data := p.2 }), ?_⟩, ?_⟩
    · rw [hadd, eventManager.eventQueue_pushAll]
    · rw [hrun, hmid]
      rfl
  · intro ecs1 h1
    rw [hrun] at h1
    cases hd : dispatchQueued run ecs.EventManager.eventQueue ecs with
    | none => rw [hd] at h1; cases h1
    | some mid =>
      rw [hd] at h1
      simp only [Option.map_some', Option.some.injEq] at h1
      subst h1
      exact eventManager.eventQueue_ClearEvents _

/-- Instance of C37 (amended): a system triggered by events of type 3 matches entity 0 and its
behaviour pushes one more event of type 3 at every invocation; with one event of type 3 in the
queue the dispatch ends with the pushed event behind the first one (the behaviour ran once),
and `Run` returns with an empty queue. -/
theorem Run_dispatches_only_queued_events_witness :
    (dispatchQueued pushAgain [{ EventTypeID := 3, Data := 1 }]
        ((engineAfter matchedBySystem).NewEvent 3 1)).map
        (fun mid => mid.EventManager.eventQueue) =
      some [{ EventTypeID := 3, Data := 1 }, { EventTypeID := 3, Data := 2 }] ∧
    ∃ ecs1, ((engineAfter matchedBySystem).NewEvent 3 1).Run pushAgain = some ecs1 ∧
      ecs1.EventManager.eventQueue = [] := by
  have hthm := Run_dispatches_only_queued_events pushAgain
    ((engineAfter matchedBySystem).NewEvent 3 1)
    (by
      intro f e1 ev ent e2 h
      simp only [pushAgain, Option.some.injEq] at h
      subst h
      exact ⟨[(ev.EventTypeID, ev.Data + 1)], rfl⟩)
  refine ⟨by decide, ?_⟩
  cases h : ((engineAfter matchedBySystem).NewEvent 3 1).Run pushAgain with
  | none =>
    have hs : (((engineAfter matchedBySystem).NewEvent 3 1).Run pushAgain).isSome = true := by
      decide
    rw [h] at hs
    cases hs
  | some ecs1 => exact ⟨ecs1, rfl, hthm.2.2 ecs1 h⟩

/-! ## Direction of the membership updates -/

/-- C38: in an engine with the callbacks `New` installs, a `NewComponent` call that returns
(with a component id or with the duplicate-type error) leaves the systems the same in number
and removes no entity from any matched set, and a `DeleteComponent` call that returns leaves
the systems the same in number and adds no entity to any matched set. -/
theorem membership_updates_are_monotone [Inhabited δ] (ecs : ECS δ ε β) (hw : ecs.Wired) :
    (∀ (eID : EntityID) (cType : ComponentTypeID) (data : δ)
        (r : Except DuplicateTypeError ComponentID) (ecs1 : ECS δ ε β),
      ecs.NewComponent eID cType data = some (r, ecs1) →
      ecs1.SystemManager.systems.length = ecs.SystemManager.systems.length ∧
      ∀ (i : Nat) (S : system β), ecs.SystemManager.systems[i]? = some S →
        ∃ S1 : system β, ecs1.SystemManager.systems[i]? = some S1 ∧
          ∀ e, S.entities.contains e = true → S1.entities.contains e = true) ∧
    (∀ (id : ComponentID) (ecs1 : ECS δ ε β), ecs.DeleteComponent id = some ecs1 →
      ecs1.SystemManager.systems.length = ecs.SystemManager.systems.length ∧
      ∀ (i : Nat) (S : system β), ecs.SystemManager.systems[i]? = some S →
        ∃ S1 : system β, ecs1.SystemManager.systems[i]? = some S1 ∧
          ∀ e, S1.entities.contains e = true → S.entities.contains e = true) := by
  constructor
  · intro eID cType data r ecs1 h
    unfold ECS.NewComponent at h
    simp only [Option.map_eq_some'] at h
    obtain ⟨⟨r0, m1, w1⟩, hnc, heq⟩ := h
    simp only [Prod.mk.injEq] at heq
    obtain ⟨hr, hecs⟩ := heq
    subst hr hecs
    rcases entityComponentManager.NewComponent_world hnc with hw1 | ⟨v, hw1⟩
    · subst hw1
      exact ⟨rfl, fun i S hS => ⟨S, hS, fun e he => he⟩⟩
    · rw [hw.1] at hw1
      simp only [entityComponentManager.runCallbacks, List.foldl_cons, List.foldl_nil] at hw1
      subst hw1
      refine ⟨systemManager.length_newComponentCallback _ _, ?_⟩
      intro i S hS
      obtain ⟨S1, h1, _, _, _, hc⟩ :=
        systemManager.newComponentCallback_getElem? v ecs.SystemManager i S hS
      refine ⟨S1, h1, ?_⟩
      intro e he
      rw [hc, he, Bool.or_true]
  · intro id ecs1 h
    unfold ECS.DeleteComponent at h
    simp only [Option.map_eq_some'] at h
    obtain ⟨⟨m1, w1⟩, hdc, hecs⟩ := h
    subst hecs
    rcases entityComponentManager.DeleteComponent_world hdc with hw1 | ⟨v, hw1⟩
    · subst hw1
      exact ⟨rfl, fun i S hS => ⟨S, hS, fun e he => he⟩⟩
    · rw [hw.2] at hw1
      simp only [entityComponentManager.runCallbacks, List.foldl_cons, List.foldl_nil] at hw1
      subst hw1
      refine ⟨systemManager.length_deleteComponentCallback _ _, ?_⟩
      intro i S hS
      obtain ⟨S1, h1, _, _, _, hc⟩ :=
        systemManager.deleteComponentCallback_getElem? v ecs.SystemManager i S hS
      refine ⟨S1, h1, ?_⟩
      intro e he
      rw [hc] at he
      simp only [Bool.and_eq_true] at he
      exact he.1

/-- Instance of C38: entity 0 is matched by the system on type 7; a new component of type 8
keeps it in the matched set. -/
theorem membership_updates_are_monotone_witness :
    ∃ (ecs1 : ECS Nat Nat Unit) (S1 : system Unit),
      (engineAfter matchedBySystem).NewComponent 0 8 1 =
        some (Except.ok { ID := 0, ComponentTypeID := 8 }, ecs1) ∧
      ecs1.SystemManager.systems[0]? = some S1 ∧ S1.entities.contains 0 = true := by
  have hres : ((engineAfter matchedBySystem).NewComponent 0 8 1).map (fun r => r.1) =
      some (Except.ok { ID := 0, ComponentTypeID := 8 }) := by decide
  have hS : (engineAfter matchedBySystem).SystemManager.systems[0]? =
      some { f := (), triggeredBy := 3, actsOn := [7], entities := ⟨[(0, ())]⟩ } := by
    decide
  cases h : (engineAfter matchedBySystem).NewComponent 0 8 1 with
  | none =>
    rw [h] at hres
    cases hres
  | some r =>
    obtain ⟨res, ecs1⟩ := r
    rw [h] at hres
    simp only [Option.map_some', Option.some.injEq] at hres
    subst hres
    obtain ⟨S1, h1, hmono⟩ :=
      ((membership_updates_are_monotone (engineAfter matchedBySystem)
        (Wired_engineAfter matchedBySystem)).1 0 8 1 _ ecs1 h).2 0 _ hS
    exact ⟨ecs1, S1, rfl, h1, hmono 0 (by decide)⟩

end Claims

end Ecs
